import Mathlib

/-!
# SdConfigFile

A shallow embedding of `src/SdConfigFile.cpp` / `src/SdConfigFile.h` (version 0.1.0) and a
verification of the properties its specification states.

Conventions of the embedding

* A byte is a `Nat` (its character code); a file is a `List Nat`.
* `lineBuffer` is a list of bytes. `char*` values that point into it (`currentPos`, the pointer
  kept by `strtok`) are offsets into the buffer; `none` is the `NULL` pointer.
* Every method of the class is a function on the object state `SdConfigFile`.  A method whose
  C++ execution can dereference `NULL`, halt, or write out of bounds returns `Except Fault _`.
* `while` loops carry a fuel argument; each public entry point supplies fuel computed from the
  size of the file it reads, and the theorems show that this fuel is never exhausted.
* The SdFat driver, `Serial` and the C library are outside the repository.  They are modelled
  from their documented behaviour in the namespaces `SdFat`, `Print` and `Libc`.
-/

/-- The character codes of a string literal. -/
def ascii (s : String) : List Nat := s.toList.map Char.toNat

/-- Ways in which the C++ code fails to return normally. -/
inductive Fault
  /-- A `NULL` character pointer is dereferenced. -/
  | nullDeref
  /-- The call `sd.initErrorHalt` was reached, which never returns. -/
  | halted
  /-- A byte is stored outside the destination memory handed to the method. -/
  | outOfBounds
  /-- The fuel of a modelled loop ran out (never the case for the entry points below). -/
  | outOfFuel
deriving DecidableEq, Repr

/-- The messages the code prints on `Serial`. -/
inductive SerialMsg
  | configFileNotFound
  | cantOpenTheConfigFile
  | unableToOpenTemporaryFile
  | unableToOpenConfigFile
  | unableToRenameTemporaryFile
deriving DecidableEq, Repr

/-! ## C library -/

namespace Libc

/-- The C string that starts at offset `p` of `buf`: the bytes up to the first NUL. -/
def cstr (buf : List Nat) (p : Nat) : List Nat := (buf.drop p).takeWhile (· ≠ 0)

/-- The C string a `const char*` argument denotes. -/
def cstrOf (arg : List Nat) : List Nat := arg.takeWhile (· ≠ 0)

/-- The function `strlen` at offset `p`. -/
def strlen (buf : List Nat) (p : Nat) : Nat := (cstr buf p).length

/-- The function `strtok(_, "=")` scanning from offset `start`: the token found (or `NULL`), the
buffer with the delimiter that ends the token overwritten by NUL, and the pointer `strtok`
keeps for its next call. Leading delimiters are skipped. -/
def strtokFrom (buf : List Nat) (start : Nat) : Option Nat × List Nat × Nat :=
  let a := start + ((buf.drop start).takeWhile (· = 61)).length
  if buf.getD a 0 = 0 then (none, buf, a)
  else
    let b := a + ((buf.drop a).takeWhile (fun c => c ≠ 61 ∧ c ≠ 0)).length
    if buf.getD b 0 = 61 then (some a, buf.set b 0, b + 1)
    else (some a, buf, b)

/-- The predicate `isspace` of the C locale. -/
def isspace (c : Nat) : Bool := c = 32 || (9 ≤ c && c ≤ 13)

/-- The digit loop of `atoi`/`atol`. -/
def atoiDigits : List Nat → Nat → Nat
  | [], acc => acc
  | c :: cs, acc => if 48 ≤ c ∧ c ≤ 57 then atoiDigits cs (acc * 10 + (c - 48)) else acc

/-- The decimal parse of `atoi` and `atol` on a C string: white space, an optional sign, decimal
digits. The result is the mathematical integer, which is what the two functions return whenever
it lies in the range of their type; for the `int` that `atoi` returns beyond that range see
`atoiInt`. -/
def atoi (s : List Nat) : Int :=
  match s.dropWhile isspace with
  | 45 :: r => - (atoiDigits r 0 : Int)
  | 43 :: r => (atoiDigits r 0 : Int)
  | r => (atoiDigits r 0 : Int)

/-- The function `strtol(s, NULL, 10)` for a `long` of 64 bits: the decimal parse, and
`LONG_MIN` or `LONG_MAX` for a parse beyond them. -/
def strtol (s : List Nat) : Int :=
  if atoi s < -9223372036854775808 then -9223372036854775808
  else if 9223372036854775807 < atoi s then 9223372036854775807
  else atoi s

/-- The conversion of a `long` to an `int` of 32 bits: the value modulo 2^32 that lies between
`INT_MIN` and `INT_MAX`. -/
def toInt (n : Int) : Int := (n + 2147483648) % 4294967296 - 2147483648

/-- The `int` that `atoi` returns, as the C library computes it, `(int) strtol(s, NULL, 10)`,
for an `int` of 32 bits and a `long` of 64 bits: the decimal parse itself when it lies in the
range of `int`, and beyond that range the parse kept within `long` and then reduced modulo
2^32. -/
def atoiInt (s : List Nat) : Int := toInt (strtol s)

/-- The function `strstr`: the offset of the first occurrence of `needle` in `hay`, if any. -/
def strstr : List Nat → List Nat → Option Nat
  | [], needle => if needle = [] then some 0 else none
  | h :: hay, needle =>
    if needle.isPrefixOf (h :: hay) then some 0
    else (strstr hay needle).map (· + 1)

/-- The function `strncpy(dst, src, n)` where `src` is a C string: `n` bytes of `dst` are
overwritten, with the bytes of `src` and then with NUL. -/
def strncpy (dst src : List Nat) (n : Nat) : List Nat :=
  (List.range n).foldl (fun d i => d.set i (src.getD i 0)) dst

end Libc

/-! ## Arduino `Print` -/

namespace Print

/-- The loop of `Print::printNumber(n, 10)`: the decimal digits of `n`, last digit first. -/
def printNumberLoop : Nat → Nat → List Nat → List Nat
  | 0, _, acc => acc
  | fuel + 1, n, acc =>
    let acc1 := (n % 10 + 48) :: acc
    if n / 10 = 0 then acc1 else printNumberLoop fuel (n / 10) acc1

/-- The text of `Print::printNumber(n, 10)`. -/
def printNumber (n : Nat) : List Nat := printNumberLoop (n + 1) n []

/-- The text of `Print::print(long)`: a minus sign for a negative number, then the digits. -/
def printLong (n : Int) : List Nat :=
  if n < 0 then 45 :: printNumber n.natAbs else printNumber n.natAbs

/-- What `println` adds after its argument. -/
def newline : List Nat := [13, 10]

end Print

/-! ## SdFat driver -/

/-- The card as the driver presents it: the files by name, and whether the driver's operations
succeed. -/
structure SdFat where
  /-- Result of `sd.begin`. -/
  beginOk : Bool
  /-- Whether `open(name, FILE_READ)` of an existing file succeeds. -/
  openReadOk : Bool
  /-- Whether `open(name, FILE_WRITE)` succeeds. -/
  openWriteOk : Bool
  /-- Whether `sd.remove` of an existing file succeeds. -/
  removeOk : Bool
  /-- Whether `rename` to an unused name succeeds. -/
  renameOk : Bool
  /-- The files on the card: name and content. -/
  files : List (List Nat × List Nat)
deriving DecidableEq, Repr

namespace SdFat

/-- The content stored under `name`. -/
def lookup : List (List Nat × List Nat) → List Nat → Option (List Nat)
  | [], _ => none
  | (n, c) :: fs, name => if n = name then some c else lookup fs name

/-- The call `sd.exists(name)`. -/
def «exists» (sd : SdFat) (name : List Nat) : Bool := (lookup sd.files name).isSome

/-- The call `sd.remove(name)`: the result and the card afterwards. -/
def remove (sd : SdFat) (name : List Nat) : Bool × SdFat :=
  if sd.removeOk ∧ sd.exists name then
    (true, { sd with files := sd.files.filter (fun e => e.1 ≠ name) })
  else (false, sd)

/-- A file opened with `FILE_WRITE` (`O_RDWR | O_CREAT | O_AT_END`) is created when absent. -/
def create (sd : SdFat) (name : List Nat) : SdFat :=
  if sd.exists name then sd else { sd with files := sd.files ++ [(name, [])] }

/-- Bytes written through a handle opened with `FILE_WRITE` are added at the end. -/
def append (sd : SdFat) (name bytes : List Nat) : SdFat :=
  { sd with files := sd.files.map (fun e => if e.1 = name then (e.1, e.2 ++ bytes) else e) }

/-- The call `file.rename(newName)` on the open file `old`: it fails when `newName` is in
use. -/
def rename (sd : SdFat) (old newName : List Nat) : Bool × SdFat :=
  if sd.renameOk ∧ sd.exists old ∧ ¬ sd.exists newName then
    (true, { sd with files := sd.files.map (fun e => if e.1 = old then (newName, e.2) else e) })
  else (false, sd)

/-- The loop of `FatFile::fgets(str, num)`: `room` is `num - 1 - n`. A carriage return is read
and dropped, a line feed is stored and ends the read. Result: the bytes stored and the unread
rest of the file. -/
def fgets (room : Nat) : List Nat → List Nat × List Nat
  | [] => ([], [])
  | ch :: rest =>
    if room = 0 then ([], ch :: rest)
    else if ch = 13 then fgets room rest
    else if ch = 10 then ([ch], rest)
    else ((ch :: (fgets (room - 1) rest).1), (fgets (room - 1) rest).2)

end SdFat

/-! ## The class `SdConfigFile` -/

/-- The macro `SDCONFIG_BUFFER_LENGTH` of `SdConfigFile.h`. -/
def SDCONFIG_BUFFER_LENGTH : Nat := 40

/-- The object state of `class SdConfigFile`, together with what it acts on: the card behind
`sd`, the output on `Serial`, and the pointer that `strtok` keeps between calls. -/
structure SdConfigFile where
  /-- The member `sd`. -/
  sd : SdFat
  /-- Everything printed on `Serial` so far. -/
  serial : List SerialMsg
  /-- The member `origFile`: `none` when closed, else the bytes not yet read. -/
  origFile : Option (List Nat)
  /-- The member `tempFile`: `none` when closed, else the name of the file it writes to. -/
  tempFile : Option (List Nat)
  /-- The member `lineBuffer`. -/
  lineBuffer : List Nat
  /-- The member `currentPos`, an offset into `lineBuffer`. -/
  currentPos : Option Nat
  /-- The member `lineOverflow`. -/
  lineOverflow : Bool
  /-- The member `commentActive`. -/
  commentActive : Bool
  /-- The member `writeAppend`. -/
  writeAppend : Bool
  /-- The member `equalsSplit`. -/
  equalsSplit : Bool
  /-- The pointer `strtok` saved at its last call, an offset into `lineBuffer`. -/
  strtokSave : Option Nat
deriving DecidableEq, Repr

namespace SdConfigFile

open Libc

/-- The constructor. `lineBuffer` and `equalsSplit` are not initialised by it. -/
def new (sd : SdFat) (lineBuffer : List Nat) (equalsSplit : Bool) : SdConfigFile :=
  { sd := sd, serial := [], origFile := none, tempFile := none, lineBuffer := lineBuffer,
    currentPos := none, lineOverflow := false, commentActive := false, writeAppend := false,
    equalsSplit := equalsSplit, strtokSave := none }

/-- The card after `bytes` went through `tempFile`; nothing is written through a closed
file. -/
def tempOut (s : SdConfigFile) (bytes : List Nat) : SdFat :=
  match s.tempFile with
  | none => s.sd
  | some name => s.sd.append name bytes

/-- The call `tempFile.print(bytes)`. -/
def tempPrint (s : SdConfigFile) (bytes : List Nat) : SdConfigFile :=
  { s with sd := s.tempOut bytes }

/-- The text that `print(ptr)` sends for a character pointer; `Print::write` ignores `NULL`. -/
def textAt (s : SdConfigFile) (ptr : Option Nat) : List Nat :=
  match ptr with
  | none => []
  | some p => cstr s.lineBuffer p

/-- The statement `currentPos = strtok(NULL, "=")`. -/
def strtokNull (s : SdConfigFile) : Except Fault SdConfigFile :=
  match s.strtokSave with
  | none => .error .nullDeref
  | some q =>
    let r := strtokFrom s.lineBuffer q
    .ok { s with currentPos := r.1, lineBuffer := r.2.1, strtokSave := some r.2.2 }

/-- The method `discardChar`. -/
def discardChar (currentChar : Nat) : Bool :=
  currentChar = 32 || currentChar = 10 || currentChar = 9

/-- The loop `while (stringLength > 0 && discardChar(currentPos[stringLength - 1]))
stringLength--` of `checkItemName` and `get`. -/
def trimLength (buf : List Nat) (p : Nat) : Nat → Nat
  | 0 => 0
  | n + 1 => if discardChar (buf.getD (p + n) 0) then trimLength buf p n else n + 1

/-- The loop `while (currentPos[0] == ' ') currentPos++`. -/
def skipSpaces (buf : List Nat) (p : Nat) : Nat :=
  p + ((buf.drop p).takeWhile (· = 32)).length

/-- The method `checkItemName`. -/
def checkItemName (itemName : List Nat) (s : SdConfigFile) : Except Fault (Bool × SdConfigFile) :=
  match s.currentPos with
  | none => .error .nullDeref
  | some p0 =>
    let p := skipSpaces s.lineBuffer p0
    let stringLength := trimLength s.lineBuffer p (strlen s.lineBuffer p)
    let s1 := { s with currentPos := some p, lineBuffer := s.lineBuffer.set (p + stringLength) 0 }
    if cstrOf itemName = cstr s1.lineBuffer p ∧ stringLength ≠ 0 then
      match strtokNull s1 with
      | .error f => .error f
      | .ok s2 => if s2.currentPos.isSome then .ok (true, s2) else .ok (false, s2)
    else .ok (false, s1)

/-- The method `printLineToFile`. -/
def printLineToFile (s : SdConfigFile) : Except Fault SdConfigFile :=
  if s.tempFile.isSome ∧ s.currentPos.isSome then
    let s1 := s.tempPrint (s.textAt s.currentPos)
    if s1.equalsSplit then
      match strtokNull s1 with
      | .error f => .error f
      | .ok s2 =>
        match checkItemName [] s2 with
        | .error f => .error f
        | .ok (_, s3) =>
          let s4 := s3.tempPrint [61]
          .ok ((s4.tempPrint (s4.textAt s4.currentPos)).tempPrint Print.newline)
    else .ok s1
  else .ok s

/-- The method `openConfigFile`. -/
def openConfigFile (fileName : List Nat) (s : SdConfigFile) : Except Fault (Bool × SdConfigFile) :=
  if ¬ s.sd.beginOk then .error .halted
  else
    match SdFat.lookup s.sd.files (cstrOf fileName) with
    | none => .ok (false, { s with serial := s.serial ++ [.configFileNotFound] })
    | some content =>
      if ¬ s.sd.openReadOk then
        .ok (false, { s with origFile := none, serial := s.serial ++ [.cantOpenTheConfigFile] })
      else
        .ok (true, { s with origFile := some content, commentActive := false,
                            lineOverflow := false })

/-- One round of the loop of `openTempFile`, for the index `i`: `none` stands for `continue`. -/
def openTempFileStep (i : Nat) (s : SdConfigFile) : Except Fault (Option SdConfigFile × SdConfigFile) :=
  if ¬ s.sd.beginOk then .error .halted
  else
    let buf := [95, 116, 101, 109, 112, i, 0] ++ s.lineBuffer.drop 7
    let name := cstr buf 0
    let s1 := { s with lineBuffer := buf }
    let removed := if s1.sd.exists name then s1.sd.remove name else (true, s1.sd)
    if ¬ removed.1 then .ok (none, s1)
    else
      let s2 := { s1 with sd := removed.2 }
      if ¬ s2.sd.openWriteOk then
        .ok (none, { s2 with serial := s2.serial ++ [.unableToOpenTemporaryFile] })
      else
        let s3 := { s2 with sd := s2.sd.create name, tempFile := some name }
        .ok (some s3, s3)

/-- The method `openTempFile`: the loop `for (int i = 0; i < 3; i++)`, `n` rounds left. -/
def openTempFileLoop : Nat → Nat → SdConfigFile → Except Fault (Bool × SdConfigFile)
  | 0, _, s => .ok (false, s)
  | n + 1, i, s =>
    match openTempFileStep i s with
    | .error f => .error f
    | .ok (some s1, _) => .ok (true, s1)
    | .ok (none, s1) => openTempFileLoop n (i + 1) s1

/-- The method `openTempFile`. -/
def openTempFile (s : SdConfigFile) : Except Fault (Bool × SdConfigFile) :=
  openTempFileLoop 3 0 s

/-- What `readConfigLine` does with a chunk once `fgets` has stored it: `none` stands for
`continue`, `some s` for `return true`. -/
def classifyChunk (bufferLength : Nat) (s : SdConfigFile) :
    Except Fault (Option SdConfigFile × SdConfigFile) :=
  let s := { s with lineOverflow := true, equalsSplit := false, currentPos := some 0 }
  if bufferLength > 3 then
    let s := if s.lineBuffer.getD (bufferLength - 1) 0 = 10 then { s with lineOverflow := false } else s
    if s.commentActive then
      .ok (none, if ¬ s.lineOverflow then { s with commentActive := false } else s)
    else if s.lineBuffer.getD 0 0 = 35 ∨ (s.lineBuffer.getD 0 0 = 47 ∧ s.lineBuffer.getD 1 0 = 47) then
      .ok (none, if s.lineOverflow then { s with commentActive := true } else s)
    else
      let r := strtokFrom s.lineBuffer 0
      let s := { s with currentPos := r.1, lineBuffer := r.2.1, strtokSave := some r.2.2 }
      match s.currentPos with
      | none => .error .nullDeref
      | some p =>
        if strlen s.lineBuffer p = bufferLength ∧ ¬ s.lineOverflow then .ok (none, s)
        else
          let s := { s with equalsSplit := true }
          .ok (some s, s)
  else .ok (none, s)

/-- The loop `while (origFile.available())` of `readConfigLine` and the statements after it. -/
def readConfigLineLoop : Nat → SdConfigFile → Except Fault (Bool × SdConfigFile)
  | 0, _ => .error .outOfFuel
  | fuel + 1, s =>
    match s.origFile with
    | none => .ok (false, s)
    | some [] =>
      match printLineToFile s with
      | .error f => .error f
      | .ok s1 => .ok (false, { s1 with origFile := none })
    | some (c :: cs) =>
      match printLineToFile s with
      | .error f => .error f
      | .ok s1 =>
        let r := SdFat.fgets (SDCONFIG_BUFFER_LENGTH - 1) (c :: cs)
        let s2 := { s1 with origFile := some r.2,
                            lineBuffer := r.1 ++ 0 :: s1.lineBuffer.drop (r.1.length + 1) }
        match classifyChunk r.1.length s2 with
        | .error f => .error f
        | .ok (some s3, _) => .ok (true, s3)
        | .ok (none, s3) => readConfigLineLoop fuel s3

/-- The method `readConfigLine`. -/
def readConfigLine (s : SdConfigFile) : Except Fault (Bool × SdConfigFile) :=
  match s.origFile with
  | none => .ok (false, s)
  | some file => readConfigLineLoop (file.length + 1) s

/-- The loop `while (origFile) { if (readConfigLine()) { if (currentPos) callbackFunction(); } }`
of `read(fileName, callbackFunction)`. The callback acts on the object and on the caller's own
variables `u`. -/
def readLoop {U : Type} (callbackFunction : SdConfigFile → U → Except Fault (SdConfigFile × U)) :
    Nat → SdConfigFile → U → Except Fault (SdConfigFile × U)
  | 0, _, _ => .error .outOfFuel
  | fuel + 1, s, u =>
    if s.origFile.isSome then
      match readConfigLine s with
      | .error f => .error f
      | .ok (true, s1) =>
        if s1.currentPos.isSome then
          match callbackFunction s1 u with
          | .error f => .error f
          | .ok (s2, u2) => readLoop callbackFunction fuel s2 u2
        else readLoop callbackFunction fuel s1 u
      | .ok (false, s1) => readLoop callbackFunction fuel s1 u
    else .ok (s, u)

/-- The number of loop rounds that the bytes still unread can cause, plus one. -/
def fuelOf (s : SdConfigFile) : Nat :=
  match s.origFile with
  | none => 1
  | some file => file.length + 2

/-- The method `read(fileName, callbackFunction)`. -/
def readWith {U : Type} (fileName : List Nat)
    (callbackFunction : SdConfigFile → U → Except Fault (SdConfigFile × U))
    (s : SdConfigFile) (u : U) : Except Fault (Bool × SdConfigFile × U) :=
  match openConfigFile fileName s with
  | .error f => .error f
  | .ok (false, s1) => .ok (false, s1, u)
  | .ok (true, s1) =>
    match readLoop callbackFunction (fuelOf s1) s1 u with
    | .error f => .error f
    | .ok (s2, u2) => .ok (true, s2, u2)

/-- The loop `while (origFile) { if (readConfigLine()) { if (currentPos) return true; } }` of
`read(fileName)`; the result is `true` for `return true`, `false` when the loop ended. -/
def readStepLoop : Nat → SdConfigFile → Except Fault (Bool × SdConfigFile)
  | 0, _ => .error .outOfFuel
  | fuel + 1, s =>
    if s.origFile.isSome then
      match readConfigLine s with
      | .error f => .error f
      | .ok (true, s1) => if s1.currentPos.isSome then .ok (true, s1) else readStepLoop fuel s1
      | .ok (false, s1) => readStepLoop fuel s1
    else .ok (false, s)

/-- The method `read(fileName)`. The result of `openConfigFile` is not looked at. -/
def read (fileName : List Nat) (s : SdConfigFile) : Except Fault (Bool × SdConfigFile) :=
  match (if s.origFile.isNone then openConfigFile fileName s else .ok (true, s)) with
  | .error f => .error f
  | .ok (_, s1) => readStepLoop (fuelOf s1) s1

/-- The loop `while (origFile && tempFile) { if (readConfigLine()) { if (currentPos) return
true; } }` of `write`; the result is `true` for `return true`, `false` when the loop ended. -/
def writeMergeLoop : Nat → SdConfigFile → Except Fault (Bool × SdConfigFile)
  | 0, _ => .error .outOfFuel
  | fuel + 1, s =>
    if s.origFile.isSome ∧ s.tempFile.isSome then
      match readConfigLine s with
      | .error f => .error f
      | .ok (true, s1) => if s1.currentPos.isSome then .ok (true, s1) else writeMergeLoop fuel s1
      | .ok (false, s1) => writeMergeLoop fuel s1
    else .ok (false, s)

/-- The last part of `write`: delete the original configuration file and rename the temporary
file. -/
def writeCommit (fileName : List Nat) (s : SdConfigFile) : Bool × SdConfigFile :=
  let removed := s.sd.remove (cstrOf fileName)
  let s1 := { s with sd := removed.2 }
  let s2 :=
    if removed.1 then
      match s1.tempFile with
      | none => { s1 with serial := s1.serial ++ [.unableToRenameTemporaryFile] }
      | some name =>
        let renamed := s1.sd.rename name (cstrOf fileName)
        if ¬ renamed.1 then
          { s1 with sd := renamed.2, serial := s1.serial ++ [.unableToRenameTemporaryFile] }
        else { s1 with sd := renamed.2, tempFile := some (cstrOf fileName) }
    else s1
  (false, { s2 with tempFile := none })

/-- The part of `write` after the temporary file is open. -/
def writeStep (fileName : List Nat) (s : SdConfigFile) : Except Fault (Bool × SdConfigFile) :=
  if ¬ s.writeAppend then
    match (if s.origFile.isNone then openConfigFile fileName s else .ok (true, s)) with
    | .error f => .error f
    | .ok (false, s1) =>
      .ok (false, { s1 with serial := s1.serial ++ [.unableToOpenConfigFile], tempFile := none })
    | .ok (true, s1) =>
      match writeMergeLoop (fuelOf s1) s1 with
      | .error f => .error f
      | .ok (true, s2) => .ok (true, s2)
      | .ok (false, s2) => .ok (true, { s2 with writeAppend := true })
  else .ok (writeCommit fileName s)

/-- The method `write(fileName)`. -/
def write (fileName : List Nat) (s : SdConfigFile) : Except Fault (Bool × SdConfigFile) :=
  if s.tempFile.isNone then
    match openTempFile s with
    | .error f => .error f
    | .ok (false, s1) =>
      .ok (false, { s1 with serial := s1.serial ++ [.unableToOpenTemporaryFile] })
    | .ok (true, s1) => writeStep fileName { s1 with writeAppend := false, currentPos := none }
  else writeStep fileName s

/-! ### The overloads of `get` -/

/-- The method `get(const char*, int&)`: the result and the new value of `itemValue`, which is
the decimal parse of the value as a mathematical integer. -/
def get_int (itemName : List Nat) (itemValue : Int) (s : SdConfigFile) :
    Except Fault (Bool × Int × SdConfigFile) :=
  match checkItemName itemName s with
  | .error f => .error f
  | .ok (true, s1) =>
    match s1.currentPos with
    | none => .error .nullDeref
    | some p => .ok (true, atoi (cstr s1.lineBuffer p), s1)
  | .ok (false, s1) => .ok (false, itemValue, s1)

/-- The method `get(const char*, long&)`; the value stored is the decimal parse of the value
as a mathematical integer. -/
def get_long (itemName : List Nat) (itemValue : Int) (s : SdConfigFile) :
    Except Fault (Bool × Int × SdConfigFile) :=
  match checkItemName itemName s with
  | .error f => .error f
  | .ok (true, s1) =>
    match s1.currentPos with
    | none => .error .nullDeref
    | some p => .ok (true, atoi (cstr s1.lineBuffer p), s1)
  | .ok (false, s1) => .ok (false, itemValue, s1)

/-- The method `get(const char*, bool&)`. The comparison `atoi(currentPos) == 1` is one of
machine integers: it looks at the `int` that `atoi` returns. -/
def get_bool (itemName : List Nat) (itemValue : Bool) (s : SdConfigFile) :
    Except Fault (Bool × Bool × SdConfigFile) :=
  match checkItemName itemName s with
  | .error f => .error f
  | .ok (true, s1) =>
    match s1.currentPos with
    | none => .error .nullDeref
    | some p =>
      if atoiInt (cstr s1.lineBuffer p) = 1 ∨ (strstr (cstr s1.lineBuffer p) (ascii "True")).isSome
          ∨ (strstr (cstr s1.lineBuffer p) (ascii "true")).isSome then
        .ok (true, true, s1)
      else .ok (true, false, s1)
  | .ok (false, s1) => .ok (false, itemValue, s1)

/-- The method `get(const char*, char*, int)`. The list `itemValue` is the memory that starts
at the destination pointer; a store beyond it is a fault. -/
def get_chars (itemName : List Nat) (itemValue : List Nat) (maxLength : Int) (s : SdConfigFile) :
    Except Fault (Bool × List Nat × SdConfigFile) :=
  match checkItemName itemName s with
  | .error f => .error f
  | .ok (true, s1) =>
    match s1.currentPos with
    | none => .error .nullDeref
    | some p0 =>
      let p := skipSpaces s1.lineBuffer p0
      let s2 := { s1 with currentPos := some p }
      let trimmed : Int := trimLength s2.lineBuffer p (strlen s2.lineBuffer p)
      let stringLength : Int := if trimmed ≥ maxLength then maxLength - 1 else trimmed
      if stringLength < 0 then .error .outOfBounds
      else if itemValue.length ≤ stringLength.toNat + 1 then .error .outOfBounds
      else
        let copied := strncpy itemValue (cstr s2.lineBuffer p) stringLength.toNat
        .ok (true, copied.set (stringLength.toNat + 1) 0, s2)
  | .ok (false, s1) => .ok (false, itemValue, s1)

/-- The method `get(const char*, String&)`; `String::trim` removes `isspace` characters at both
ends. -/
def get_String (itemName : List Nat) (itemValue : List Nat) (s : SdConfigFile) :
    Except Fault (Bool × List Nat × SdConfigFile) :=
  match checkItemName itemName s with
  | .error f => .error f
  | .ok (true, s1) =>
    match s1.currentPos with
    | none => .error .nullDeref
    | some p =>
      .ok (true, (((cstr s1.lineBuffer p).dropWhile isspace).reverse.dropWhile isspace).reverse, s1)
  | .ok (false, s1) => .ok (false, itemValue, s1)

/-! ### The overloads of `set` -/

/-- The common body of the overloads of `set`; `valueText` is what `println(itemValue)` prints
before the line end. -/
def setText (itemName : List Nat) (valueText : List Nat) (s : SdConfigFile) :
    Except Fault (Bool × SdConfigFile) :=
  if s.writeAppend ∧ s.tempFile.isSome then
    .ok (false, ((s.tempPrint (cstrOf itemName)).tempPrint [61]).tempPrint
      (valueText ++ Print.newline))
  else
    match checkItemName itemName s with
    | .error f => .error f
    | .ok (true, s1) => .ok (true, { s1 with currentPos := none })
    | .ok (false, s1) => .ok (false, s1)

/-- The method `set(const char*, long)`. -/
def set_long (itemName : List Nat) (itemValue : Int) (s : SdConfigFile) :
    Except Fault (Bool × SdConfigFile) :=
  setText itemName (Print.printLong itemValue) s

/-- The method `set(const char*, int)`. -/
def set_int (itemName : List Nat) (itemValue : Int) (s : SdConfigFile) :
    Except Fault (Bool × SdConfigFile) :=
  set_long itemName itemValue s

/-- The method `set(const char*, bool)`. -/
def set_bool (itemName : List Nat) (itemValue : Bool) (s : SdConfigFile) :
    Except Fault (Bool × SdConfigFile) :=
  set_long itemName (if itemValue then 1 else 0) s

/-- The method `set(const char*, char*)`. -/
def set_chars (itemName : List Nat) (itemValue : List Nat) (s : SdConfigFile) :
    Except Fault (Bool × SdConfigFile) :=
  setText itemName (cstrOf itemValue) s

/-- The method `set(const char*, String&)`. -/
def set_String (itemName : List Nat) (itemValue : List Nat) (s : SdConfigFile) :
    Except Fault (Bool × SdConfigFile) :=
  setText itemName (cstrOf itemValue) s

/-! ### Caller loops named by the specification -/

/-- The caller loop `while (cfg.write(fileName)) { body }`. -/
def writeSessionLoop (fileName : List Nat) (body : SdConfigFile → Except Fault SdConfigFile) :
    Nat → SdConfigFile → Except Fault SdConfigFile
  | 0, _ => .error .outOfFuel
  | fuel + 1, s =>
    match write fileName s with
    | .error f => .error f
    | .ok (false, s1) => .ok s1
    | .ok (true, s1) =>
      match body s1 with
      | .error f => .error f
      | .ok s2 => writeSessionLoop fileName body fuel s2

/-- The caller loop `while (cfg.write(fileName)) { body }`, with fuel for one call of `write`
per byte of the file and three more. -/
def writeSession (fileName : List Nat) (body : SdConfigFile → Except Fault SdConfigFile)
    (s : SdConfigFile) : Except Fault SdConfigFile :=
  writeSessionLoop fileName body
    (((SdFat.lookup s.sd.files (cstrOf fileName)).getD []).length + 3) s

/-- The caller loop `while (cfg.read(fileName)) { }`: the number of times `read` returned
`true`, and the state after it returned `false`. -/
def readCountLoop (fileName : List Nat) : Nat → SdConfigFile → Except Fault (Nat × SdConfigFile)
  | 0, _ => .error .outOfFuel
  | fuel + 1, s =>
    match read fileName s with
    | .error f => .error f
    | .ok (false, s1) => .ok (0, s1)
    | .ok (true, s1) =>
      match readCountLoop fileName fuel s1 with
      | .error f => .error f
      | .ok (n, s2) => .ok (n + 1, s2)

end SdConfigFile

/-! ## The words of the specification

The definitions of this section follow the specification's wording, not the code; the theorems
compare them with the embedding of the code above. -/

namespace Spec

/-- A file as `fgets` presents it: without carriage returns. -/
def removeCR (l : List Nat) : List Nat := l.filter (· ≠ 13)

/-- "Trims leading spaces and trailing space/tab/terminator bytes." -/
def trim (t : List Nat) : List Nat := (t.dropWhile (· = 32)).rdropWhile SdConfigFile.discardChar

/-- A line "beginning with `#` or `//`". -/
def isComment (c : List Nat) : Bool := c.take 1 = [35] || c.take 2 = [47, 47]

/-- A line that holds a parameter: longer than three bytes, not a comment, with an `=`. -/
def isParam (c : List Nat) : Bool := 3 < c.length && !isComment c && c.contains 61

/-- The key of a line: the bytes before its first `=`. -/
def keyOf (c : List Nat) : List Nat := c.takeWhile (· ≠ 61)

/-- The bytes after the first `=` of a line. -/
def afterEq (c : List Nat) : List Nat := (c.dropWhile (· ≠ 61)).drop 1

/-- The value token of a line: what `strtok` delivers from the bytes after the first `=`, that
is, the bytes up to the next `=` once leading `=` are skipped. -/
def valueOf (c : List Nat) : List Nat := ((afterEq c).dropWhile (· = 61)).takeWhile (· ≠ 61)

/-- The first token that `strtok` finds in a string: leading `=` skipped, up to the next `=`. -/
def tokKey (body : List Nat) : List Nat := (body.dropWhile (· = 61)).takeWhile (· ≠ 61)

/-- What follows the first token and the `=` that ends it. -/
def tokRest (body : List Nat) : List Nat := ((body.dropWhile (· = 61)).dropWhile (· ≠ 61)).drop 1

/-- The lines of a file that hold a parameter, as chunks without carriage returns. -/
def params (ls : List (List Nat)) : List (List Nat) := (ls.map removeCR).filter isParam

/-- What `get(name, int&)` makes of an `int` variable `x` at an entry with key token `K`, when
`R` follows the `=` behind the key: the integer parse of the value token if the trimmed key is
`name` and a value token exists. -/
def getInt (name K R : List Nat) (x : Int) : Int :=
  if Libc.cstrOf name = trim K ∧ trim K ≠ [] ∧ tokKey R ≠ [] then Libc.atoi (tokKey R) else x

/-- The line that a write session setting only the key `name` puts into the new file for the
line `c` of the old file (given without carriage returns): a line that holds no parameter is
copied, a parameter whose trimmed key is `name` is left out, and any other parameter is written
again as trimmed key, `=`, trimmed value token, CR LF. -/
def mergeLine (name c : List Nat) : List Nat :=
  if isParam c then
    if Libc.cstrOf name = trim (tokKey c) ∧ trim (tokKey c) ≠ [] then []
    else trim (tokKey c) ++ [61] ++ trim (tokKey (tokRest c)) ++ Print.newline
  else c

/-- A parameter line as `read` gets it after a write session has written it again: trimmed key,
`=`, trimmed value token, line feed. -/
def rewritten (c : List Nat) : List Nat :=
  trim (tokKey c) ++ 61 :: (trim (tokKey (tokRest c)) ++ [10])

/-- The lines of the new file of a write session that sets only the key `name`, with `text`
printed for the value, for an old file of the lines `ls`: the old lines as `mergeLine` gives
them, in their order, then the line `name=text` CR LF. -/
def newLines (name text : List Nat) (ls : List (List Nat)) : List (List Nat) :=
  ls.map (fun l => mergeLine name (removeCR l))
    ++ [Libc.cstrOf name ++ [61] ++ text ++ Print.newline]

/-- The bytes of the new file of such a write session. -/
def committed (name text : List Nat) (ls : List (List Nat)) : List Nat :=
  (newLines name text ls).flatten

/-- "The decimal integer parse of the value equals 1 or the value contains `True` or `true` as
a substring." -/
def boolDecode (value : List Nat) : Bool :=
  decide (Libc.atoi value = 1) || decide (ascii "True" <:+: value) || decide (ascii "true" <:+: value)

end Spec

namespace Libc

/-- At offset `p` the buffer holds the bytes `t`, free of NUL, then a NUL, then `post`. -/
def View (buf : List Nat) (p : Nat) (t post : List Nat) : Prop :=
  buf.drop p = t ++ 0 :: post ∧ 0 ∉ t

end Libc

namespace SdConfigFile

/-- The members of the object: its state without the card and without `Serial`. -/
structure Members where
  origFile : Option (List Nat)
  tempFile : Option (List Nat)
  lineBuffer : List Nat
  currentPos : Option Nat
  lineOverflow : Bool
  commentActive : Bool
  writeAppend : Bool
  equalsSplit : Bool
deriving DecidableEq, Repr

/-- The members of the object `s`. -/
def members (s : SdConfigFile) : Members :=
  { origFile := s.origFile, tempFile := s.tempFile, lineBuffer := s.lineBuffer,
    currentPos := s.currentPos, lineOverflow := s.lineOverflow,
    commentActive := s.commentActive, writeAppend := s.writeAppend,
    equalsSplit := s.equalsSplit }

/-- The object presents an entry: the cursor is at the token `key` (offset `a`), and `strtok`
will go on at offset `q`, where the string `rest` stands. -/
structure Entry (s : SdConfigFile) (a : Nat) (key : List Nat) (q : Nat) (rest : List Nat) :
    Prop where
  cur : s.currentPos = some a
  save : s.strtokSave = some q
  keyView : ∃ post, Libc.View s.lineBuffer a key post
  restView : ∃ junk, Libc.View s.lineBuffer q rest junk
  le : a + key.length ≤ q

/-- The state after the in-place trim of `checkItemName`, for a cursor at offset `p0` where the
string `t` stands. -/
def trimmed (s : SdConfigFile) (p0 : Nat) (t : List Nat) : SdConfigFile :=
  { s with
    currentPos := some (p0 + (t.takeWhile (· = 32)).length),
    lineBuffer := s.lineBuffer.set (p0 + (t.takeWhile (· = 32)).length + (Spec.trim t).length) 0 }

/-- The state `s2` differs from `s` at most in the line buffer, the cursor and the pointer of
`strtok`. -/
def SameFrame (s s2 : SdConfigFile) : Prop :=
  s2.sd = s.sd ∧ s2.serial = s.serial ∧ s2.origFile = s.origFile ∧ s2.tempFile = s.tempFile
    ∧ s2.lineOverflow = s.lineOverflow ∧ s2.commentActive = s.commentActive
    ∧ s2.writeAppend = s.writeAppend ∧ s2.equalsSplit = s.equalsSplit

/-- The value of `lineOverflow` for a chunk of more than three bytes: whether its last byte
is something other than a line feed. -/
def overflowOf (buf : List Nat) (bufferLength : Nat) : Bool :=
  !decide (buf.getD (bufferLength - 1) 0 = 10)

/-- The test `lineBuffer[0] == '#' || (lineBuffer[0] == '/' && lineBuffer[1] == '/')`. -/
def commentAt (buf : List Nat) : Bool :=
  decide (buf.getD 0 0 = 35) || (decide (buf.getD 0 0 = 47) && decide (buf.getD 1 0 = 47))

/-- The bytes `tail` are the rest of one line of a file that goes on with `rest`: they end with
the line feed of the line, or the file ends with them before a line feed came. -/
def LineTail (tail rest : List Nat) : Prop :=
  (∃ body, tail = body ++ [10] ∧ 10 ∉ body) ∨ (10 ∉ tail ∧ rest = [])

/-- A line of a file that `fgets` reads as one chunk: it ends with its only line feed, holds no
NUL, and has at most `SDCONFIG_BUFFER_LENGTH - 1` bytes besides carriage returns. -/
def FitLine (line : List Nat) : Prop :=
  line.getLast? = some 10 ∧ 10 ∉ line.dropLast ∧ 0 ∉ line
    ∧ (Spec.removeCR line).length < SDCONFIG_BUFFER_LENGTH

instance (line : List Nat) : Decidable (FitLine line) := by
  unfold FitLine
  infer_instance

/-- A line that fits and, if it holds a parameter, has a byte before its first `=`. -/
def KeyedLine (line : List Nat) : Prop :=
  FitLine line ∧ (Spec.isParam (Spec.removeCR line) = true → (Spec.removeCR line).head? ≠ some 61)

instance (line : List Nat) : Decidable (KeyedLine line) := by
  unfold KeyedLine
  infer_instance

/-- A key "non-empty, no `=`, no whitespace, not starting with `#` or `//`", given as a C string
(no NUL). -/
def GoodKey (k : List Nat) : Prop :=
  k ≠ [] ∧ 0 ∉ k ∧ 61 ∉ k ∧ (∀ c ∈ k, Libc.isspace c = false) ∧ Spec.isComment k = false

instance (k : List Nat) : Decidable (GoodKey k) := by
  unfold GoodKey
  infer_instance

/-- The card during a write session: the driver works, the temporary file `temp` holds
`written`, and the original file `path` is in place. -/
def CardInv (sd : SdFat) (path temp written : List Nat) : Prop :=
  sd.beginOk = true ∧ sd.openReadOk = true ∧ sd.removeOk = true ∧ sd.renameOk = true
    ∧ SdFat.lookup sd.files temp = some written ∧ (SdFat.lookup sd.files path).isSome = true
    ∧ temp ≠ path

/-- The callback `cb` acts on the caller's variables like `f`, applied to the key token of the
entry and to the rest of its line; of the object it changes at most the line buffer, the cursor
and the pointer of `strtok`. -/
def ActsLike {U : Type} (cb : SdConfigFile → U → Except Fault (SdConfigFile × U))
    (f : List Nat → List Nat → U → U) : Prop :=
  ∀ s u a K q R, Entry s a K q R → ∃ s2, cb s u = .ok (s2, f K R u) ∧ SameFrame s s2

/-- The callback that calls `get(itemName, x)` for the caller's `int x`. -/
def getIntCallback (itemName : List Nat) (s : SdConfigFile) (x : Int) :
    Except Fault (SdConfigFile × Int) :=
  match get_int itemName x s with
  | .error f => .error f
  | .ok (_, x2, s2) => .ok (s2, x2)

/-- The callback that notes the entry it is called for: the key token at the cursor and the
rest of the line, where `strtok` will go on. -/
def noteEntry (s : SdConfigFile) (log : List (List Nat × List Nat)) :
    Except Fault (SdConfigFile × List (List Nat × List Nat)) :=
  .ok (s, log ++ [(s.textAt s.currentPos, s.textAt s.strtokSave)])

/-- The body `cfg.set(itemName, value);` of a write loop, where `println(value)` prints
`valueText` before the line end. -/
def setCallback (itemName valueText : List Nat) (s : SdConfigFile) : Except Fault SdConfigFile :=
  match setText itemName valueText s with
  | .error f => .error f
  | .ok (_, s1) => .ok s1

/-- The body `cfg.set(itemName, itemValue);` of a write loop for an `int` value. -/
def setIntBody (itemName : List Nat) (itemValue : Int) (s : SdConfigFile) :
    Except Fault SdConfigFile :=
  match set_int itemName itemValue s with
  | .error f => .error f
  | .ok (_, s1) => .ok s1

/-- The body `cfg.set(itemName, itemValue);` of a write loop for a `char*` value. -/
def setCharsBody (itemName itemValue : List Nat) (s : SdConfigFile) : Except Fault SdConfigFile :=
  match set_chars itemName itemValue s with
  | .error f => .error f
  | .ok (_, s1) => .ok s1

/-- A card on which every driver operation succeeds. -/
def goodCard (files : List (List Nat × List Nat)) : SdFat :=
  { beginOk := true, openReadOk := true, openWriteOk := true, removeOk := true,
    renameOk := true, files := files }

/-- A newly constructed object on a working card that holds one file. -/
def fresh (name content : List Nat) : SdConfigFile :=
  SdConfigFile.new (goodCard [(name, content)]) (List.replicate SDCONFIG_BUFFER_LENGTH 0) false

/-- The object after the first call of `read(fileName)` on a newly constructed object, for a
card that holds the one file `cfg` with the given content. -/
def afterRead (content : List Nat) : SdConfigFile :=
  match read (ascii "cfg") (fresh (ascii "cfg") content) with
  | .ok (_, s) => s
  | .error _ => fresh (ascii "cfg") content

/-- A newly constructed object after `openConfigFile` on the one file `cfg` of its card. -/
def opened (content : List Nat) : SdConfigFile :=
  { fresh (ascii "cfg") content with origFile := some content }

/-- The object after `readConfigLine` on `opened content`. -/
def firstEntry (content : List Nat) : SdConfigFile :=
  match readConfigLine (opened content) with
  | .ok (_, s) => s
  | .error _ => opened content

/-- A comment of 200 characters whose tail is full of `=`: `#a=1a=1...a=1x`. -/
def longComment : List Nat := 35 :: (List.replicate 66 (ascii "a=1")).flatten ++ [120]

/-- The lines of a sample file: a comment, a blank line, parameters with and without padding, a
line without `=`, a line of three bytes, a `//` comment, and a line of `=` only. -/
def sampleLines : List (List Nat) :=
  [ascii "# note\r\n", ascii "\r\n", ascii "a=1\n", ascii "hello\n", ascii " b = 2 \r\n",
   ascii "x=\n", ascii "//c=3\n", ascii "====\n"]

/-- The line `<p1>key<p2>=<p3>value<p4>` with its line feed. -/
def paddedLine (p1 key p2 p3 value p4 : List Nat) : List Nat :=
  p1 ++ key ++ p2 ++ [61] ++ p3 ++ value ++ p4 ++ [10]

/-- A key or a value that padding leaves recognisable: not empty, without NUL, `=`, CR and LF,
not starting with a space and not ending with a space or a tab. -/
def Solid (t : List Nat) : Prop :=
  t ≠ [] ∧ 0 ∉ t ∧ 61 ∉ t ∧ 10 ∉ t ∧ 13 ∉ t ∧ t.head? ≠ some 32 ∧ t.getLast? ≠ some 32
    ∧ t.getLast? ≠ some 9

instance (t : List Nat) : Decidable (Solid t) := by
  unfold Solid
  infer_instance

/-- The call `get(itemName, dst, maxLength)` at the first entry that `readConfigLine` reports for
a file with the given content, on a newly constructed object: the result of `get` and the
destination afterwards, or `none` when no entry is reported. -/
def readThenGetChars (content itemName dst : List Nat) (maxLength : Int) :
    Except Fault (Option (Bool × List Nat)) :=
  match readConfigLine (opened content) with
  | .error f => .error f
  | .ok (false, _) => .ok none
  | .ok (true, s) =>
    match get_chars itemName dst maxLength s with
    | .error f => .error f
    | .ok (b, d, _) => .ok (some (b, d))

/-- What `get(const char*, char*, int)` does once the key has matched, in terms of the value
token `V` at the cursor: the result and the destination. -/
def decodeChars (V dst : List Nat) (maxLength : Int) : Except Fault (Bool × List Nat) :=
  let trimmed : Int := (Spec.trim V).length
  let stringLength : Int := if trimmed ≥ maxLength then maxLength - 1 else trimmed
  if stringLength < 0 then .error .outOfBounds
  else if dst.length ≤ stringLength.toNat + 1 then .error .outOfBounds
  else
    .ok (true, (Libc.strncpy dst (V.dropWhile (· = 32)) stringLength.toNat).set
      (stringLength.toNat + 1) 0)

/-- The lines of a sample file for a write session: a comment, a blank line, parameters with
and without padding and carriage returns, a line without `=`, and a `//` comment. -/
def keyedSample : List (List Nat) :=
  [ascii "# note\r\n", ascii "\r\n", ascii "gain=7\n", ascii "hello\n", ascii " b = 2 \r\n",
   ascii "//c=3\n"]

/-- The names that `openTempFile` forms for `i` = 0, 1, 2: `_temp` followed by the byte `i`,
where the byte 0 ends the string. -/
def tempNames : List (List Nat) := [ascii "_temp", ascii "_temp" ++ [1], ascii "_temp" ++ [2]]

/-- Under every name that is not a temp-file name the card `sd2` holds what `sd` holds. -/
def OthersKept (sd sd2 : SdFat) : Prop :=
  ∀ n, n ∉ tempNames → SdFat.lookup sd2.files n = SdFat.lookup sd.files n

/-- The driver operations succeed on `sd2` exactly as on `sd`. -/
def SameOps (sd sd2 : SdFat) : Prop :=
  sd2.beginOk = sd.beginOk ∧ sd2.openReadOk = sd.openReadOk ∧ sd2.openWriteOk = sd.openWriteOk
    ∧ sd2.removeOk = sd.removeOk ∧ sd2.renameOk = sd.renameOk

/-- The append phase is active: the condition `writeAppend && tempFile` under which `set`
writes to the temporary file and `write` goes to its commit. -/
def appendActive (s : SdConfigFile) : Bool := s.writeAppend && s.tempFile.isSome

/-- The states of an object that is constructed and then used for calls of `write(fileName)`,
`set` and `get` only. -/
inductive InSession (fileName : List Nat) : SdConfigFile → Prop
  | constructed (sd : SdFat) (lineBuffer : List Nat) (equalsSplit : Bool) :
      InSession fileName (SdConfigFile.new sd lineBuffer equalsSplit)
  | byWrite {s s2 : SdConfigFile} {b : Bool} :
      InSession fileName s → SdConfigFile.write fileName s = .ok (b, s2) → InSession fileName s2
  | bySet {s s2 : SdConfigFile} {itemName valueText : List Nat} {b : Bool} :
      InSession fileName s → setText itemName valueText s = .ok (b, s2) → InSession fileName s2
  | byGetInt {s s2 : SdConfigFile} {itemName : List Nat} {x y : Int} {b : Bool} :
      InSession fileName s → get_int itemName x s = .ok (b, y, s2) → InSession fileName s2
  | byGetLong {s s2 : SdConfigFile} {itemName : List Nat} {x y : Int} {b : Bool} :
      InSession fileName s → get_long itemName x s = .ok (b, y, s2) → InSession fileName s2
  | byGetBool {s s2 : SdConfigFile} {itemName : List Nat} {x y : Bool} {b : Bool} :
      InSession fileName s → get_bool itemName x s = .ok (b, y, s2) → InSession fileName s2
  | byGetChars {s s2 : SdConfigFile} {itemName dst d : List Nat} {maxLength : Int} {b : Bool} :
      InSession fileName s → get_chars itemName dst maxLength s = .ok (b, d, s2) →
      InSession fileName s2
  | byGetString {s s2 : SdConfigFile} {itemName x y : List Nat} {b : Bool} :
      InSession fileName s → get_String itemName x s = .ok (b, y, s2) → InSession fileName s2

/-- The first bytes of a line that does not fit: as many as fill the buffer
(`SDCONFIG_BUFFER_LENGTH - 1` besides carriage returns), without line feed and NUL; `fgets`
stops behind the last of them. -/
def FullChunk (c : List Nat) : Prop :=
  10 ∉ c ∧ 0 ∉ c ∧ (Spec.removeCR c).length = SDCONFIG_BUFFER_LENGTH - 1 ∧ c.getLast? ≠ some 13

instance (c : List Nat) : Decidable (FullChunk c) := by
  unfold FullChunk
  infer_instance

/-- A piece of a file that `fgets` reads as one chunk: a line that fits (with a byte before its
first `=` if it holds a parameter), or the first bytes of a data line that does not fit, when
they hold a key, `=` and a value token. -/
def KeyedPiece (c : List Nat) : Prop :=
  KeyedLine c ∨ (FullChunk c ∧ Spec.isParam (Spec.removeCR c) = true
    ∧ (Spec.removeCR c).head? ≠ some 61 ∧ Spec.tokKey (Spec.tokRest (Spec.removeCR c)) ≠ [])

instance (c : List Nat) : Decidable (KeyedPiece c) := by
  unfold KeyedPiece
  infer_instance

/-- The object after the first call of `write(fileName)` on a newly constructed object, for a
card that holds the one file `cfg` with the given content. -/
def firstPending (content : List Nat) : SdConfigFile :=
  match write (ascii "cfg") (fresh (ascii "cfg") content) with
  | .ok (_, s) => s
  | .error _ => fresh (ascii "cfg") content

/-- The object after the first call of `write` for the file `a=1`: the entry `a=1` is
pending. -/
def pendingEntry : SdConfigFile := firstPending (ascii "a=1\n")

/-- A newly constructed object on a working card that holds no file but `_temp`, left over
with the content `precious`. -/
def staleTemp : SdConfigFile := fresh (ascii "_temp") (ascii "precious\n")

/-- The over-long line `key=a...ab=2` as `fgets` cuts it: the chunk that fills the buffer and
the rest of the line. -/
def longPieces : List (List Nat) := [ascii "key=" ++ List.replicate 35 97, ascii "b=2\n"]

/-- A comment line of 39 characters with its line feed: `#xxx...x`. -/
def comment39 : List Nat := 35 :: List.replicate 38 120 ++ [10]

/-- A data line of 43 bytes: `key=aaa...ab=2` with 35 times `a`, and its line feed. -/
def longLine : List Nat := ascii "key=" ++ List.replicate 35 97 ++ ascii "b=2\n"

/-- A data line of 45 bytes: `key=aaa...a=bbbb` with 35 times `a`, and its line feed. -/
def longLineNoValue : List Nat := ascii "key=" ++ List.replicate 35 97 ++ ascii "=bbbb\n"

/-- A call of one of the overloads of `get` (`int`, `long`, `bool`, `char*`, `String`), with its
arguments. -/
inductive GetCall
  | int (itemName : List Nat) (itemValue : Int)
  | long (itemName : List Nat) (itemValue : Int)
  | bool (itemName : List Nat) (itemValue : Bool)
  | chars (itemName : List Nat) (itemValue : List Nat) (maxLength : Int)
  | string (itemName : List Nat) (itemValue : List Nat)

/-- The name that a call of `get` asks for. -/
def GetCall.itemName : GetCall → List Nat
  | .int n _ => n
  | .long n _ => n
  | .bool n _ => n
  | .chars n _ _ => n
  | .string n _ => n

/-- An object in the append phase of a write session on the file `cfg`: the original file
holds `a=1`, the temporary file holds the new content. -/
def beforeCommit (renameOk : Bool) : SdConfigFile :=
  { sd := { beginOk := true, openReadOk := true, openWriteOk := true, removeOk := true,
            renameOk := renameOk,
            files := [(ascii "cfg", ascii "a=1\n"), (ascii "_temp", ascii "a=2\r\n")] },
    serial := [], origFile := none, tempFile := some (ascii "_temp"),
    lineBuffer := ascii "a" ++ 0 :: ascii "1" ++ List.replicate 37 0,
    currentPos := none, lineOverflow := false, commentActive := false, writeAppend := true,
    equalsSplit := true, strtokSave := some 4 }

end SdConfigFile

deriving instance DecidableEq for Except

/-! ## Lemmas on the C library model -/

namespace Libc

theorem takeWhile_append_stop {p : Nat → Bool} {l1 l2 : List Nat} {x : Nat}
    (h1 : ∀ a ∈ l1, p a = true) (hx : p x = false) :
    (l1 ++ x :: l2).takeWhile p = l1 := by
  rw [List.takeWhile_append_of_pos h1, List.takeWhile_cons]
  simp [hx]

theorem dropWhile_append_stop {p : Nat → Bool} {l1 l2 : List Nat} {x : Nat}
    (h1 : ∀ a ∈ l1, p a = true) (hx : p x = false) :
    (l1 ++ x :: l2).dropWhile p = x :: l2 := by
  induction l1 with
  | nil => simp [List.dropWhile_cons, hx]
  | cons a l ih =>
    have ha : p a = true := h1 a (by simp)
    simp only [List.cons_append, List.dropWhile_cons, ha, if_true]
    exact ih (fun b hb => h1 b (by simp [hb]))

theorem takeWhile_append_cut {p : Nat → Bool} (l1 l2 : List Nat) {x : Nat} (hx : p x = false) :
    (l1 ++ x :: l2).takeWhile p = l1.takeWhile p := by
  induction l1 with
  | nil => simp [List.takeWhile_cons, hx]
  | cons a l ih =>
    simp only [List.cons_append, List.takeWhile_cons]
    split <;> simp [ih]

theorem dropWhile_append_cut {p : Nat → Bool} (l1 l2 : List Nat) {x : Nat} (hx : p x = false) :
    (l1 ++ x :: l2).dropWhile p = l1.dropWhile p ++ x :: l2 := by
  induction l1 with
  | nil => simp [List.dropWhile_cons, hx]
  | cons a l ih =>
    simp only [List.cons_append, List.dropWhile_cons]
    split <;> simp [ih]

theorem getD_add_of_drop {buf : List Nat} {p : Nat} {l : List Nat} (h : buf.drop p = l) (i : Nat) :
    buf.getD (p + i) 0 = l.getD i 0 := by
  subst h
  simp [List.getD_eq_getElem?_getD, List.getElem?_drop]

theorem getD_append_length (l1 l2 : List Nat) (x : Nat) :
    (l1 ++ x :: l2).getD l1.length 0 = x := by
  rw [List.getD_eq_getElem?_getD, List.getElem?_append_right (le_refl _)]
  simp

theorem drop_set_ge {buf : List Nat} {p : Nat} {l1 l2 : List Nat} {x : Nat}
    (h : buf.drop p = l1 ++ x :: l2) (y : Nat) :
    (buf.set (p + l1.length) y).drop p = l1 ++ y :: l2 := by
  have hlen : p + l1.length < buf.length := by
    have := congrArg List.length h
    simp at this
    omega
  apply List.ext_getElem?
  intro i
  rw [List.getElem?_drop, List.getElem?_set]
  by_cases hi : i = l1.length
  · subst hi
    rw [if_pos rfl, List.getElem?_append_right (le_refl _)]
    simp [hlen]
  · have h2 : ¬ (p + l1.length = p + i) := by omega
    rw [if_neg h2, ← List.getElem?_drop, h]
    rcases Nat.lt_or_gt_of_ne hi with hlt | hgt
    · rw [List.getElem?_append_left hlt, List.getElem?_append_left hlt]
    · rw [List.getElem?_append_right (by omega), List.getElem?_append_right (by omega)]
      obtain ⟨k, hk⟩ : ∃ k, i - l1.length = k + 1 := ⟨i - l1.length - 1, by omega⟩
      rw [hk]
      simp

theorem View.cstr_eq {buf : List Nat} {p : Nat} {t post : List Nat} (h : View buf p t post) :
    cstr buf p = t := by
  unfold cstr
  rw [h.1]
  apply takeWhile_append_stop
  · intro a ha
    have : a ≠ 0 := fun h0 => h.2 (h0 ▸ ha)
    simpa using this
  · simp

theorem View.strlen_eq {buf : List Nat} {p : Nat} {t post : List Nat} (h : View buf p t post) :
    strlen buf p = t.length := by
  unfold strlen
  rw [h.cstr_eq]

theorem View.lt_length {buf : List Nat} {p : Nat} {t post : List Nat} (h : View buf p t post) :
    p + t.length < buf.length := by
  have := congrArg List.length h.1
  simp at this
  omega

/-- The NUL that ends the string. -/
theorem View.tail_end {buf : List Nat} {p : Nat} {t post : List Nat} (h : View buf p t post) :
    View buf (p + t.length) [] post := by
  constructor
  · have := congrArg (List.drop t.length) h.1
    rw [List.drop_drop] at this
    rw [this, List.drop_left]
    rfl
  · simp

/-- A view of a later part of the same string. -/
theorem View.shift {buf : List Nat} {p : Nat} {t1 t2 post : List Nat}
    (h : View buf p (t1 ++ t2) post) : View buf (p + t1.length) t2 post := by
  constructor
  · have := congrArg (List.drop t1.length) h.1
    rw [List.drop_drop] at this
    rw [this, List.append_assoc, List.drop_left]
  · intro h0
    exact h.2 (by simp [h0])

theorem takeWhile_congr_mem {p q : Nat → Bool} {l : List Nat} (h : ∀ a ∈ l, p a = q a) :
    l.takeWhile p = l.takeWhile q := by
  induction l with
  | nil => rfl
  | cons a l ih =>
    have ha := h a (by simp)
    simp only [List.takeWhile_cons, ha]
    rw [ih (fun b hb => h b (by simp [hb]))]

theorem View.drop_takeWhile {buf : List Nat} {p : Nat} {t post : List Nat} (h : View buf p t post)
    (f : Nat → Bool) : View buf (p + (t.takeWhile f).length) (t.dropWhile f) post := by
  apply View.shift
  rw [List.takeWhile_append_dropWhile]
  exact h

/-- What `strtok` does on a NUL-terminated string `body`: it skips the leading `=`, and ends the
token at the next `=` (overwritten by NUL) or at the end of the string. -/
theorem strtokFrom_of_view {buf : List Nat} {start : Nat} {body junk : List Nat}
    (h : View buf start body junk) :
    strtokFrom buf start =
      if body.dropWhile (· = 61) = [] then (none, buf, start + body.length)
      else if (body.dropWhile (· = 61)).dropWhile (· ≠ 61) = [] then
        (some (start + (body.takeWhile (· = 61)).length), buf, start + body.length)
      else
        (some (start + (body.takeWhile (· = 61)).length),
          buf.set (start + (body.takeWhile (· = 61)).length
            + ((body.dropWhile (· = 61)).takeWhile (· ≠ 61)).length) 0,
          start + (body.takeWhile (· = 61)).length
            + ((body.dropWhile (· = 61)).takeWhile (· ≠ 61)).length + 1) := by
  have hbody : body.takeWhile (· = 61) ++ body.dropWhile (· = 61) = body :=
    List.takeWhile_append_dropWhile _ _
  have hlen : (body.takeWhile (· = 61)).length + (body.dropWhile (· = 61)).length = body.length := by
    rw [← List.length_append, hbody]
  have h2 := h.drop_takeWhile (· = 61)
  have hrem0 : (0 : Nat) ∉ body.dropWhile (· = 61) := h2.2
  unfold strtokFrom
  have e1 : (List.drop start buf).takeWhile (· = 61) = body.takeWhile (· = 61) := by
    rw [h.1]
    exact takeWhile_append_cut _ _ (by simp)
  simp only [e1]
  have e2 : buf.getD (start + (body.takeWhile (· = 61)).length) 0
      = (body.dropWhile (· = 61) ++ 0 :: junk).getD 0 0 := by
    have := getD_add_of_drop h2.1 0
    simpa using this
  have e3 : (List.drop (start + (body.takeWhile (· = 61)).length) buf).takeWhile
      (fun c => decide (c ≠ 61 ∧ c ≠ 0)) = (body.dropWhile (· = 61)).takeWhile (· ≠ 61) := by
    rw [h2.1, takeWhile_append_cut _ _ (by simp)]
    apply takeWhile_congr_mem
    intro a ha
    have : a ≠ 0 := fun h0 => hrem0 (h0 ▸ ha)
    simp [this]
  rw [e2, e3]
  clear e1 e2 e3 hbody
  generalize body.dropWhile (· = 61) = rem at *
  generalize (body.takeWhile (· = 61)).length = n at *
  rcases rem with _ | ⟨x, rem⟩
  · have : n = body.length := by simpa using hlen
    subst this
    simp
  · have hx0 : x ≠ 0 := fun h0 => hrem0 (by rw [h0]; simp)
    have hrem2 : (x :: rem).takeWhile (· ≠ 61) ++ (x :: rem).dropWhile (· ≠ 61) = x :: rem :=
      List.takeWhile_append_dropWhile _ _
    have h3 := h2.drop_takeWhile (· ≠ 61)
    have e4 := getD_add_of_drop h3.1 0
    simp only [Nat.add_zero] at e4
    rw [e4]
    clear e4
    have hlen2 := congrArg List.length hrem2
    rw [List.length_append] at hlen2
    have hhead := List.head?_dropWhile_not (· ≠ 61) (x :: rem)
    generalize (x :: rem).dropWhile (· ≠ 61) = after at *
    generalize ((x :: rem).takeWhile (· ≠ 61)).length = m at *
    rcases after with _ | ⟨y, after⟩
    · have hl2 : start + n + m = start + body.length := by
        simp at hlen hlen2
        omega
      simp [hx0, hl2]
    · have hy : y = 61 := by simpa using hhead
      simp [hx0, hy]

end Libc

namespace SdConfigFile

open Libc

theorem trimLength_eq {buf : List Nat} {p : Nat} (t rest : List Nat) (h : buf.drop p = t ++ rest) :
    trimLength buf p t.length = (t.rdropWhile discardChar).length := by
  induction t using List.reverseRecOn generalizing rest with
  | nil => simp [trimLength]
  | append_singleton t x ih =>
    have hx : buf.getD (p + t.length) 0 = x := by
      rw [getD_add_of_drop h t.length, List.append_assoc]
      exact getD_append_length _ _ _
    rw [List.length_append, List.length_singleton, trimLength, hx, List.rdropWhile_concat]
    by_cases hd : discardChar x = true
    · rw [if_pos hd, if_pos hd]
      exact ih (x :: rest) (by rw [h, List.append_assoc]; rfl)
    · rw [if_neg hd, if_neg hd]
      simp

theorem skipSpaces_of_view {buf : List Nat} {p : Nat} {t post : List Nat} (h : View buf p t post) :
    skipSpaces buf p = p + (t.takeWhile (· = 32)).length := by
  unfold skipSpaces
  rw [h.1, takeWhile_append_cut _ _ (by simp)]

/-- The buffer after the in-place trim of `checkItemName`: at the new cursor it holds the
trimmed string. -/
theorem view_after_trim {buf : List Nat} {p : Nat} {t post : List Nat} (h : View buf p t post) :
    ∃ post2, View (buf.set (p + (t.takeWhile (· = 32)).length + (Spec.trim t).length) 0)
      (p + (t.takeWhile (· = 32)).length) (Spec.trim t) post2 := by
  have h2 := h.drop_takeWhile (· = 32)
  obtain ⟨trail, htrail⟩ := List.rdropWhile_prefix discardChar (t.dropWhile (· = 32))
  have hcore0 : (0 : Nat) ∉ Spec.trim t := by
    intro h0
    apply h2.2
    rw [← htrail]
    exact List.mem_append_left _ h0
  rcases hx : trail ++ 0 :: post with _ | ⟨x, l2⟩
  · simp at hx
  · refine ⟨l2, ?_, hcore0⟩
    apply drop_set_ge (x := x)
    rw [h2.1, ← hx, ← List.append_assoc]
    unfold Spec.trim
    rw [htrail]

/-- The in-place trim leaves the buffer beyond the string's NUL alone. -/
theorem drop_after_trim {buf : List Nat} {p : Nat} {t post : List Nat} (h : View buf p t post) :
    (buf.set (p + (t.takeWhile (· = 32)).length + (Spec.trim t).length) 0).drop (p + t.length)
      = 0 :: post := by
  have hv : buf.drop (p + t.length) = 0 :: post := by
    have := h.tail_end.1
    simpa using this
  have hle : (t.takeWhile (· = 32)).length + (Spec.trim t).length ≤ t.length := by
    have h1 : (t.takeWhile (· = 32)).length + (t.dropWhile (· = 32)).length = t.length := by
      rw [← List.length_append, List.takeWhile_append_dropWhile]
    have h2 : (Spec.trim t).length ≤ (t.dropWhile (· = 32)).length :=
      (List.rdropWhile_prefix _ _).length_le
    omega
  rcases Nat.lt_or_eq_of_le hle with hlt | heq
  · rw [List.drop_set_of_lt _ _ (by omega), hv]
  · have : p + (t.takeWhile (· = 32)).length + (Spec.trim t).length = p + t.length + ([] : List Nat).length := by
      simp; omega
    rw [this]
    have := @drop_set_ge buf (p + t.length) [] post 0 (by simpa using hv) 0
    simpa using this

theorem tokKey_eq_nil_iff (body : List Nat) : Spec.tokKey body = [] ↔ body.dropWhile (· = 61) = [] := by
  unfold Spec.tokKey
  constructor
  · intro h
    have hh := List.head?_dropWhile_not (· = 61) body
    rcases hrem : body.dropWhile (· = 61) with _ | ⟨x, rem⟩
    · exact hrem
    · rw [hrem] at h hh
      simp at hh
      simp [List.takeWhile_cons, hh] at h
  · intro h
    rw [h]
    rfl

theorem tokKey_no_eq (body : List Nat) : (61 : Nat) ∉ Spec.tokKey body := by
  intro h
  have := List.mem_takeWhile_imp h
  simp at this

/-- The views that exist after `strtok` has found a token in the string `body`. -/
theorem strtokFrom_views {buf : List Nat} {start : Nat} {body junk : List Nat}
    (h : View buf start body junk) (hk : Spec.tokKey body ≠ []) :
    ∃ buf2 q post junk2,
      strtokFrom buf start = (some (start + (body.takeWhile (· = 61)).length), buf2, q)
      ∧ View buf2 (start + (body.takeWhile (· = 61)).length) (Spec.tokKey body) post
      ∧ View buf2 q (Spec.tokRest body) junk2
      ∧ start + (body.takeWhile (· = 61)).length + (Spec.tokKey body).length ≤ q
      ∧ buf2.length = buf.length := by
  have hrem : body.dropWhile (· = 61) ≠ [] := fun h0 => hk ((tokKey_eq_nil_iff body).2 h0)
  have h2 := h.drop_takeWhile (· = 61)
  have h3 := h2.drop_takeWhile (· ≠ 61)
  have hsplit : (body.dropWhile (· = 61)).takeWhile (· ≠ 61) ++ (body.dropWhile (· = 61)).dropWhile (· ≠ 61)
      = body.dropWhile (· = 61) := List.takeWhile_append_dropWhile _ _
  have hlen1 : (body.takeWhile (· = 61)).length + (body.dropWhile (· = 61)).length = body.length := by
    rw [← List.length_append, List.takeWhile_append_dropWhile]
  rw [strtokFrom_of_view h, if_neg hrem]
  by_cases hafter : (body.dropWhile (· = 61)).dropWhile (· ≠ 61) = []
  · rw [if_pos hafter]
    have hK : Spec.tokKey body = body.dropWhile (· = 61) := by
      unfold Spec.tokKey
      rw [hafter, List.append_nil] at hsplit
      exact hsplit
    have hR : Spec.tokRest body = [] := by
      unfold Spec.tokRest
      rw [hafter]
      rfl
    refine ⟨buf, start + body.length, junk, junk, rfl, ?_, ?_, ?_, rfl⟩
    · rw [hK]; exact h2
    · rw [hR]
      exact h.tail_end
    · rw [hK]; omega
  · rw [if_neg hafter]
    have hhead := List.head?_dropWhile_not (· ≠ 61) (body.dropWhile (· = 61))
    rcases hd : (body.dropWhile (· = 61)).dropWhile (· ≠ 61) with _ | ⟨y, R⟩
    · exact absurd hd hafter
    · rw [hd] at hhead
      have hy : y = 61 := by simpa using hhead
      subst hy
      have hR : Spec.tokRest body = R := by
        unfold Spec.tokRest
        rw [hd]
        rfl
      have hdrop : buf.drop (start + (body.takeWhile (· = 61)).length)
          = Spec.tokKey body ++ 61 :: (R ++ 0 :: junk) := by
        rw [h2.1]
        conv_lhs => rw [← hsplit, hd]
        unfold Spec.tokKey
        simp
      have hset := drop_set_ge hdrop 0
      have hR0 : (0 : Nat) ∉ R := by
        intro h0
        apply h3.2
        rw [hd]
        exact List.mem_cons_of_mem _ h0
      have hK0 : (0 : Nat) ∉ Spec.tokKey body := by
        intro h0
        exact h2.2 (List.takeWhile_subset _ h0)
      refine ⟨_, _, R ++ 0 :: junk, junk, rfl, ⟨hset, hK0⟩, ⟨?_, ?_⟩, ?_, ?_⟩
      · have := congrArg (List.drop ((Spec.tokKey body).length + 1)) hset
        rw [List.drop_drop] at this
        have e : start + (body.takeWhile (· = 61)).length + (Spec.tokKey body).length + 1
            = start + (body.takeWhile (· = 61)).length + ((Spec.tokKey body).length + 1) := by omega
        unfold Spec.tokKey at this e
        rw [e, this]
        rw [List.drop_append_eq_append_drop]
        simp [hR]
      · rw [hR]; exact hR0
      · unfold Spec.tokKey; omega
      · simp

end SdConfigFile

/-! ## Lemmas on the key/value matcher -/

namespace SdConfigFile

open Libc

theorem SameFrame.refl (s : SdConfigFile) : SameFrame s s := by
  simp [SameFrame]

theorem SameFrame.trans {s1 s2 s3 : SdConfigFile} (h1 : SameFrame s1 s2) (h2 : SameFrame s2 s3) :
    SameFrame s1 s3 := by
  obtain ⟨a1, a2, a3, a4, a5, a6, a7, a8⟩ := h1
  obtain ⟨b1, b2, b3, b4, b5, b6, b7, b8⟩ := h2
  exact ⟨b1.trans a1, b2.trans a2, b3.trans a3, b4.trans a4, b5.trans a5, b6.trans a6,
    b7.trans a7, b8.trans a8⟩

theorem sameFrame_trimmed (s : SdConfigFile) (p0 : Nat) (t : List Nat) :
    SameFrame s (trimmed s p0 t) := by
  simp [SameFrame, trimmed]

/-- The method `checkItemName`, for a cursor at a string `t`: the comparison is made with the
trimmed string. -/
theorem checkItemName_of_view {s : SdConfigFile} {p0 : Nat} {t post : List Nat}
    (hc : s.currentPos = some p0) (h : View s.lineBuffer p0 t post) (itemName : List Nat) :
    checkItemName itemName s =
      if cstrOf itemName = Spec.trim t ∧ Spec.trim t ≠ [] then
        match strtokNull (trimmed s p0 t) with
        | .error f => .error f
        | .ok s2 => if s2.currentPos.isSome then .ok (true, s2) else .ok (false, s2)
      else .ok (false, trimmed s p0 t) := by
  have h2 := h.drop_takeWhile (· = 32)
  have hlen : trimLength s.lineBuffer (p0 + (t.takeWhile (· = 32)).length)
      (strlen s.lineBuffer (p0 + (t.takeWhile (· = 32)).length)) = (Spec.trim t).length := by
    rw [h2.strlen_eq, trimLength_eq _ _ h2.1]
    rfl
  obtain ⟨post2, h3⟩ := view_after_trim h
  unfold checkItemName
  rw [hc]
  simp only [skipSpaces_of_view h, hlen, h3.cstr_eq]
  have hne : ((Spec.trim t).length ≠ 0) ↔ Spec.trim t ≠ [] := by
    simp
  simp only [hne]
  rfl

theorem view_of_nul_terminated (pre c junk0 : List Nat) :
    ∃ junk, View (pre ++ c ++ 0 :: junk0) pre.length (cstrOf c) junk := by
  have hsplit : c.takeWhile (· ≠ 0) ++ c.dropWhile (· ≠ 0) = c := List.takeWhile_append_dropWhile _ _
  have hhead := List.head?_dropWhile_not (· ≠ 0) c
  have h0 : (0 : Nat) ∉ cstrOf c := by
    intro h
    have := List.mem_takeWhile_imp h
    simp at this
  rcases hd : c.dropWhile (· ≠ 0) with _ | ⟨y, rest⟩
  · refine ⟨junk0, ?_, h0⟩
    rw [hd, List.append_nil] at hsplit
    unfold cstrOf
    rw [hsplit, List.append_assoc, List.drop_left]
  · rw [hd] at hhead
    have hy : y = 0 := by simpa using hhead
    subst hy
    refine ⟨rest ++ 0 :: junk0, ?_, h0⟩
    rw [List.append_assoc, List.drop_left]
    conv_lhs => rw [← hsplit, hd]
    unfold cstrOf
    simp

/-- The rest of the line is still in place after the key has been trimmed. -/
theorem entry_trimmed {s : SdConfigFile} {a q : Nat} {K R : List Nat} (h : Entry s a K q R) :
    Entry (trimmed s a K) (a + (K.takeWhile (· = 32)).length) (Spec.trim K) q R := by
  obtain ⟨post, hK⟩ := h.keyView
  obtain ⟨junk, hR⟩ := h.restView
  obtain ⟨post2, h3⟩ := view_after_trim hK
  have hle : (K.takeWhile (· = 32)).length + (Spec.trim K).length ≤ K.length := by
    have h1 : (K.takeWhile (· = 32)).length + (K.dropWhile (· = 32)).length = K.length := by
      rw [← List.length_append, List.takeWhile_append_dropWhile]
    have h2 : (Spec.trim K).length ≤ (K.dropWhile (· = 32)).length :=
      (List.rdropWhile_prefix _ _).length_le
    omega
  refine ⟨rfl, h.save, ⟨post2, h3⟩, ?_, ?_⟩
  · rcases Nat.lt_or_eq_of_le h.le with hlt | heq
    · refine ⟨junk, ?_, hR.2⟩
      show (s.lineBuffer.set _ 0).drop q = _
      rw [List.drop_set_of_lt _ _ (by omega)]
      exact hR.1
    · have hq : s.lineBuffer.drop q = 0 :: post := by
        have := hK.tail_end.1
        rw [heq] at this
        simpa using this
      have hRnil : R = [] := by
        have := hR.1
        rw [hq] at this
        rcases R with _ | ⟨r, R⟩
        · rfl
        · simp at this
          exact absurd (this.1 ▸ List.mem_cons_self _ _) hR.2
      subst hRnil
      refine ⟨post, ?_, by simp⟩
      show (s.lineBuffer.set _ 0).drop q = _
      rw [← heq]
      exact drop_after_trim hK
  · show a + (K.takeWhile (· = 32)).length + (Spec.trim K).length ≤ q
    have := h.le
    omega

theorem checkItemName_entry_nomatch {s : SdConfigFile} {a q : Nat} {K R : List Nat}
    (h : Entry s a K q R) {itemName : List Nat}
    (hn : ¬ (cstrOf itemName = Spec.trim K ∧ Spec.trim K ≠ [])) :
    checkItemName itemName s = .ok (false, trimmed s a K) := by
  obtain ⟨post, hK⟩ := h.keyView
  rw [checkItemName_of_view h.cur hK, if_neg hn]

theorem checkItemName_entry_match {s : SdConfigFile} {a q : Nat} {K R : List Nat}
    (h : Entry s a K q R) {itemName : List Nat}
    (hm : cstrOf itemName = Spec.trim K) (hne : Spec.trim K ≠ []) (hv : Spec.tokKey R ≠ []) :
    ∃ s2 v q2, checkItemName itemName s = .ok (true, s2)
      ∧ Entry s2 v (Spec.tokKey R) q2 (Spec.tokRest R) ∧ SameFrame s s2 := by
  obtain ⟨post, hK⟩ := h.keyView
  have ht := entry_trimmed h
  obtain ⟨junk, hR⟩ := ht.restView
  obtain ⟨buf2, q2, post2, junk2, e, v1, v2, hle, _⟩ := strtokFrom_views hR hv
  rw [checkItemName_of_view h.cur hK, if_pos ⟨hm, hne⟩]
  unfold strtokNull
  rw [ht.save]
  simp only [e]
  refine ⟨_, _, _, rfl, ⟨rfl, rfl, ⟨post2, v1⟩, ⟨junk2, v2⟩, hle⟩, ?_⟩
  simp [SameFrame, trimmed]

theorem checkItemName_entry_novalue {s : SdConfigFile} {a q : Nat} {K R : List Nat}
    (h : Entry s a K q R) {itemName : List Nat}
    (hm : cstrOf itemName = Spec.trim K) (hne : Spec.trim K ≠ []) (hv : Spec.tokKey R = []) :
    ∃ s2, checkItemName itemName s = .ok (false, s2) ∧ s2.currentPos = none ∧ SameFrame s s2 := by
  obtain ⟨post, hK⟩ := h.keyView
  have ht := entry_trimmed h
  obtain ⟨junk, hR⟩ := ht.restView
  have e := strtokFrom_of_view hR
  rw [if_pos ((tokKey_eq_nil_iff R).1 hv)] at e
  rw [checkItemName_of_view h.cur hK, if_pos ⟨hm, hne⟩]
  unfold strtokNull
  rw [ht.save]
  simp only [e]
  refine ⟨_, rfl, rfl, ?_⟩
  simp [SameFrame, trimmed]

end SdConfigFile

/-! ## Lemmas on the tokenizer -/

namespace SdConfigFile

open Libc

/-- The classification of a chunk, case by case. -/
theorem classifyChunk_eq (n : Nat) (s : SdConfigFile) :
    classifyChunk n s =
      if n ≤ 3 then
        .ok (none, { s with lineOverflow := true, equalsSplit := false, currentPos := some 0 })
      else if s.commentActive = true ∨ commentAt s.lineBuffer = true then
        .ok (none, { s with lineOverflow := overflowOf s.lineBuffer n, equalsSplit := false,
                            currentPos := some 0, commentActive := overflowOf s.lineBuffer n })
      else
        match (strtokFrom s.lineBuffer 0).1 with
        | none => .error .nullDeref
        | some p =>
          if strlen (strtokFrom s.lineBuffer 0).2.1 p = n ∧ overflowOf s.lineBuffer n = false then
            .ok (none, { s with lineOverflow := false, equalsSplit := false,
                                currentPos := some p,
                                lineBuffer := (strtokFrom s.lineBuffer 0).2.1,
                                strtokSave := some (strtokFrom s.lineBuffer 0).2.2 })
          else
            .ok (some { s with lineOverflow := overflowOf s.lineBuffer n, equalsSplit := true,
                                currentPos := some p,
                                lineBuffer := (strtokFrom s.lineBuffer 0).2.1,
                                strtokSave := some (strtokFrom s.lineBuffer 0).2.2 },
                 { s with lineOverflow := overflowOf s.lineBuffer n, equalsSplit := true,
                                currentPos := some p,
                                lineBuffer := (strtokFrom s.lineBuffer 0).2.1,
                                strtokSave := some (strtokFrom s.lineBuffer 0).2.2 }) := by
  unfold classifyChunk overflowOf commentAt
  by_cases hn : n ≤ 3
  · have : ¬ n > 3 := by omega
    simp [hn, this]
  · have hn2 : n > 3 := by omega
    by_cases h10 : s.lineBuffer.getD (n - 1) 0 = 10 <;> by_cases hca : s.commentActive = true
      <;> by_cases h35 : s.lineBuffer.getD 0 0 = 35
      <;> by_cases h47 : s.lineBuffer.getD 0 0 = 47
      <;> by_cases h47b : s.lineBuffer.getD 1 0 = 47
      <;> simp only [hn, hn2, h10, hca, h35, h47, h47b, if_true, if_false, decide_True,
        decide_False, Bool.not_true, Bool.not_false, true_or, or_true, or_false, false_or,
        and_true, true_and, and_false, false_and, Bool.true_or, Bool.or_true, Bool.false_or,
        Bool.or_false, Bool.and_true, Bool.true_and, Bool.and_false, Bool.false_and,
        not_true_eq_false, not_false_eq_true, Bool.false_eq_true, ite_true, ite_false]
      <;> first | rfl | (cases h : (strtokFrom s.lineBuffer 0).1 <;> simp [h, hca])

theorem strtokNull_frame {s s2 : SdConfigFile} (h : strtokNull s = .ok s2) : SameFrame s s2 := by
  unfold strtokNull at h
  split at h
  · simp at h
  · simp only [Except.ok.injEq] at h
    subst h
    simp [SameFrame]

theorem checkItemName_frame {s s2 : SdConfigFile} {itemName : List Nat} {b : Bool}
    (h : checkItemName itemName s = .ok (b, s2)) : SameFrame s s2 := by
  unfold checkItemName at h
  split at h
  · simp at h
  · dsimp only at h
    split at h
    · split at h
      · simp at h
      · rename_i s3 hs3
        have hf := strtokNull_frame hs3
        have hf0 : SameFrame s s3 := by
          obtain ⟨a1, a2, a3, a4, a5, a6, a7, a8⟩ := hf
          exact ⟨a1, a2, a3, a4, a5, a6, a7, a8⟩
        split at h <;> simp only [Except.ok.injEq, Prod.mk.injEq] at h <;> obtain ⟨_, h⟩ := h
          <;> subst h <;> exact hf0
    · simp only [Except.ok.injEq, Prod.mk.injEq] at h
      obtain ⟨_, h⟩ := h
      subst h
      simp [SameFrame]

theorem append_append (sd : SdFat) (name a b : List Nat) :
    (sd.append name a).append name b = sd.append name (a ++ b) := by
  unfold SdFat.append
  simp only [List.map_map]
  congr 1
  apply List.map_congr_left
  intro e _
  simp only [Function.comp]
  by_cases he : e.1 = name <;> simp [he]

@[simp] theorem tempPrint_sd (s : SdConfigFile) (b : List Nat) :
    (s.tempPrint b).sd = s.tempOut b := rfl
@[simp] theorem tempPrint_serial (s : SdConfigFile) (b : List Nat) :
    (s.tempPrint b).serial = s.serial := rfl
@[simp] theorem tempPrint_origFile (s : SdConfigFile) (b : List Nat) :
    (s.tempPrint b).origFile = s.origFile := rfl
@[simp] theorem tempPrint_tempFile (s : SdConfigFile) (b : List Nat) :
    (s.tempPrint b).tempFile = s.tempFile := rfl
@[simp] theorem tempPrint_lineBuffer (s : SdConfigFile) (b : List Nat) :
    (s.tempPrint b).lineBuffer = s.lineBuffer := rfl
@[simp] theorem tempPrint_currentPos (s : SdConfigFile) (b : List Nat) :
    (s.tempPrint b).currentPos = s.currentPos := rfl
@[simp] theorem tempPrint_lineOverflow (s : SdConfigFile) (b : List Nat) :
    (s.tempPrint b).lineOverflow = s.lineOverflow := rfl
@[simp] theorem tempPrint_commentActive (s : SdConfigFile) (b : List Nat) :
    (s.tempPrint b).commentActive = s.commentActive := rfl
@[simp] theorem tempPrint_writeAppend (s : SdConfigFile) (b : List Nat) :
    (s.tempPrint b).writeAppend = s.writeAppend := rfl
@[simp] theorem tempPrint_equalsSplit (s : SdConfigFile) (b : List Nat) :
    (s.tempPrint b).equalsSplit = s.equalsSplit := rfl
@[simp] theorem tempPrint_strtokSave (s : SdConfigFile) (b : List Nat) :
    (s.tempPrint b).strtokSave = s.strtokSave := rfl
@[simp] theorem textAt_tempPrint (s : SdConfigFile) (b : List Nat) (p : Option Nat) :
    (s.tempPrint b).textAt p = s.textAt p := rfl

theorem tempOut_tempPrint (s : SdConfigFile) (a b : List Nat) :
    (s.tempPrint a).tempOut b = s.tempOut (a ++ b) := by
  unfold tempPrint tempOut
  cases s.tempFile <;> simp [append_append]

theorem append_nil (sd : SdFat) (name : List Nat) : sd.append name [] = sd := by
  unfold SdFat.append
  have : sd.files.map (fun e => if e.1 = name then (e.1, e.2 ++ []) else e) = sd.files := by
    conv_rhs => rw [← List.map_id sd.files]
    apply List.map_congr_left
    intro e _
    by_cases he : e.1 = name
    · simp [he]
      exact Prod.ext he.symm rfl
    · simp [he]
  rw [this]

theorem tempOut_nil (s : SdConfigFile) : tempOut s [] = s.sd := by
  unfold tempOut
  split
  · rfl
  · exact append_nil _ _

/-- The method `printLineToFile` changes the card only by adding bytes to the temporary file;
of the members it changes only the line buffer, the cursor and the pointer of `strtok`. -/
theorem printLineToFile_frame {s s2 : SdConfigFile} (h : printLineToFile s = .ok s2) :
    ∃ out, s2.sd = tempOut s out ∧ s2.serial = s.serial ∧ s2.origFile = s.origFile
      ∧ s2.tempFile = s.tempFile ∧ s2.lineOverflow = s.lineOverflow
      ∧ s2.commentActive = s.commentActive ∧ s2.writeAppend = s.writeAppend
      ∧ s2.equalsSplit = s.equalsSplit := by
  unfold printLineToFile at h
  split at h
  · dsimp only at h
    split at h
    · split at h
      · simp at h
      · rename_i s3 hs3
        have f3 := strtokNull_frame hs3
        split at h
        · simp at h
        · rename_i b s4 hs4
          have f4 := checkItemName_frame hs4
          obtain ⟨g1, g2, g3, g4, g5, g6, g7, g8⟩ := f3.trans f4
          simp only [Except.ok.injEq] at h
          subst h
          refine ⟨s.textAt s.currentPos ++ ([61] ++ (s4.textAt s4.currentPos ++ Print.newline)),
            ?_, g2, g3, g4, g5, g6, g7, g8⟩
          show ((s4.tempPrint [61]).tempPrint _).tempOut Print.newline = _
          rw [tempOut_tempPrint, tempOut_tempPrint, textAt_tempPrint]
          simp only [tempPrint_sd, tempPrint_tempFile] at g1 g4
          unfold tempOut at g1 ⊢
          rw [g4, g1]
          cases s.tempFile <;> simp [append_append]
    · simp only [Except.ok.injEq] at h
      subst h
      exact ⟨_, rfl, rfl, rfl, rfl, rfl, rfl, rfl, rfl⟩
  · simp only [Except.ok.injEq] at h
    subst h
    exact ⟨[], (tempOut_nil s).symm, rfl, rfl, rfl, rfl, rfl, rfl, rfl⟩

/-- The classification of a chunk touches neither the card nor the file handles. -/
theorem classifyChunk_frame {n : Nat} {s s2 : SdConfigFile} {o : Option SdConfigFile}
    (h : classifyChunk n s = .ok (o, s2)) :
    s2.sd = s.sd ∧ s2.serial = s.serial ∧ s2.origFile = s.origFile ∧ s2.tempFile = s.tempFile
      ∧ s2.writeAppend = s.writeAppend ∧ (∀ s3, o = some s3 → s3 = s2) := by
  rw [classifyChunk_eq] at h
  split at h
  · simp only [Except.ok.injEq, Prod.mk.injEq] at h
    obtain ⟨h1, h2⟩ := h
    subst h1 h2
    simp
  · split at h
    · simp only [Except.ok.injEq, Prod.mk.injEq] at h
      obtain ⟨h1, h2⟩ := h
      subst h1 h2
      simp
    · split at h
      · simp at h
      · split at h <;> simp only [Except.ok.injEq, Prod.mk.injEq] at h <;> obtain ⟨h1, h2⟩ := h
          <;> subst h1 h2 <;> simp

/-- Whenever the classification of a chunk ends in `return true`, the object presents an
entry: the cursor is at the first token of the chunk. -/
theorem classifyChunk_some {n : Nat} {s2 s3 s4 : SdConfigFile} (c junk0 : List Nat)
    (hb : s2.lineBuffer = c ++ 0 :: junk0)
    (h : classifyChunk n s2 = .ok (some s3, s4)) :
    ∃ a q, Entry s3 a (Spec.tokKey (cstrOf c)) q (Spec.tokRest (cstrOf c))
      ∧ Spec.tokKey (cstrOf c) ≠ [] ∧ s3.equalsSplit = true
      ∧ s3.commentActive = false ∧ s2.commentActive = false ∧ 3 < n
      ∧ commentAt s2.lineBuffer = false
      ∧ ((Spec.tokKey (cstrOf c)).length = n → overflowOf s2.lineBuffer n = true) := by
  obtain ⟨junk, hv⟩ := view_of_nul_terminated [] c junk0
  simp only [List.nil_append, List.length_nil] at hv
  rw [← hb] at hv
  rw [classifyChunk_eq] at h
  split at h
  · simp at h
  · rename_i hn
    split at h
    · simp at h
    · rename_i hcc
      simp only [not_or, Bool.not_eq_true] at hcc
      by_cases hk : Spec.tokKey (cstrOf c) = []
      · have e := strtokFrom_of_view hv
        rw [if_pos ((tokKey_eq_nil_iff _).1 hk)] at e
        simp [e] at h
      · obtain ⟨buf2, q, post, junk2, e, v1, v2, hle, _⟩ := strtokFrom_views hv hk
        simp only [e] at h
        split at h
        · simp at h
        · rename_i hcond
          simp only [Except.ok.injEq, Prod.mk.injEq, Option.some.injEq] at h
          obtain ⟨h3, _⟩ := h
          subst h3
          refine ⟨_, q, ⟨rfl, rfl, ⟨post, v1⟩, ⟨junk2, v2⟩, hle⟩, hk, rfl, hcc.1, hcc.1,
            by omega, hcc.2, ?_⟩
          intro hlen
          rw [v1.strlen_eq] at hcond
          by_contra hov
          exact hcond ⟨hlen, by simpa using hov⟩

theorem fgets_suffix (room : Nat) (file : List Nat) : (SdFat.fgets room file).2 <:+ file := by
  induction file generalizing room with
  | nil => simp [SdFat.fgets]
  | cons ch rest ih =>
    unfold SdFat.fgets
    split
    · exact List.suffix_refl _
    · split
      · exact (ih room).trans (List.suffix_cons _ _)
      · split
        · exact List.suffix_cons _ _
        · exact (ih (room - 1)).trans (List.suffix_cons _ _)

theorem fgets_length_le (room : Nat) (file : List Nat) :
    (SdFat.fgets room file).2.length ≤ file.length := by
  induction file generalizing room with
  | nil => simp [SdFat.fgets]
  | cons ch rest ih =>
    unfold SdFat.fgets
    split
    · simp
    · split
      · exact Nat.le_succ_of_le (ih room)
      · split
        · simp
        · exact Nat.le_succ_of_le (ih (room - 1))

theorem fgets_length_lt (room : Nat) (hroom : 0 < room) (ch : Nat) (rest : List Nat) :
    (SdFat.fgets room (ch :: rest)).2.length < (ch :: rest).length := by
  unfold SdFat.fgets
  rw [if_neg (by omega)]
  split
  · exact Nat.lt_succ_of_le (fgets_length_le _ _)
  · split
    · simp
    · exact Nat.lt_succ_of_le (fgets_length_le _ _)

/-- The loop of `readConfigLine` gives the same result for every fuel that is more than the
number of unread bytes: with that much fuel, the fuel never runs out. -/
theorem readConfigLineLoop_fuel (fuel1 fuel2 : Nat) (s : SdConfigFile) (file : List Nat)
    (hs : s.origFile = some file) (h1 : file.length < fuel1) (h2 : file.length < fuel2) :
    readConfigLineLoop fuel1 s = readConfigLineLoop fuel2 s := by
  induction fuel1 generalizing fuel2 s file with
  | zero => omega
  | succ k1 ih =>
    rcases fuel2 with _ | k2
    · omega
    · unfold readConfigLineLoop
      rw [hs]
      rcases file with _ | ⟨c, cs⟩
      · rfl
      · simp only
        rcases hp : printLineToFile s with f | s1
        · rfl
        · simp only
          rcases hc : classifyChunk _ _ with f | ⟨o, s3⟩
          · rfl
          · rcases o with _ | s4
            · simp only
              have hf := (classifyChunk_frame hc).2.2.1
              simp only at hf
              have hlt := fgets_length_lt (SDCONFIG_BUFFER_LENGTH - 1) (by decide) c cs
              simp only [List.length_cons] at hlt h1 h2
              exact ih k2 s3 _ hf (by omega) (by omega)
            · rfl

theorem readConfigLine_closed {s : SdConfigFile} (hs : s.origFile = none) :
    readConfigLine s = .ok (false, s) := by
  unfold readConfigLine
  rw [hs]

theorem readConfigLine_nil {s : SdConfigFile} (hs : s.origFile = some []) :
    readConfigLine s =
      match printLineToFile s with
      | .error f => .error f
      | .ok s1 => .ok (false, { s1 with origFile := none }) := by
  unfold readConfigLine
  rw [hs]
  simp only [List.length_nil, Nat.zero_add]
  unfold readConfigLineLoop
  rw [hs] <;> rfl

/-- One round of the loop of `readConfigLine`. -/
theorem readConfigLine_cons {s : SdConfigFile} {c : Nat} {cs : List Nat}
    (hs : s.origFile = some (c :: cs)) :
    readConfigLine s =
      match printLineToFile s with
      | .error f => .error f
      | .ok s1 =>
        match classifyChunk (SdFat.fgets (SDCONFIG_BUFFER_LENGTH - 1) (c :: cs)).1.length
            { s1 with origFile := some (SdFat.fgets (SDCONFIG_BUFFER_LENGTH - 1) (c :: cs)).2,
                      lineBuffer := (SdFat.fgets (SDCONFIG_BUFFER_LENGTH - 1) (c :: cs)).1 ++ 0 ::
                        s1.lineBuffer.drop ((SdFat.fgets (SDCONFIG_BUFFER_LENGTH - 1) (c :: cs)).1.length + 1) } with
        | .error f => .error f
        | .ok (some s3, _) => .ok (true, s3)
        | .ok (none, s3) => readConfigLine s3 := by
  conv_lhs => unfold readConfigLine
  rw [hs]
  simp only
  unfold readConfigLineLoop
  rw [hs]
  simp only
  rcases hp : printLineToFile s with f | s1
  · rfl
  · simp only
    rcases hc : classifyChunk _ _ with f | ⟨o, s3⟩
    · rfl
    · rcases o with _ | s4
      · simp only
        have hf := (classifyChunk_frame hc).2.2.1
        simp only at hf
        have hlt := fgets_length_lt (SDCONFIG_BUFFER_LENGTH - 1) (by decide) c cs
        unfold readConfigLine
        rw [hf]
        simp only
        exact readConfigLineLoop_fuel _ _ s3 _ hf hlt (by omega)
      · rfl

/-- What holds whenever `readConfigLine` returns `true`: the object presents an entry, whose
key token is not empty, and at least one byte of the file was read. -/
theorem readConfigLine_true {s0 s : SdConfigFile} (h : readConfigLine s0 = .ok (true, s)) :
    ∃ a K q R, Entry s a K q R ∧ K ≠ [] ∧ s.equalsSplit = true ∧ s.commentActive = false
      ∧ s.tempFile = s0.tempFile ∧ s.writeAppend = s0.writeAppend
      ∧ ∃ file rest, s0.origFile = some file ∧ s.origFile = some rest
        ∧ rest.length < file.length ∧ rest <:+ file := by
  rcases hfile : s0.origFile with _ | file
  · rw [readConfigLine_closed hfile] at h
    simp at h
  · obtain ⟨n, hn⟩ : ∃ n, file.length = n := ⟨_, rfl⟩
    induction n using Nat.strong_induction_on generalizing s0 file with
    | _ n ih =>
      rcases file with _ | ⟨c, cs⟩
      · rw [readConfigLine_nil hfile] at h
        split at h <;> simp at h
      · rw [readConfigLine_cons hfile] at h
        split at h
        · simp at h
        · rename_i s1 hs1
          obtain ⟨out, _, _, p3, p4, _, _, p7, _⟩ := printLineToFile_frame hs1
          split at h
          · simp at h
          · rename_i s3 s4 hc
            simp only [Except.ok.injEq, Prod.mk.injEq, true_and] at h
            subst h
            obtain ⟨a, q, he, hk, h1, h2, _, _, _, _⟩ := classifyChunk_some _ _ rfl hc
            obtain ⟨_, _, f3, f4, f5, f6⟩ := classifyChunk_frame hc
            have := f6 s3 rfl
            subst this
            refine ⟨a, _, q, _, he, hk, h1, h2, by rw [f4]; exact p4, by rw [f5]; exact p7,
              c :: cs, _, rfl, f3, ?_, fgets_suffix _ _⟩
            exact fgets_length_lt _ (by decide) c cs
          · rename_i s3 hc
            obtain ⟨_, _, f3, f4, f5, _⟩ := classifyChunk_frame hc
            simp only at f3 f4 f5
            have hlt := fgets_length_lt (SDCONFIG_BUFFER_LENGTH - 1) (by decide) c cs
            obtain ⟨a, K, q, R, he, hk, h1, h2, h3, h4, file2, rest, e1, e2, hlen, hsuf⟩ :=
              ih _ (by rw [← hn]; exact hlt) h _ f3 rfl
            simp only [Option.some.injEq] at e1
            subst e1
            exact ⟨a, K, q, R, he, hk, h1, h2, by rw [h3, f4]; exact p4, by rw [h4, f5]; exact p7,
              c :: cs, rest, rfl, e2, by omega, hsuf.trans (fgets_suffix _ _)⟩

/-- Whenever `readConfigLine` returns `false`, the file has been closed. -/
theorem readConfigLine_false {s0 s : SdConfigFile} (h : readConfigLine s0 = .ok (false, s)) :
    s.origFile = none := by
  rcases hfile : s0.origFile with _ | file
  · rw [readConfigLine_closed hfile] at h
    simp only [Except.ok.injEq, Prod.mk.injEq, true_and] at h
    subst h
    exact hfile
  · obtain ⟨n, hn⟩ : ∃ n, file.length = n := ⟨_, rfl⟩
    induction n using Nat.strong_induction_on generalizing s0 file with
    | _ n ih =>
      rcases file with _ | ⟨c, cs⟩
      · rw [readConfigLine_nil hfile] at h
        split at h
        · simp at h
        · simp only [Except.ok.injEq, Prod.mk.injEq, true_and] at h
          subst h
          rfl
      · rw [readConfigLine_cons hfile] at h
        split at h
        · simp at h
        · split at h
          · simp at h
          · simp at h
          · rename_i s3 hc
            obtain ⟨_, _, f3, _⟩ := classifyChunk_frame hc
            simp only at f3
            have hlt := fgets_length_lt (SDCONFIG_BUFFER_LENGTH - 1) (by decide) c cs
            exact ih _ (by rw [← hn]; exact hlt) h _ f3 rfl

end SdConfigFile

/-! ## Lemmas on `fgets` and on lines -/

namespace SdConfigFile

open Libc

theorem removeCR_cons_cr (l : List Nat) : Spec.removeCR (13 :: l) = Spec.removeCR l := by
  simp [Spec.removeCR]

theorem removeCR_cons_other {c : Nat} (l : List Nat) (h : c ≠ 13) :
    Spec.removeCR (c :: l) = c :: Spec.removeCR l := by
  simp [Spec.removeCR, h]

theorem removeCR_append (l1 l2 : List Nat) :
    Spec.removeCR (l1 ++ l2) = Spec.removeCR l1 ++ Spec.removeCR l2 := by
  simp [Spec.removeCR]

/-- A line that fits is read as one chunk: the line without its carriage returns. -/
theorem fgets_line (room : Nat) (body rest : List Nat) (hb : 10 ∉ body)
    (hfit : (Spec.removeCR body).length < room) :
    SdFat.fgets room (body ++ 10 :: rest) = (Spec.removeCR body ++ [10], rest) := by
  induction body generalizing room with
  | nil =>
    simp only [List.nil_append]
    unfold SdFat.fgets
    rw [if_neg (by omega)]
    simp [Spec.removeCR]
  | cons ch b ih =>
    have hb2 : 10 ∉ b := fun h => hb (List.mem_cons_of_mem _ h)
    have hch : ch ≠ 10 := fun h => hb (by simp [h])
    simp only [List.cons_append]
    unfold SdFat.fgets
    rw [if_neg (by omega)]
    by_cases h13 : ch = 13
    · subst h13
      rw [if_pos rfl, removeCR_cons_cr]
      rw [removeCR_cons_cr] at hfit
      exact ih room hb2 hfit
    · rw [if_neg h13, if_neg hch, removeCR_cons_other _ h13]
      rw [removeCR_cons_other _ h13] at hfit
      simp only [List.length_cons] at hfit
      rw [ih (room - 1) hb2 (by omega)]
      rfl

/-- What `fgets` reads from the rest of a line: a piece of the line without its carriage
returns; either the line is finished by it, or the chunk is full and holds no line feed. -/
theorem fgets_lineTail (room : Nat) (hroom : 0 < room) (tail rest : List Nat)
    (ht : LineTail tail rest) :
    ∃ tail2, (SdFat.fgets room (tail ++ rest)).2 = tail2 ++ rest
      ∧ tail2.length ≤ tail.length
      ∧ (SdFat.fgets room (tail ++ rest)).1 <+: Spec.removeCR tail
      ∧ (tail2 = [] ∨ ((SdFat.fgets room (tail ++ rest)).1.length = room
            ∧ 10 ∉ (SdFat.fgets room (tail ++ rest)).1 ∧ LineTail tail2 rest)) := by
  induction tail generalizing room with
  | nil =>
    rcases ht with ⟨body, hbody, _⟩ | ⟨_, hrest⟩
    · simp at hbody
    · subst hrest
      exact ⟨[], by simp [SdFat.fgets], by simp, by simp [SdFat.fgets], Or.inl rfl⟩
  | cons ch t ih =>
    have ht2 : ch ≠ 10 → LineTail t rest := by
      intro hch
      rcases ht with ⟨body, hbody, hb⟩ | ⟨hno, hrest⟩
      · rcases body with _ | ⟨b0, body⟩
        · simp at hbody
          exact absurd hbody.1 hch
        · simp only [List.cons_append, List.cons.injEq] at hbody
          exact Or.inl ⟨body, hbody.2, fun h => hb (List.mem_cons_of_mem _ h)⟩
      · exact Or.inr ⟨fun h => hno (List.mem_cons_of_mem _ h), hrest⟩
    simp only [List.cons_append]
    unfold SdFat.fgets
    rw [if_neg (by omega)]
    by_cases h13 : ch = 13
    · subst h13
      rw [if_pos rfl, removeCR_cons_cr]
      obtain ⟨tail2, e1, e2, e3, e4⟩ := ih room hroom (ht2 (by decide))
      exact ⟨tail2, e1, by simp; omega, e3, e4⟩
    · rw [if_neg h13]
      by_cases h10 : ch = 10
      · subst h10
        rw [if_pos rfl]
        have htnil : t = [] := by
          rcases ht with ⟨body, hbody, hb⟩ | ⟨hno, _⟩
          · rcases body with _ | ⟨b0, body⟩
            · simpa using hbody
            · simp only [List.cons_append, List.cons.injEq] at hbody
              exact absurd (hbody.1 ▸ List.mem_cons_self _ _) hb
          · exact absurd (List.mem_cons_self _ _) hno
        subst htnil
        exact ⟨[], by simp, by simp, by simp [Spec.removeCR], Or.inl rfl⟩
      · rw [if_neg h10, removeCR_cons_other _ h13]
        by_cases hr1 : room - 1 = 0
        · have hzero : SdFat.fgets (room - 1) (t ++ rest) = ([], t ++ rest) := by
            rw [hr1]
            cases t ++ rest <;> simp [SdFat.fgets]
          rw [hzero]
          refine ⟨t, rfl, by simp, by simp, ?_⟩
          by_cases htn : t = []
          · exact Or.inl htn
          · exact Or.inr ⟨by simp; omega, by simpa using Ne.symm h10, ht2 h10⟩
        · obtain ⟨tail2, e1, e2, e3, e4⟩ := ih (room - 1) (by omega) (ht2 h10)
          refine ⟨tail2, e1, by simp; omega, ?_, ?_⟩
          · exact (List.prefix_cons_inj ch).2 e3
          · rcases e4 with e4 | ⟨e5, e6, e7⟩
            · exact Or.inl e4
            · refine Or.inr ⟨by simp [e5]; omega, ?_, e7⟩
              intro hmem
              rcases List.mem_cons.1 hmem with h | h
              · exact h10 h.symm
              · exact e6 h

theorem commentAt_of_start {chunk line junk : List Nat} (hp : chunk <+: line)
    (hc : Spec.isComment line = true) (hlen : 3 < chunk.length) :
    commentAt (chunk ++ 0 :: junk) = true := by
  obtain ⟨t, ht⟩ := hp
  rcases chunk with _ | ⟨c0, _ | ⟨c1, chunk⟩⟩
  · simp at hlen
  · simp at hlen
  · subst ht
    unfold Spec.isComment at hc
    unfold commentAt
    simp only [List.cons_append, List.take_succ_cons, List.take_zero, Bool.or_eq_true,
      decide_eq_true_eq, List.cons.injEq, and_true] at hc
    simp only [List.cons_append, List.getD_cons_zero, List.getD_cons_succ, Bool.or_eq_true,
      decide_eq_true_eq, Bool.and_eq_true]
    rcases hc with h | h
    · exact Or.inl h
    · exact Or.inr h

theorem overflowOf_of_no_lf {chunk junk : List Nat} (hne : chunk ≠ []) (h : 10 ∉ chunk) :
    overflowOf (chunk ++ 0 :: junk) chunk.length = true := by
  unfold overflowOf
  have hlast : (chunk ++ 0 :: junk).getD (chunk.length - 1) 0 ∈ chunk := by
    have hlt : chunk.length - 1 < chunk.length := by
      have := List.length_pos.2 hne
      omega
    rw [List.getD_append _ _ _ _ hlt, List.getD_eq_getElem _ _ hlt]
    exact List.getElem_mem _
  have : (chunk ++ 0 :: junk).getD (chunk.length - 1) 0 ≠ 10 := fun h10 => h (h10 ▸ hlast)
  simpa [List.getD_eq_getElem?_getD] using this

/-- A `true` result of `readConfigLine` comes from the bytes that were unread before. -/
theorem readConfigLine_true_suffix {s s2 : SdConfigFile} {rest : List Nat}
    (hfile : s.origFile = some rest) (h : readConfigLine s = .ok (true, s2)) :
    ∃ r, s2.origFile = some r ∧ r.length < rest.length ∧ r <:+ rest := by
  obtain ⟨_, _, _, _, _, _, _, _, _, _, file, r, e1, e2, e3, e4⟩ := readConfigLine_true h
  rw [hfile] at e1
  simp only [Option.some.injEq] at e1
  subst e1
  exact ⟨r, e2, e3, e4⟩

/-- No chunk of a comment line is reported, however long the line is: when `readConfigLine`
is at some chunk of such a line, with the comment seen before (`commentActive`) or about to be
seen, a `true` result comes from bytes behind the line. -/
theorem comment_chunks_skipped (n : Nat) :
    ∀ (s s2 : SdConfigFile) (tail rest : List Nat), tail.length = n →
      s.origFile = some (tail ++ rest) → LineTail tail rest →
      (s.commentActive = true ∨ Spec.isComment (Spec.removeCR tail) = true) →
      readConfigLine s = .ok (true, s2) →
      ∃ r, s2.origFile = some r ∧ r.length < rest.length ∧ r <:+ rest := by
  induction n using Nat.strong_induction_on with
  | _ n ih =>
    intro s s2 tail rest hn hfile ht hc h
    rcases tail with _ | ⟨t0, tail⟩
    · exact readConfigLine_true_suffix (by simpa using hfile) h
    · have hfile2 : s.origFile = some (t0 :: (tail ++ rest)) := by simpa using hfile
      rw [readConfigLine_cons hfile2] at h
      split at h
      · simp at h
      · rename_i s1 hs1
        obtain ⟨out, _, _, _, _, _, p6, _, _⟩ := printLineToFile_frame hs1
        obtain ⟨tail2, g1, g2, g3, g4⟩ :=
          fgets_lineTail (SDCONFIG_BUFFER_LENGTH - 1) (by decide) (t0 :: tail) rest ht
        simp only [List.cons_append] at g1 g3 g4
        have hstep : ∀ s3 : SdConfigFile, s3.origFile = some (tail2 ++ rest) →
            (tail2 = [] ∨ (s3.commentActive = true ∧ LineTail tail2 rest
                ∧ tail2.length < (t0 :: tail).length)) →
            readConfigLine s3 = .ok (true, s2) →
            ∃ r, s2.origFile = some r ∧ r.length < rest.length ∧ r <:+ rest := by
          intro s3 h3 hca h3r
          rcases hca with hnil | ⟨hca, hlt, hlen⟩
          · subst hnil
            exact readConfigLine_true_suffix (by simpa using h3) h3r
          · exact ih tail2.length (by rw [← hn]; exact hlen) s3 s2 tail2 rest rfl h3 hlt
              (Or.inl hca) h3r
        by_cases hshort : (SdFat.fgets (SDCONFIG_BUFFER_LENGTH - 1) (t0 :: (tail ++ rest))).1.length ≤ 3
        · rw [classifyChunk_eq, if_pos hshort] at h
          simp only at h
          apply hstep _ (by simp only [g1]) _ h
          rcases g4 with g4 | ⟨g5, _, _⟩
          · exact Or.inl g4
          · rw [g5] at hshort
            simp [SDCONFIG_BUFFER_LENGTH] at hshort
        · have hcond : s1.commentActive = true
              ∨ commentAt ((SdFat.fgets (SDCONFIG_BUFFER_LENGTH - 1) (t0 :: (tail ++ rest))).1 ++ 0 ::
                  List.drop ((SdFat.fgets (SDCONFIG_BUFFER_LENGTH - 1) (t0 :: (tail ++ rest))).1.length + 1)
                    s1.lineBuffer) = true := by
            rcases hc with hc | hc
            · exact Or.inl (p6.trans hc)
            · exact Or.inr (commentAt_of_start g3 hc (Nat.lt_of_not_le hshort))
          rw [classifyChunk_eq, if_neg hshort, if_pos hcond] at h
          simp only at h
          apply hstep _ (by simp only [g1]) _ h
          rcases g4 with g4 | ⟨g5, g6, g7⟩
          · exact Or.inl g4
          · refine Or.inr ⟨?_, g7, ?_⟩
            · exact overflowOf_of_no_lf (by intro h0; rw [h0] at g5; simp [SDCONFIG_BUFFER_LENGTH] at g5) g6
            · rcases Nat.lt_or_eq_of_le g2 with hlt | heq
              · exact hlt
              · exfalso
                have := fgets_length_lt (SDCONFIG_BUFFER_LENGTH - 1) (by decide) t0 (tail ++ rest)
                rw [g1] at this
                simp only [List.length_append, List.length_cons] at this heq
                omega

end SdConfigFile

/-! ## One line of a file -/

namespace SdConfigFile

open Libc

theorem removeCR_line (body : List Nat) :
    Spec.removeCR (body ++ [10]) = Spec.removeCR body ++ [10] := by
  simp [Spec.removeCR]

theorem removeCR_mem {x : Nat} {l : List Nat} (h : x ∈ Spec.removeCR l) : x ∈ l := by
  unfold Spec.removeCR at h
  exact List.mem_of_mem_filter h

theorem fitLine_body {line : List Nat} (h : FitLine line) :
    ∃ body, line = body ++ [10] ∧ 10 ∉ body ∧ 0 ∉ body
      ∧ (Spec.removeCR body).length + 1 < SDCONFIG_BUFFER_LENGTH := by
  obtain ⟨h1, h2, h3, h4⟩ := h
  have hne : line ≠ [] := by
    intro hn
    rw [hn] at h1
    simp at h1
  have hlast : line.getLast hne = 10 := by
    rw [List.getLast?_eq_getLast _ hne] at h1
    simpa using h1
  have hsplit : line = line.dropLast ++ [10] := by
    conv_lhs => rw [← List.dropLast_append_getLast hne, hlast]
  refine ⟨line.dropLast, hsplit, h2, ?_, ?_⟩
  · intro hm
    exact h3 (List.dropLast_subset _ hm)
  · rw [hsplit, removeCR_line] at h4
    simpa using h4

/-- The chunk of a line that fits: no NUL, one line feed at its end. -/
theorem fitLine_chunk {line : List Nat} (h : FitLine line) :
    ∃ cb, Spec.removeCR line = cb ++ [10] ∧ 10 ∉ cb ∧ 0 ∉ cb ∧ 13 ∉ cb
      ∧ cb.length + 1 < SDCONFIG_BUFFER_LENGTH := by
  obtain ⟨body, hl, h10, h0, hlen⟩ := fitLine_body h
  refine ⟨Spec.removeCR body, ?_, fun hm => h10 (removeCR_mem hm), fun hm => h0 (removeCR_mem hm),
    ?_, hlen⟩
  · rw [hl, removeCR_line]
  · intro hm
    unfold Spec.removeCR at hm
    simp at hm

theorem fgets_fitLine {line : List Nat} (h : FitLine line) (rest : List Nat) :
    SdFat.fgets (SDCONFIG_BUFFER_LENGTH - 1) (line ++ rest) = (Spec.removeCR line, rest) := by
  obtain ⟨body, hl, h10, h0, hlen⟩ := fitLine_body h
  subst hl
  rw [List.append_assoc, removeCR_line]
  exact fgets_line _ body rest h10 (by omega)

theorem overflowOf_chunk (cb junk : List Nat) :
    overflowOf (cb ++ [10] ++ 0 :: junk) (cb ++ [10]).length = false := by
  unfold overflowOf
  have : (cb ++ [10] ++ 0 :: junk).getD ((cb ++ [10]).length - 1) 0 = 10 := by
    have e : (cb ++ [10]).length - 1 = cb.length := by simp
    rw [e, List.append_assoc]
    exact getD_append_length _ _ _
  rw [this]
  rfl

theorem commentAt_chunk (c junk : List Nat) (hlen : 3 < c.length) :
    commentAt (c ++ 0 :: junk) = Spec.isComment c := by
  rcases c with _ | ⟨c0, _ | ⟨c1, c⟩⟩
  · simp at hlen
  · simp at hlen
  · unfold commentAt Spec.isComment
    simp

theorem view_chunk (c junk : List Nat) (h0 : 0 ∉ c) : View (c ++ 0 :: junk) 0 c junk :=
  ⟨rfl, h0⟩

theorem tokKey_of_no_eq {c : List Nat} (h : 61 ∉ c) : Spec.tokKey c = c := by
  unfold Spec.tokKey
  have h1 : c.dropWhile (· = 61) = c := by
    rcases c with _ | ⟨x, c⟩
    · rfl
    · have : x ≠ 61 := fun hx => h (by simp [hx])
      simp [List.dropWhile_cons, this]
  rw [h1, List.takeWhile_eq_self_iff]
  intro x hx
  have : x ≠ 61 := fun h61 => h (h61 ▸ hx)
  simpa using this

theorem takeWhile_eq_nil_of_no_eq {c : List Nat} (h : 61 ∉ c) : c.takeWhile (· = 61) = [] := by
  rcases c with _ | ⟨x, c⟩
  · rfl
  · have : x ≠ 61 := fun hx => h (by simp [hx])
    simp [List.takeWhile_cons, this]

theorem tokKey_length_lt {c : List Nat} (h : 61 ∈ c) : (Spec.tokKey c).length < c.length := by
  unfold Spec.tokKey
  have h1 : (c.takeWhile (· = 61)).length + (c.dropWhile (· = 61)).length = c.length := by
    rw [← List.length_append, List.takeWhile_append_dropWhile]
  have h2 : ((c.dropWhile (· = 61)).takeWhile (· ≠ 61)).length
      + ((c.dropWhile (· = 61)).dropWhile (· ≠ 61)).length = (c.dropWhile (· = 61)).length := by
    rw [← List.length_append, List.takeWhile_append_dropWhile]
  by_cases hd : (c.takeWhile (· = 61)).length = 0
  · have hnil : c.takeWhile (· = 61) = [] := List.length_eq_zero.1 hd
    have hc : c.dropWhile (· = 61) = c := by
      have := List.takeWhile_append_dropWhile (· = 61) c
      rw [hnil] at this
      simpa using this
    rw [hc] at h2 ⊢
    have : (c.dropWhile (· ≠ 61)) ≠ [] := by
      intro hn
      rw [List.dropWhile_eq_nil_iff] at hn
      have := hn 61 h
      simp at this
    have := List.length_pos.2 this
    omega
  · omega

theorem tokKey_ne_nil_of_mem {c : List Nat} {x : Nat} (hx : x ∈ c) (h61 : x ≠ 61) :
    Spec.tokKey c ≠ [] := by
  intro h
  rw [tokKey_eq_nil_iff, List.dropWhile_eq_nil_iff] at h
  have := h x hx
  simp at this
  exact h61 this

/-- One round of the loop of `readConfigLine`, for a file that is not at its end. -/
theorem readConfigLine_step {s : SdConfigFile} {file : List Nat}
    (hs : s.origFile = some file) (hne : file ≠ []) :
    readConfigLine s =
      match printLineToFile s with
      | .error f => .error f
      | .ok s1 =>
        match classifyChunk (SdFat.fgets (SDCONFIG_BUFFER_LENGTH - 1) file).1.length
            { s1 with origFile := some (SdFat.fgets (SDCONFIG_BUFFER_LENGTH - 1) file).2,
                      lineBuffer := (SdFat.fgets (SDCONFIG_BUFFER_LENGTH - 1) file).1 ++ 0 ::
                        s1.lineBuffer.drop ((SdFat.fgets (SDCONFIG_BUFFER_LENGTH - 1) file).1.length + 1) } with
        | .error f => .error f
        | .ok (some s3, _) => .ok (true, s3)
        | .ok (none, s3) => readConfigLine s3 := by
  rcases file with _ | ⟨c, cs⟩
  · exact absurd rfl hne
  · exact readConfigLine_cons hs

/-- A line that fits and holds no parameter is skipped: `readConfigLine` goes on behind it,
with the chunk waiting at the cursor to be copied. -/
theorem readConfigLine_skip {s s1 : SdConfigFile} {line rest : List Nat} (hl : FitLine line)
    (hfile : s.origFile = some (line ++ rest)) (hca : s.commentActive = false)
    (hp : printLineToFile s = .ok s1) (hnp : Spec.isParam (Spec.removeCR line) = false) :
    ∃ s3, readConfigLine s = readConfigLine s3 ∧ s3.origFile = some rest
      ∧ s3.commentActive = false ∧ s3.sd = s1.sd ∧ s3.serial = s1.serial
      ∧ s3.tempFile = s1.tempFile ∧ s3.writeAppend = s1.writeAppend
      ∧ s3.currentPos = some 0 ∧ s3.equalsSplit = false
      ∧ ∃ junk, View s3.lineBuffer 0 (Spec.removeCR line) junk := by
  obtain ⟨cb, hc, h10, h0, h13, hlen⟩ := fitLine_chunk hl
  have hne : line ++ rest ≠ [] := by
    obtain ⟨body, hb, _⟩ := fitLine_body hl
    rw [hb]
    simp
  obtain ⟨_, _, _, _, _, _, p6, _, _⟩ := printLineToFile_frame hp
  have hc0 : (0 : Nat) ∉ Spec.removeCR line := by
    rw [hc]
    simp
    exact h0
  rw [readConfigLine_step hfile hne, hp]
  simp only [fgets_fitLine hl rest]
  rw [classifyChunk_eq]
  simp only
  by_cases hshort : (Spec.removeCR line).length ≤ 3
  · rw [if_pos hshort]
    exact ⟨_, rfl, rfl, p6.trans hca, rfl, rfl, rfl, rfl, rfl, rfl, _, view_chunk _ _ hc0⟩
  · rw [if_neg hshort, commentAt_chunk _ _ (Nat.lt_of_not_le hshort)]
    have hov : overflowOf (Spec.removeCR line ++ 0 :: List.drop ((Spec.removeCR line).length + 1)
        s1.lineBuffer) (Spec.removeCR line).length = false := by
      rw [hc]
      exact overflowOf_chunk _ _
    by_cases hcm : Spec.isComment (Spec.removeCR line) = true
    · rw [if_pos (Or.inr hcm), hov]
      exact ⟨_, rfl, rfl, rfl, rfl, rfl, rfl, rfl, rfl, rfl, _, view_chunk _ _ hc0⟩
    · have hca1 : s1.commentActive = false := p6.trans hca
      rw [if_neg (by simp [hca1, hcm])]
      have h61 : 61 ∉ Spec.removeCR line := by
        intro h
        unfold Spec.isParam at hnp
        have hl3 : 3 < (Spec.removeCR line).length := Nat.lt_of_not_le hshort
        simp [hl3, hcm, h] at hnp
      have hv := view_chunk (Spec.removeCR line)
        (List.drop ((Spec.removeCR line).length + 1) s1.lineBuffer) hc0
      have e := strtokFrom_of_view hv
      have hk := tokKey_of_no_eq h61
      have hd1 : (Spec.removeCR line).dropWhile (· = 61) ≠ [] := by
        intro hn
        rw [← tokKey_eq_nil_iff, hk] at hn
        rw [hn] at hshort
        simp at hshort
      have hd2 : ((Spec.removeCR line).dropWhile (· = 61)).dropWhile (· ≠ 61) = [] := by
        rw [List.dropWhile_eq_nil_iff]
        intro x hx
        have : x ∈ Spec.removeCR line := List.dropWhile_subset _ hx
        have : x ≠ 61 := fun h => h61 (h ▸ this)
        simpa using this
      rw [if_neg hd1, if_pos hd2, takeWhile_eq_nil_of_no_eq h61] at e
      simp only [List.length_nil, Nat.add_zero, Nat.zero_add] at e
      simp only [e, hov]
      rw [if_pos ⟨hv.strlen_eq, trivial⟩]
      exact ⟨_, rfl, rfl, hca1, rfl, rfl, rfl, rfl, rfl, rfl, _, hv⟩

/-- A line that fits and holds a parameter is reported: `readConfigLine` returns `true` with
the cursor at the first token of the line. -/
theorem readConfigLine_param {s s1 : SdConfigFile} {line rest : List Nat} (hl : FitLine line)
    (hfile : s.origFile = some (line ++ rest)) (hca : s.commentActive = false)
    (hp : printLineToFile s = .ok s1) (hpar : Spec.isParam (Spec.removeCR line) = true) :
    ∃ s3 a q, readConfigLine s = .ok (true, s3)
      ∧ Entry s3 a (Spec.tokKey (Spec.removeCR line)) q (Spec.tokRest (Spec.removeCR line))
      ∧ s3.equalsSplit = true ∧ s3.origFile = some rest
      ∧ s3.commentActive = false ∧ s3.sd = s1.sd ∧ s3.serial = s1.serial
      ∧ s3.tempFile = s1.tempFile ∧ s3.writeAppend = s1.writeAppend := by
  obtain ⟨cb, hc, h10, h0, h13, hlen⟩ := fitLine_chunk hl
  have hne : line ++ rest ≠ [] := by
    obtain ⟨body, hb, _⟩ := fitLine_body hl
    rw [hb]
    simp
  obtain ⟨_, _, _, _, _, _, p6, _, _⟩ := printLineToFile_frame hp
  have hca1 : s1.commentActive = false := p6.trans hca
  have hc0 : (0 : Nat) ∉ Spec.removeCR line := by
    rw [hc]
    simp
    exact h0
  unfold Spec.isParam at hpar
  simp only [Bool.and_eq_true, decide_eq_true_eq, Bool.not_eq_true'] at hpar
  obtain ⟨⟨hl3, hcm⟩, h61⟩ := hpar
  have h61' : (61 : Nat) ∈ Spec.removeCR line := by simpa using h61
  rw [readConfigLine_step hfile hne, hp]
  simp only [fgets_fitLine hl rest]
  rw [classifyChunk_eq]
  simp only
  rw [if_neg (by omega), commentAt_chunk _ _ hl3, if_neg (by simp [hca1, hcm])]
  have hv := view_chunk (Spec.removeCR line)
    (List.drop ((Spec.removeCR line).length + 1) s1.lineBuffer) hc0
  have hk : Spec.tokKey (Spec.removeCR line) ≠ [] :=
    tokKey_ne_nil_of_mem (x := 10) (by rw [hc]; simp) (by decide)
  obtain ⟨buf2, q, post, junk2, e, v1, v2, hle, _⟩ := strtokFrom_views hv hk
  simp only [e]
  have hlt := tokKey_length_lt h61'
  rw [if_neg (by rw [v1.strlen_eq]; intro hcon; omega)]
  exact ⟨_, _, q, rfl, ⟨rfl, rfl, ⟨post, v1⟩, ⟨junk2, v2⟩, hle⟩, rfl, rfl, hca1, rfl, rfl, rfl, rfl⟩

end SdConfigFile

/-! ## Reading a whole file -/

namespace SdConfigFile

open Libc

theorem printLineToFile_closed {s : SdConfigFile} (h : s.tempFile = none) :
    printLineToFile s = .ok s := by
  unfold printLineToFile
  rw [h]
  simp

theorem readLoop_congr {U : Type} (cb : SdConfigFile → U → Except Fault (SdConfigFile × U))
    (n : Nat) {s s3 : SdConfigFile} (u : U) (h : readConfigLine s = readConfigLine s3)
    (h1 : s.origFile.isSome = true) (h3 : s3.origFile.isSome = true) :
    readLoop cb (n + 1) s u = readLoop cb (n + 1) s3 u := by
  unfold readLoop
  rw [h1, h3, h]
  simp only [if_true]

theorem params_cons_false {l : List Nat} (ls : List (List Nat))
    (h : Spec.isParam (Spec.removeCR l) = false) : Spec.params (l :: ls) = Spec.params ls := by
  unfold Spec.params
  simp [List.filter_cons, h]

theorem params_cons_true {l : List Nat} (ls : List (List Nat))
    (h : Spec.isParam (Spec.removeCR l) = true) :
    Spec.params (l :: ls) = Spec.removeCR l :: Spec.params ls := by
  unfold Spec.params
  simp [List.filter_cons, h]

/-- The loop of `read(fileName, callbackFunction)` over a file of lines that fit: the callback
is run once for each line that holds a parameter, in file order, and for no other line. -/
theorem readLoop_fold {U : Type} (cb : SdConfigFile → U → Except Fault (SdConfigFile × U))
    (f : List Nat → List Nat → U → U) (hcb : ActsLike cb f) (ls : List (List Nat)) :
    (∀ l ∈ ls, FitLine l) → ∀ (s : SdConfigFile) (u : U) (fuel : Nat),
      s.origFile = some ls.flatten → s.tempFile = none → s.commentActive = false →
      (Spec.params ls).length + 2 ≤ fuel →
      ∃ s2, readLoop cb fuel s u
          = .ok (s2, (Spec.params ls).foldl (fun u c => f (Spec.tokKey c) (Spec.tokRest c) u) u)
        ∧ s2.origFile = none ∧ s2.tempFile = none ∧ s2.sd = s.sd ∧ s2.serial = s.serial := by
  induction ls with
  | nil =>
    intro _ s u fuel hfile htemp _ hfuel
    obtain ⟨k, hk⟩ : ∃ k, fuel = k + 2 := ⟨fuel - 2, by omega⟩
    subst hk
    have hfile' : s.origFile = some [] := by simpa using hfile
    refine ⟨{ s with origFile := none }, ?_, rfl, htemp, rfl, rfl⟩
    unfold readLoop
    rw [hfile', readConfigLine_nil hfile', printLineToFile_closed htemp]
    simp only [Option.isSome_some, if_true]
    unfold readLoop
    simp [Spec.params]
  | cons l ls ih =>
    intro hfit s u fuel hfile htemp hca hfuel
    have hl : FitLine l := hfit l (by simp)
    have hfit' : ∀ l' ∈ ls, FitLine l' := fun l' h' => hfit l' (by simp [h'])
    have hfile' : s.origFile = some (l ++ ls.flatten) := by simpa using hfile
    have hp := printLineToFile_closed htemp
    obtain ⟨k, hk⟩ : ∃ k, fuel = k + 1 := ⟨fuel - 1, by omega⟩
    subst hk
    by_cases hpar : Spec.isParam (Spec.removeCR l) = true
    · obtain ⟨s3, a, q, hr, he, _, e1, e2, e3, e4, e5, _⟩ :=
        readConfigLine_param hl hfile' hca hp hpar
      obtain ⟨s4, hc, g1, g2, g3, g4, _, g6, _, _⟩ := hcb s3 u a _ q _ he
      rw [params_cons_true ls hpar] at hfuel ⊢
      simp only [List.length_cons] at hfuel
      obtain ⟨s5, h5, k1, k2, k3, k4⟩ := ih hfit' s4 (f (Spec.tokKey (Spec.removeCR l))
        (Spec.tokRest (Spec.removeCR l)) u) k (by rw [g3]; exact e1) (by rw [g4, e5]; exact htemp)
        (by rw [g6]; exact e2) (by omega)
      refine ⟨s5, ?_, k1, k2, by rw [k3, g1, e3], by rw [k4, g2, e4]⟩
      unfold readLoop
      rw [hfile', hr]
      simp only [Option.isSome_some, if_true, he.cur, hc]
      exact h5
    · have hpar' : Spec.isParam (Spec.removeCR l) = false := by simpa using hpar
      obtain ⟨s3, hr, e1, e2, e3, e4, e5, _, _, _, _⟩ := readConfigLine_skip hl hfile' hca hp hpar'
      rw [params_cons_false ls hpar'] at hfuel ⊢
      obtain ⟨s5, h5, k1, k2, k3, k4⟩ := ih hfit' s3 u (k + 1) e1 (by rw [e5]; exact htemp) e2 hfuel
      refine ⟨s5, ?_, k1, k2, by rw [k3, e3], by rw [k4, e4]⟩
      rw [readLoop_congr cb k u hr (by rw [hfile']; rfl) (by rw [e1]; rfl)]
      exact h5

theorem fitLine_ne_nil {l : List Nat} (h : FitLine l) : l ≠ [] := by
  obtain ⟨body, hb, _⟩ := fitLine_body h
  rw [hb]
  simp

theorem length_le_flatten (ls : List (List Nat)) (h : ∀ l ∈ ls, FitLine l) :
    ls.length ≤ ls.flatten.length := by
  induction ls with
  | nil => simp
  | cons l ls ih =>
    have h1 := List.length_pos.2 (fitLine_ne_nil (h l (by simp)))
    have h2 := ih (fun l' h' => h l' (by simp [h']))
    simp only [List.length_cons, List.flatten_cons, List.length_append]
    omega

theorem params_length_le (ls : List (List Nat)) : (Spec.params ls).length ≤ ls.length := by
  unfold Spec.params
  exact (List.length_filter_le _ _).trans (by simp)

theorem openConfigFile_ok {s : SdConfigFile} {fileName content : List Nat}
    (hb : s.sd.beginOk = true) (ho : s.sd.openReadOk = true)
    (hf : SdFat.lookup s.sd.files (cstrOf fileName) = some content) :
    openConfigFile fileName s
      = .ok (true, { s with origFile := some content, commentActive := false,
                            lineOverflow := false }) := by
  unfold openConfigFile
  simp [hb, ho, hf]

/-- The method `read(fileName, callbackFunction)` on a file of lines that fit. -/
theorem readWith_fold {U : Type} (cb : SdConfigFile → U → Except Fault (SdConfigFile × U))
    (f : List Nat → List Nat → U → U) (hcb : ActsLike cb f) (ls : List (List Nat))
    (hfit : ∀ l ∈ ls, FitLine l) (fileName : List Nat) (s : SdConfigFile) (u : U)
    (hb : s.sd.beginOk = true) (ho : s.sd.openReadOk = true)
    (hf : SdFat.lookup s.sd.files (cstrOf fileName) = some ls.flatten)
    (htemp : s.tempFile = none) :
    ∃ s2, readWith fileName cb s u
        = .ok (true, s2, (Spec.params ls).foldl (fun u c => f (Spec.tokKey c) (Spec.tokRest c) u) u)
      ∧ s2.origFile = none ∧ s2.tempFile = none ∧ s2.sd = s.sd ∧ s2.serial = s.serial := by
  have hlen : (Spec.params ls).length + 2 ≤ ls.flatten.length + 2 := by
    have := params_length_le ls
    have := length_le_flatten ls hfit
    omega
  obtain ⟨s2, h2, k1, k2, k3, k4⟩ := readLoop_fold cb f hcb ls hfit
    { s with origFile := some ls.flatten, commentActive := false, lineOverflow := false } u
    (ls.flatten.length + 2) rfl htemp rfl hlen
  refine ⟨s2, ?_, k1, k2, k3, k4⟩
  unfold readWith
  rw [openConfigFile_ok hb ho hf]
  simp only [fuelOf]
  rw [h2]

theorem actsLike_noteEntry : ActsLike noteEntry (fun K R log => log ++ [(K, R)]) := by
  intro s u a K q R he
  obtain ⟨post, hK⟩ := he.keyView
  obtain ⟨junk, hR⟩ := he.restView
  refine ⟨s, ?_, SameFrame.refl s⟩
  unfold noteEntry textAt
  rw [he.cur, he.save]
  simp only [hK.cstr_eq, hR.cstr_eq]

theorem foldl_note (l : List (List Nat)) (acc : List (List Nat × List Nat)) :
    l.foldl (fun u c => u ++ [(Spec.tokKey c, Spec.tokRest c)]) acc
      = acc ++ l.map (fun c => (Spec.tokKey c, Spec.tokRest c)) := by
  induction l generalizing acc with
  | nil => simp
  | cons c l ih => simp [ih]

/-- With enough fuel the loop of `read(fileName)` is one call of `readConfigLine`. -/
theorem readStepLoop_eq (fuel : Nat) (s : SdConfigFile) (hfuel : 2 ≤ fuel)
    (hs : s.origFile.isSome = true) : readStepLoop fuel s = readConfigLine s := by
  obtain ⟨k, hk⟩ : ∃ k, fuel = k + 2 := ⟨fuel - 2, by omega⟩
  subst hk
  unfold readStepLoop
  rw [hs]
  simp only [if_true]
  rcases hr : readConfigLine s with f | ⟨b, s1⟩
  · rfl
  · rcases b with _ | _
    · have hclosed := readConfigLine_false hr
      simp only
      unfold readStepLoop
      rw [hclosed]
      simp
    · obtain ⟨a, K, q, R, he, _⟩ := readConfigLine_true hr
      simp only [he.cur, Option.isSome_some, if_true]

theorem read_open {s : SdConfigFile} {fileName : List Nat} (hs : s.origFile.isSome = true) :
    read fileName s = readConfigLine s := by
  obtain ⟨file, hfile⟩ := Option.isSome_iff_exists.1 hs
  unfold read
  rw [hfile]
  simp only [Option.isNone_some, Bool.false_eq_true, if_false]
  apply readStepLoop_eq
  · unfold fuelOf
    rw [hfile]
    simp only
    omega
  · exact hs

theorem readCountLoop_congr (fileName : List Nat) (n : Nat) {s s3 : SdConfigFile}
    (h : read fileName s = read fileName s3) :
    readCountLoop fileName (n + 1) s = readCountLoop fileName (n + 1) s3 := by
  unfold readCountLoop
  rw [h]

/-- The caller loop `while (read(fileName)) {}` over the unread lines of an open file: `read`
returns `true` once for each line that holds a parameter, then `false`. -/
theorem readCountLoop_lines (fileName : List Nat) (ls : List (List Nat)) :
    (∀ l ∈ ls, FitLine l) → ∀ (s : SdConfigFile) (fuel : Nat),
      s.origFile = some ls.flatten → s.tempFile = none → s.commentActive = false →
      (Spec.params ls).length < fuel →
      ∃ s2, readCountLoop fileName fuel s = .ok ((Spec.params ls).length, s2)
        ∧ s2.origFile = none := by
  induction ls with
  | nil =>
    intro _ s fuel hfile htemp _ hfuel
    obtain ⟨k, hk⟩ : ∃ k, fuel = k + 1 := ⟨fuel - 1, by omega⟩
    subst hk
    have hfile' : s.origFile = some [] := by simpa using hfile
    refine ⟨{ s with origFile := none }, ?_, rfl⟩
    unfold readCountLoop
    rw [read_open (by rw [hfile']; rfl), readConfigLine_nil hfile', printLineToFile_closed htemp]
    simp [Spec.params]
  | cons l ls ih =>
    intro hfit s fuel hfile htemp hca hfuel
    have hl : FitLine l := hfit l (by simp)
    have hfit' : ∀ l' ∈ ls, FitLine l' := fun l' h' => hfit l' (by simp [h'])
    have hfile' : s.origFile = some (l ++ ls.flatten) := by simpa using hfile
    have hp := printLineToFile_closed htemp
    obtain ⟨k, hk⟩ : ∃ k, fuel = k + 1 := ⟨fuel - 1, by omega⟩
    subst hk
    by_cases hpar : Spec.isParam (Spec.removeCR l) = true
    · obtain ⟨s3, a, q, hr, he, _, e1, e2, e3, e4, e5, _⟩ :=
        readConfigLine_param hl hfile' hca hp hpar
      rw [params_cons_true ls hpar] at hfuel ⊢
      simp only [List.length_cons] at hfuel ⊢
      obtain ⟨s5, h5, k1⟩ := ih hfit' s3 k e1 (by rw [e5]; exact htemp) e2 (by omega)
      refine ⟨s5, ?_, k1⟩
      unfold readCountLoop
      rw [read_open (by rw [hfile']; rfl), hr]
      simp only [h5]
    · have hpar' : Spec.isParam (Spec.removeCR l) = false := by simpa using hpar
      obtain ⟨s3, hr, e1, e2, e3, e4, e5, _, _, _, _⟩ := readConfigLine_skip hl hfile' hca hp hpar'
      rw [params_cons_false ls hpar'] at hfuel ⊢
      obtain ⟨s5, h5, k1⟩ := ih hfit' s3 (k + 1) e1 (by rw [e5]; exact htemp) e2 hfuel
      refine ⟨s5, ?_, k1⟩
      rw [@readCountLoop_congr fileName k s s3
        (by rw [read_open (by rw [hfile']; rfl), read_open (by rw [e1]; rfl), hr])]
      exact h5

end SdConfigFile

/-! ## A write session -/

namespace SdConfigFile

open Libc

theorem lookup_filter (files : List (List Nat × List Nat)) (n m : List Nat) :
    SdFat.lookup (files.filter (fun e => e.1 ≠ n)) m
      = if m = n then none else SdFat.lookup files m := by
  induction files with
  | nil => simp [SdFat.lookup]
  | cons e files ih =>
    obtain ⟨en, ec⟩ := e
    by_cases h1 : en = n
    · subst h1
      simp only [List.filter_cons, ne_eq, not_true_eq_false, decide_False, Bool.false_eq_true,
        if_false, ih, SdFat.lookup]
      by_cases h2 : m = en
      · simp [h2]
      · have : ¬ en = m := fun h => h2 h.symm
        simp [h2, this]
    · simp only [List.filter_cons, ne_eq, h1, not_false_eq_true, decide_True, if_true,
        SdFat.lookup, ih]
      by_cases h2 : en = m
      · have : ¬ m = n := fun h => h1 (h2.trans h)
        simp [h2, this]
      · simp [h2]

theorem lookup_append_new (files : List (List Nat × List Nat)) (n c m : List Nat) :
    SdFat.lookup (files ++ [(n, c)]) m
      = match SdFat.lookup files m with
        | some x => some x
        | none => if n = m then some c else none := by
  induction files with
  | nil => simp [SdFat.lookup]
  | cons e files ih =>
    obtain ⟨en, ec⟩ := e
    simp only [List.cons_append, SdFat.lookup]
    by_cases h : en = m
    · simp [h]
    · simp [h, ih]

theorem lookup_map_append (files : List (List Nat × List Nat)) (n b m : List Nat) :
    SdFat.lookup (files.map (fun e => if e.1 = n then (e.1, e.2 ++ b) else e)) m
      = if m = n then (SdFat.lookup files n).map (· ++ b) else SdFat.lookup files m := by
  induction files with
  | nil => simp [SdFat.lookup]
  | cons e files ih =>
    obtain ⟨en, ec⟩ := e
    rw [List.map_cons]
    show SdFat.lookup ((if en = n then (en, ec ++ b) else (en, ec)) :: _) m = _
    by_cases h1 : en = n
    · rw [if_pos h1]
      simp only [SdFat.lookup, ih]
      subst h1
      by_cases h2 : en = m
      · simp [h2]
      · have : ¬ m = en := fun h => h2 h.symm
        simp [h2, this]
    · rw [if_neg h1]
      simp only [SdFat.lookup, ih]
      by_cases h2 : en = m
      · have : ¬ m = n := fun h => h1 (h2.trans h)
        simp [h2, this, h1]
      · simp [h2, h1]

theorem lookup_map_rename (files : List (List Nat × List Nat)) (old new : List Nat)
    (hnew : SdFat.lookup files new = none) :
    SdFat.lookup (files.map (fun e => if e.1 = old then (new, e.2) else e)) new
      = SdFat.lookup files old := by
  induction files with
  | nil => simp [SdFat.lookup]
  | cons e files ih =>
    obtain ⟨en, ec⟩ := e
    simp only [SdFat.lookup] at hnew
    by_cases h0 : en = new
    · simp [h0] at hnew
    · rw [if_neg h0] at hnew
      rw [List.map_cons]
      show SdFat.lookup ((if en = old then (new, ec) else (en, ec)) :: _) new = _
      by_cases h1 : en = old
      · rw [if_pos h1]
        simp [h1, SdFat.lookup]
      · rw [if_neg h1]
        simp [h1, h0, SdFat.lookup, ih hnew]

theorem cardInv_append {sd : SdFat} {path temp written : List Nat}
    (h : CardInv sd path temp written) (b : List Nat) :
    CardInv (sd.append temp b) path temp (written ++ b) := by
  obtain ⟨h1, h2, h3, h4, h5, h6, h7⟩ := h
  refine ⟨h1, h2, h3, h4, ?_, ?_, h7⟩
  · show SdFat.lookup (sd.files.map _) temp = _
    rw [lookup_map_append, if_pos rfl, h5]
    rfl
  · show (SdFat.lookup (sd.files.map _) path).isSome = true
    rw [lookup_map_append, if_neg (fun h => h7 h.symm)]
    exact h6

theorem tempOut_open {s : SdConfigFile} {t : List Nat} (h : s.tempFile = some t) (b : List Nat) :
    s.tempOut b = s.sd.append t b := by
  unfold tempOut
  rw [h]

theorem printLineToFile_null {s : SdConfigFile} (h : s.currentPos = none) :
    printLineToFile s = .ok s := by
  unfold printLineToFile
  rw [h]
  simp

/-- A chunk that was skipped is copied as it stands. -/
theorem printLineToFile_verbatim {s : SdConfigFile} {t c junk : List Nat}
    (ht : s.tempFile = some t) (hc : s.currentPos = some 0) (he : s.equalsSplit = false)
    (hv : View s.lineBuffer 0 c junk) :
    printLineToFile s = .ok (s.tempPrint c) := by
  unfold printLineToFile
  rw [ht, hc]
  simp only [Option.isSome_some, and_self, if_true, tempPrint_equalsSplit, he,
    Bool.false_eq_true, if_false]
  unfold textAt
  simp only [hv.cstr_eq]

/-- A parameter whose key did not match is written again: the key as it stands at the cursor,
`=`, the trimmed value token, CR LF. -/
theorem printLineToFile_entry {s : SdConfigFile} {t : List Nat} {a q : Nat} {K R : List Nat}
    (ht : s.tempFile = some t) (he : Entry s a K q R) (hs : s.equalsSplit = true)
    (hval : Spec.tokKey R ≠ []) :
    ∃ s2, printLineToFile s = .ok s2
      ∧ s2.sd = s.sd.append t (K ++ [61] ++ Spec.trim (Spec.tokKey R) ++ Print.newline)
      ∧ s2.tempFile = s.tempFile ∧ s2.origFile = s.origFile
      ∧ s2.commentActive = s.commentActive ∧ s2.writeAppend = s.writeAppend := by
  obtain ⟨post, hK⟩ := he.keyView
  obtain ⟨junk, hR⟩ := he.restView
  obtain ⟨buf2, q2, post2, junk2, e, v1, v2, hle, _⟩ := strtokFrom_views hR hval
  have hck := @checkItemName_of_view
    { s.tempPrint (s.textAt (some a)) with
      currentPos := some (q + (R.takeWhile (· = 61)).length), lineBuffer := buf2,
      strtokSave := some q2 } _ _ _ rfl v1 []
  have hnil : ¬ (cstrOf [] = Spec.trim (Spec.tokKey R) ∧ Spec.trim (Spec.tokKey R) ≠ []) := by
    intro h
    exact h.2 (by rw [← h.1]; rfl)
  rw [if_neg hnil] at hck
  obtain ⟨post3, v3⟩ := view_after_trim v1
  unfold printLineToFile
  rw [ht, he.cur]
  simp only [Option.isSome_some, and_self, if_true, tempPrint_equalsSplit, hs]
  unfold strtokNull
  simp only [tempPrint_strtokSave, he.save, tempPrint_lineBuffer, e, hck]
  refine ⟨_, rfl, ?_, ?_, rfl, rfl, rfl⟩
  · simp only [tempPrint_sd, tempOut_tempPrint]
    unfold textAt
    simp only [trimmed, tempPrint_lineBuffer, v3.cstr_eq, hK.cstr_eq]
    unfold tempOut
    simp only [tempPrint_tempFile, ht, tempPrint_sd]
    simp only [tempPrint_currentPos, v3.cstr_eq, append_append, List.append_assoc]
  · simp only [tempPrint_tempFile, trimmed]
    exact ht

/-- With enough fuel the merge loop of `write` is one call of `readConfigLine`. -/
theorem write_merge_eq {s : SdConfigFile} (fileName : List Nat) (ht : s.tempFile.isSome = true)
    (ha : s.writeAppend = false) (ho : s.origFile.isSome = true) :
    write fileName s =
      match readConfigLine s with
      | .error f => .error f
      | .ok (true, s1) => .ok (true, s1)
      | .ok (false, s1) => .ok (true, { s1 with writeAppend := true }) := by
  obtain ⟨file, hfile⟩ := Option.isSome_iff_exists.1 ho
  obtain ⟨t, htemp⟩ := Option.isSome_iff_exists.1 ht
  unfold write
  rw [htemp]
  simp only [Option.isNone_some, Bool.false_eq_true, if_false]
  unfold writeStep
  rw [ha, hfile]
  simp only [Bool.false_eq_true, not_false_eq_true, if_true, Option.isNone_some, if_false]
  unfold fuelOf
  rw [hfile]
  simp only
  unfold writeMergeLoop
  rw [hfile, htemp]
  simp only [Option.isSome_some, and_self, if_true]
  rcases hr : readConfigLine s with f | ⟨b, s1⟩
  · rfl
  · rcases b with _ | _
    · have hclosed := readConfigLine_false hr
      simp only
      unfold writeMergeLoop
      rw [hclosed]
      simp only [Option.isSome_none, Bool.false_eq_true, false_and, if_false]
      rw [hclosed]
    · obtain ⟨a, K, q, R, he, _⟩ := readConfigLine_true hr
      simp only [he.cur, Option.isSome_some, if_true]

theorem writeSessionLoop_congr (fileName : List Nat)
    (body : SdConfigFile → Except Fault SdConfigFile) (n : Nat) {s s3 : SdConfigFile}
    (h : write fileName s = write fileName s3) :
    writeSessionLoop fileName body (n + 1) s = writeSessionLoop fileName body (n + 1) s3 := by
  unfold writeSessionLoop
  rw [h]

/-- The method `set` in the merge phase: a match drops the pending line by clearing the
cursor. -/
theorem setText_merge {s : SdConfigFile} (itemName valueText : List Nat)
    (ha : s.writeAppend = false) :
    setText itemName valueText s =
      match checkItemName itemName s with
      | .error f => .error f
      | .ok (true, s1) => .ok (true, { s1 with currentPos := none })
      | .ok (false, s1) => .ok (false, s1) := by
  unfold setText
  rw [ha]
  simp only [Bool.false_eq_true, false_and, if_false] <;> rfl

/-- The method `set` in the append phase: the line `name=value` is written. -/
theorem setText_append {s : SdConfigFile} {t : List Nat} (itemName valueText : List Nat)
    (ha : s.writeAppend = true) (ht : s.tempFile = some t) :
    setText itemName valueText s =
      .ok (false,
        { s with sd := s.sd.append t (cstrOf itemName ++ [61] ++ (valueText ++ Print.newline)) }) := by
  unfold setText
  rw [ha, ht]
  simp only [Option.isSome_some, and_self, if_true]
  congr 2
  unfold tempPrint
  simp only
  unfold tempOut
  simp only [ht, ha, append_append, List.append_assoc]

/-- The commit of a write session on a card that works: the temporary file becomes the
configuration file. -/
theorem writeCommit_ok {s : SdConfigFile} {fileName t written : List Nat}
    (hc : CardInv s.sd (cstrOf fileName) t written) (ht : s.tempFile = some t) :
    ∃ fin, writeCommit fileName s = (false, fin)
      ∧ SdFat.lookup fin.sd.files (cstrOf fileName) = some written
      ∧ fin.tempFile = none ∧ fin.origFile = s.origFile
      ∧ fin.sd.beginOk = true ∧ fin.sd.openReadOk = true := by
  obtain ⟨h1, h2, h3, h4, h5, h6, h7⟩ := hc
  have hrem : s.sd.remove (cstrOf fileName)
      = (true, { s.sd with files := s.sd.files.filter (fun e => e.1 ≠ cstrOf fileName) }) := by
    unfold SdFat.remove SdFat.exists
    rw [if_pos ⟨h3, h6⟩]
  have hl1 : SdFat.lookup (s.sd.files.filter (fun e => e.1 ≠ cstrOf fileName)) t = some written := by
    rw [lookup_filter, if_neg h7, h5]
  have hl2 : SdFat.lookup (s.sd.files.filter (fun e => e.1 ≠ cstrOf fileName)) (cstrOf fileName)
      = none := by
    rw [lookup_filter, if_pos rfl]
  have hren : ({ s.sd with files := s.sd.files.filter (fun e => e.1 ≠ cstrOf fileName) } : SdFat).rename
        t (cstrOf fileName)
      = (true, { s.sd with
          files := (s.sd.files.filter (fun e => e.1 ≠ cstrOf fileName)).map (fun e =>
            if e.1 = t then (cstrOf fileName, e.2) else e) }) := by
    unfold SdFat.rename SdFat.exists
    simp only [hl1, hl2, h4]
    simp
  unfold writeCommit
  simp only [hrem, ht, hren]
  refine ⟨_, rfl, ?_, rfl, rfl, h1, h2⟩
  simp only [not_true_eq_false, if_false, if_true]
  rw [lookup_map_rename _ _ _ hl2, hl1]

theorem keyed_value_present {l : List Nat} (hk : KeyedLine l)
    (hpar : Spec.isParam (Spec.removeCR l) = true) :
    Spec.tokKey (Spec.tokRest (Spec.removeCR l)) ≠ [] := by
  obtain ⟨cb, hc, h10, h0, h13, hlen⟩ := fitLine_chunk hk.1
  have hhead := hk.2 hpar
  unfold Spec.isParam at hpar
  simp only [Bool.and_eq_true, decide_eq_true_eq, Bool.not_eq_true'] at hpar
  have h61 : (61 : Nat) ∈ Spec.removeCR l := by simpa using hpar.2
  have hd : (Spec.removeCR l).dropWhile (· = 61) = Spec.removeCR l := by
    rcases hcl : Spec.removeCR l with _ | ⟨x, c⟩
    · rfl
    · rw [hcl] at hhead
      have : x ≠ 61 := by simpa using hhead
      simp [List.dropWhile_cons, this]
  have h61cb : (61 : Nat) ∈ cb := by
    rw [hc] at h61
    simpa using h61
  have hmem : (10 : Nat) ∈ Spec.tokRest (Spec.removeCR l) := by
    unfold Spec.tokRest
    rw [hd, hc]
    have hsplit : cb.takeWhile (· ≠ 61) ++ cb.dropWhile (· ≠ 61) = cb :=
      List.takeWhile_append_dropWhile _ _
    have hne : cb.dropWhile (· ≠ 61) ≠ [] := by
      intro hn
      rw [List.dropWhile_eq_nil_iff] at hn
      have := hn 61 h61cb
      simp at this
    rw [List.dropWhile_append, if_neg (by simpa using hne)]
    rcases hdc : cb.dropWhile (· ≠ 61) with _ | ⟨y, ys⟩
    · exact absurd hdc hne
    · simp only [ne_eq, decide_not] at hdc
      simp [hdc]
  exact tokKey_ne_nil_of_mem hmem (by decide)

end SdConfigFile

/-! ## The merge of a write session -/

namespace SdConfigFile
open Libc

/-- In the append phase `write` is the commit. -/
theorem write_append_eq {s : SdConfigFile} (fileName : List Nat)
    (ht : s.tempFile.isSome = true) (ha : s.writeAppend = true) :
    write fileName s = .ok (writeCommit fileName s) := by
  obtain ⟨t, htemp⟩ := Option.isSome_iff_exists.1 ht
  unfold write
  rw [htemp]
  simp only [Option.isNone_some, Bool.false_eq_true, if_false]
  unfold writeStep
  rw [ha]
  simp

theorem committed_nil (name text : List Nat) :
    Spec.committed name text [] = cstrOf name ++ [61] ++ text ++ Print.newline := by
  simp [Spec.committed, Spec.newLines]

theorem committed_cons (name text l : List Nat) (ls : List (List Nat)) :
    Spec.committed name text (l :: ls)
      = Spec.mergeLine name (Spec.removeCR l) ++ Spec.committed name text ls := by
  simp [Spec.committed, Spec.newLines]

/-- The end of a write session: the last pending line is written, `set` appends its line, and
the commit puts the temporary file in the place of the original. -/
theorem session_end (fileName name text t : List Nat) {fuel : Nat} {σ σ1 : SdConfigFile}
    {pend T : List Nat}
    (ht : σ.tempFile = some t) (ho : σ.origFile = some []) (hwa : σ.writeAppend = false)
    (hp : printLineToFile σ = .ok σ1) (hsd : σ1.sd = σ.sd.append t pend)
    (hcard : CardInv σ.sd (cstrOf fileName) t T) (hfuel : 2 ≤ fuel) :
    ∃ fin, writeSessionLoop fileName (setCallback name text) fuel σ = .ok fin
      ∧ SdFat.lookup fin.sd.files (cstrOf fileName)
          = some (T ++ pend ++ Spec.committed name text [])
      ∧ fin.tempFile = none ∧ fin.origFile = none
      ∧ fin.sd.beginOk = true ∧ fin.sd.openReadOk = true := by
  obtain ⟨k, rfl⟩ : ∃ k, fuel = k + 2 := ⟨fuel - 2, by omega⟩
  obtain ⟨out, -, -, f3, f4, -, f6, f7, -⟩ := printLineToFile_frame hp
  obtain ⟨σ2, hσ2⟩ : ∃ σ2 : SdConfigFile, σ2 = { σ1 with origFile := none, writeAppend := true } :=
    ⟨_, rfl⟩
  have hw : write fileName σ = .ok (true, σ2) := by
    rw [write_merge_eq fileName (by rw [ht]; rfl) hwa (by rw [ho]; rfl), readConfigLine_nil ho, hp,
      hσ2]
  have ht2 : σ2.tempFile = some t := by rw [hσ2]; show σ1.tempFile = some t; rw [f4, ht]
  have hwa2 : σ2.writeAppend = true := by rw [hσ2]
  have hsd2 : σ2.sd = σ1.sd := by rw [hσ2]
  have ho2 : σ2.origFile = none := by rw [hσ2]
  obtain ⟨σ3, hσ3⟩ : ∃ σ3 : SdConfigFile, σ3 =
      { σ2 with sd := σ2.sd.append t (cstrOf name ++ [61] ++ (text ++ Print.newline)) } := ⟨_, rfl⟩
  have hb : setCallback name text σ2 = .ok σ3 := by
    unfold setCallback
    rw [setText_append name text hwa2 ht2, hσ3]
  have ht3 : σ3.tempFile = some t := by rw [hσ3]; exact ht2
  have hwa3 : σ3.writeAppend = true := by rw [hσ3]; exact hwa2
  have ho3 : σ3.origFile = none := by rw [hσ3]; exact ho2
  have hcard3 : CardInv σ3.sd (cstrOf fileName) t
      (T ++ pend ++ (cstrOf name ++ [61] ++ (text ++ Print.newline))) := by
    rw [hσ3]
    show CardInv (σ2.sd.append t _) _ _ _
    rw [hsd2, hsd]
    exact cardInv_append (cardInv_append hcard pend) _
  obtain ⟨fin, hfin, hl, h1, h2, h3, h4⟩ := writeCommit_ok hcard3 ht3
  have hw2 : write fileName σ3 = .ok (false, fin) := by
    rw [write_append_eq fileName (by rw [ht3]; rfl) hwa3, hfin]
  refine ⟨fin, ?_, ?_, h1, h2.trans ho3, h3, h4⟩
  · unfold writeSessionLoop
    rw [hw]
    simp only
    rw [hb]
    simp only
    unfold writeSessionLoop
    rw [hw2]
  · rw [hl, committed_nil]
    simp only [List.append_assoc]

/-- The merge of a write session whose body sets only the key `name`: from a state between two
lines of the original file, with `T` already in the temporary file and `pend` the line that the
next call of `write` will add, the session ends with the commit of the new file. -/
theorem session_merge (fileName name text t : List Nat) :
    ∀ (ls : List (List Nat)), (∀ l ∈ ls, KeyedLine l) →
    ∀ (fuel : Nat) (σ σ1 : SdConfigFile) (pend T : List Nat),
      σ.tempFile = some t → σ.origFile = some ls.flatten → σ.commentActive = false →
      σ.writeAppend = false → printLineToFile σ = .ok σ1 → σ1.sd = σ.sd.append t pend →
      CardInv σ.sd (cstrOf fileName) t T → ls.length + 2 ≤ fuel →
      ∃ fin, writeSessionLoop fileName (setCallback name text) fuel σ = .ok fin
        ∧ SdFat.lookup fin.sd.files (cstrOf fileName)
            = some (T ++ pend ++ Spec.committed name text ls)
        ∧ fin.tempFile = none ∧ fin.origFile = none
        ∧ fin.sd.beginOk = true ∧ fin.sd.openReadOk = true := by
  intro ls
  induction ls with
  | nil =>
    intro _ fuel σ σ1 pend T ht ho _ hwa hp hsd hcard hfuel
    exact session_end fileName name text t ht (by simpa using ho) hwa hp hsd hcard
      (by simpa using hfuel)
  | cons l ls ih =>
    intro hk fuel σ σ1 pend T ht ho hca hwa hp hsd hcard hfuel
    obtain ⟨k, rfl⟩ : ∃ k, fuel = k + 1 := ⟨fuel - 1, by simp at hfuel; omega⟩
    have hfuel2 : ls.length + 2 ≤ k := by simp at hfuel; omega
    have hkl := hk l (List.mem_cons_self _ _)
    have hkt : ∀ x ∈ ls, KeyedLine x := fun x hx => hk x (List.mem_cons_of_mem _ hx)
    have hfile : σ.origFile = some (l ++ ls.flatten) := by rw [ho, List.flatten_cons]
    obtain ⟨out, -, -, f3, f4, -, f6, f7, -⟩ := printLineToFile_frame hp
    have hisT : σ.tempFile.isSome = true := by rw [ht]; rfl
    have hisO : σ.origFile.isSome = true := by rw [ho]; rfl
    have hcardP : CardInv σ1.sd (cstrOf fileName) t (T ++ pend) := by
      rw [hsd]
      exact cardInv_append hcard pend
    by_cases hpar : Spec.isParam (Spec.removeCR l) = true
    · obtain ⟨s3, a, q, hr, he, hes, ho3, hca3, hsd3, hser3, ht3, hwa3⟩ :=
        readConfigLine_param hkl.1 hfile hca hp hpar
      have hw : write fileName σ = .ok (true, s3) := by
        rw [write_merge_eq fileName hisT hwa hisO, hr]
      have hval := keyed_value_present hkl hpar
      have ht3b : s3.tempFile = some t := by rw [ht3, f4, ht]
      have hwa3b : s3.writeAppend = false := by rw [hwa3, f7, hwa]
      have hcard3 : CardInv s3.sd (cstrOf fileName) t (T ++ pend) := by
        rw [hsd3]
        exact hcardP
      unfold writeSessionLoop
      rw [hw]
      simp only
      by_cases hm : cstrOf name = Spec.trim (Spec.tokKey (Spec.removeCR l))
          ∧ Spec.trim (Spec.tokKey (Spec.removeCR l)) ≠ []
      · obtain ⟨s4, v, q2, hck, -, hfr⟩ := checkItemName_entry_match he hm.1 hm.2 hval
        have hb : setCallback name text s3 = .ok { s4 with currentPos := none } := by
          unfold setCallback
          rw [setText_merge name text hwa3b, hck]
        rw [hb]
        simp only
        obtain ⟨g1, g2, g3, g4, g5, g6, g7, g8⟩ := hfr
        obtain ⟨fin, h1, h2, h3⟩ := ih hkt k { s4 with currentPos := none }
          { s4 with currentPos := none } [] (T ++ pend)
          (by show s4.tempFile = some t; rw [g4, ht3b])
          (by show s4.origFile = some ls.flatten; rw [g3, ho3])
          (by show s4.commentActive = false; rw [g6, hca3])
          (by show s4.writeAppend = false; rw [g7, hwa3b])
          (printLineToFile_null rfl)
          (by show s4.sd = s4.sd.append t []; rw [append_nil])
          (by show CardInv s4.sd _ _ _; rw [g1]; exact hcard3)
          hfuel2
        refine ⟨fin, h1, ?_, h3⟩
        rw [h2, committed_cons]
        unfold Spec.mergeLine
        rw [if_pos hpar, if_pos hm]
        simp only [List.append_nil, List.nil_append]
      · have hck := checkItemName_entry_nomatch he hm
        have hb : setCallback name text s3
            = .ok (trimmed s3 a (Spec.tokKey (Spec.removeCR l))) := by
          unfold setCallback
          rw [setText_merge name text hwa3b, hck]
        rw [hb]
        simp only
        have he2 := entry_trimmed he
        obtain ⟨s5, hp5, hsd5, -⟩ := printLineToFile_entry
          (s := trimmed s3 a (Spec.tokKey (Spec.removeCR l))) (t := t) ht3b he2 hes hval
        obtain ⟨fin, h1, h2, h3⟩ := ih hkt k (trimmed s3 a (Spec.tokKey (Spec.removeCR l))) s5
          (Spec.trim (Spec.tokKey (Spec.removeCR l)) ++ [61]
            ++ Spec.trim (Spec.tokKey (Spec.tokRest (Spec.removeCR l))) ++ Print.newline)
          (T ++ pend) ht3b ho3 hca3 hwa3b hp5 hsd5 hcard3 hfuel2
        refine ⟨fin, h1, ?_, h3⟩
        rw [h2, committed_cons]
        unfold Spec.mergeLine
        rw [if_pos hpar, if_neg hm]
        simp only [List.append_assoc]
    · have hnp : Spec.isParam (Spec.removeCR l) = false := by simpa using hpar
      obtain ⟨s3, hr, ho3, hca3, hsd3, hser3, ht3, hwa3, hcur3, hes3, junk, hview⟩ :=
        readConfigLine_skip hkl.1 hfile hca hp hnp
      have ht3b : s3.tempFile = some t := by rw [ht3, f4, ht]
      have hwa3b : s3.writeAppend = false := by rw [hwa3, f7, hwa]
      have hw : write fileName σ = write fileName s3 := by
        rw [write_merge_eq fileName hisT hwa hisO,
          write_merge_eq fileName (by rw [ht3b]; rfl) hwa3b (by rw [ho3]; rfl), hr]
      rw [writeSessionLoop_congr fileName _ k hw]
      have hcard3 : CardInv s3.sd (cstrOf fileName) t (T ++ pend) := by
        rw [hsd3]
        exact hcardP
      obtain ⟨fin, h1, h2, h3⟩ := ih hkt (k + 1) s3 (s3.tempPrint (Spec.removeCR l))
        (Spec.removeCR l) (T ++ pend) ht3b ho3 hca3 hwa3b
        (printLineToFile_verbatim ht3b hcur3 hes3 hview)
        (by rw [tempPrint_sd, tempOut_open ht3b]) hcard3 (by omega)
      refine ⟨fin, h1, ?_, h3⟩
      rw [h2, committed_cons]
      unfold Spec.mergeLine
      rw [if_neg (by simpa using hnp)]
      simp only [List.append_assoc]

/-- The name of the temporary file that the first round of `openTempFile` forms. -/
theorem tempName_eq (buf : List Nat) :
    cstr ([95, 116, 101, 109, 112, 0, 0] ++ buf) 0 = ascii "_temp" := by
  have h : ascii "_temp" = [95, 116, 101, 109, 112] := by decide
  rw [h]
  simp [cstr, List.takeWhile]

/-- The method `openTempFile` on a card that works: an old `_temp` is removed and an empty
`_temp` is opened; no other file changes. -/
theorem openTempFile_ok {s : SdConfigFile} (hb : s.sd.beginOk = true)
    (hw : s.sd.openWriteOk = true) (hrm : s.sd.removeOk = true) :
    ∃ s1, openTempFile s = .ok (true, s1) ∧ s1.tempFile = some (ascii "_temp")
      ∧ s1.origFile = s.origFile
      ∧ s1.sd.beginOk = s.sd.beginOk ∧ s1.sd.openReadOk = s.sd.openReadOk
      ∧ s1.sd.removeOk = s.sd.removeOk ∧ s1.sd.renameOk = s.sd.renameOk
      ∧ SdFat.lookup s1.sd.files (ascii "_temp") = some []
      ∧ ∀ n, n ≠ ascii "_temp" → SdFat.lookup s1.sd.files n = SdFat.lookup s.sd.files n := by
  unfold openTempFile openTempFileLoop openTempFileStep
  simp only [hb, not_true_eq_false, if_false, tempName_eq]
  by_cases hex : s.sd.exists (ascii "_temp") = true
  · have hrem : s.sd.remove (ascii "_temp")
        = (true, { s.sd with files := s.sd.files.filter (fun e => e.1 ≠ ascii "_temp") }) := by
      unfold SdFat.remove
      rw [if_pos ⟨hrm, hex⟩]
    have hnone : SdFat.lookup (s.sd.files.filter (fun e => e.1 ≠ ascii "_temp")) (ascii "_temp")
        = none := by
      rw [lookup_filter, if_pos rfl]
    simp only [hex, if_true, hrem, not_true_eq_false, if_false, hw, Bool.not_eq_true]
    refine ⟨_, rfl, rfl, rfl, ?_, ?_, ?_, ?_, ?_, ?_⟩
    all_goals unfold SdFat.create SdFat.exists
    all_goals simp only [hnone, Option.isSome_none, Bool.false_eq_true, if_false]
    · exact hb
    · rw [lookup_append_new, hnone]
      simp
    · intro n hn
      rw [lookup_append_new, lookup_filter, if_neg hn]
      rcases hl : SdFat.lookup s.sd.files n with _ | x
      · simp [Ne.symm hn]
      · rfl
  · have hnone : SdFat.lookup s.sd.files (ascii "_temp") = none := by
      unfold SdFat.exists at hex
      simpa using hex
    simp only [hex, Bool.false_eq_true, if_false, not_true_eq_false, hw, Bool.not_eq_true]
    refine ⟨_, rfl, rfl, rfl, ?_, ?_, ?_, ?_, ?_, ?_⟩
    all_goals unfold SdFat.create SdFat.exists
    all_goals simp only [hnone, Option.isSome_none, Bool.false_eq_true, if_false]
    · exact hb
    · rw [lookup_append_new, hnone]
      simp
    · intro n hn
      rw [lookup_append_new]
      rcases hl : SdFat.lookup s.sd.files n with _ | x
      · simp [Ne.symm hn]
      · rfl

/-- The first call of `write` in a session: the temporary file and the configuration file are
opened, then the call goes on like a call in the merge phase. -/
theorem write_first {s : SdConfigFile} {fileName content : List Nat}
    (hb : s.sd.beginOk = true) (hr : s.sd.openReadOk = true) (hw : s.sd.openWriteOk = true)
    (hrm : s.sd.removeOk = true) (hrn : s.sd.renameOk = true)
    (hfile : SdFat.lookup s.sd.files (cstrOf fileName) = some content)
    (hname : cstrOf fileName ≠ ascii "_temp")
    (ho : s.origFile = none) (ht : s.tempFile = none) :
    ∃ σ, write fileName s = write fileName σ ∧ σ.tempFile = some (ascii "_temp")
      ∧ σ.origFile = some content ∧ σ.commentActive = false ∧ σ.writeAppend = false
      ∧ σ.currentPos = none ∧ CardInv σ.sd (cstrOf fileName) (ascii "_temp") [] := by
  obtain ⟨s1, h1, ht1, ho1, b1, b2, b3, b4, hl1, hl2⟩ := openTempFile_ok hb hw hrm
  obtain ⟨σ0, hσ0⟩ : ∃ σ0 : SdConfigFile, σ0 = { s1 with writeAppend := false, currentPos := none } :=
    ⟨_, rfl⟩
  obtain ⟨σ, hσ⟩ : ∃ σ : SdConfigFile,
      σ = { σ0 with origFile := some content, commentActive := false, lineOverflow := false } :=
    ⟨_, rfl⟩
  have hsd : σ.sd = s1.sd := by rw [hσ, hσ0]
  have hlook : SdFat.lookup s1.sd.files (cstrOf fileName) = some content := by
    rw [hl2 _ hname, hfile]
  have hopen : openConfigFile fileName σ0 = .ok (true, σ) := by
    rw [openConfigFile_ok (s := σ0) (by rw [hσ0]; show s1.sd.beginOk = true; rw [b1, hb])
      (by rw [hσ0]; show s1.sd.openReadOk = true; rw [b2, hr])
      (by rw [hσ0]; exact hlook), hσ]
  have hσt : σ.tempFile = some (ascii "_temp") := by rw [hσ, hσ0]; exact ht1
  have hσo : σ.origFile = some content := by rw [hσ]
  have hσw : σ.writeAppend = false := by rw [hσ, hσ0]
  have e1 : write fileName s = writeStep fileName σ0 := by
    unfold write
    rw [ht, h1, hσ0]
    rfl
  have e2 : writeStep fileName σ0 = writeStep fileName σ := by
    have hw0 : σ0.writeAppend = false := by rw [hσ0]
    have ho0 : σ0.origFile = none := by rw [hσ0]; exact ho1.trans ho
    unfold writeStep
    rw [hw0, ho0, hσw, hσo, hopen]
    rfl
  have e3 : write fileName σ = writeStep fileName σ := by
    unfold write
    rw [hσt]
    rfl
  refine ⟨σ, by rw [e1, e2, e3], hσt, hσo, by rw [hσ], hσw, by rw [hσ, hσ0], ?_⟩
  rw [hsd]
  exact ⟨b1.trans hb, b2.trans hr, b3.trans hrm, b4.trans hrn, hl1, by rw [hlook]; rfl,
    fun h => hname h.symm⟩

/-- A write session whose body sets only the key `name`, on a file of lines that fit and have
a byte before their first `=`: the session ends, and the new file is in the place of the old. -/
theorem writeSession_committed (fileName name text : List Nat) (ls : List (List Nat))
    (s : SdConfigFile) (hk : ∀ l ∈ ls, KeyedLine l)
    (hb : s.sd.beginOk = true) (hr : s.sd.openReadOk = true) (hw : s.sd.openWriteOk = true)
    (hrm : s.sd.removeOk = true) (hrn : s.sd.renameOk = true)
    (hfile : SdFat.lookup s.sd.files (cstrOf fileName) = some ls.flatten)
    (hname : cstrOf fileName ≠ ascii "_temp")
    (ho : s.origFile = none) (ht : s.tempFile = none) :
    ∃ fin, writeSession fileName (setCallback name text) s = .ok fin
      ∧ SdFat.lookup fin.sd.files (cstrOf fileName) = some (Spec.committed name text ls)
      ∧ fin.tempFile = none ∧ fin.origFile = none
      ∧ fin.sd.beginOk = true ∧ fin.sd.openReadOk = true := by
  obtain ⟨σ, hwr, hσt, hσo, hσc, hσw, hσp, hcard⟩ := write_first hb hr hw hrm hrn hfile hname ho ht
  unfold writeSession
  rw [hfile]
  simp only [Option.getD_some]
  rw [writeSessionLoop_congr fileName _ _ hwr]
  have hlen := length_le_flatten ls (fun l hl => (hk l hl).1)
  obtain ⟨fin, h1, h2, h3⟩ := session_merge fileName name text (ascii "_temp") ls hk
    (ls.flatten.length + 2 + 1) σ σ [] [] hσt hσo hσc hσw (printLineToFile_null hσp)
    (by rw [append_nil]) hcard (by omega)
  refine ⟨fin, h1, ?_, h3⟩
  rw [h2]
  simp

end SdConfigFile

/-! ## The lines of the new file -/

namespace SdConfigFile
open Libc

theorem trim_subset {t : List Nat} {x : Nat} (hx : x ∈ Spec.trim t) : x ∈ t := by
  unfold Spec.trim at hx
  exact (List.dropWhile_suffix _).subset ((List.rdropWhile_prefix _ _).subset hx)

theorem trim_length_le (t : List Nat) : (Spec.trim t).length ≤ t.length := by
  unfold Spec.trim
  exact ((List.rdropWhile_prefix _ _).length_le).trans (List.dropWhile_suffix _).length_le

theorem dropWhile_space_lf (Y : List Nat) :
    (Y ++ [10]).dropWhile (· = 32) = Y.dropWhile (· = 32) ++ [10] := by
  induction Y with
  | nil => simp [List.dropWhile]
  | cons y Y ih =>
    by_cases h : y = 32
    · simp [List.dropWhile_cons, h, ih]
    · simp [List.dropWhile_cons, h]

/-- The line feed at the end of a token is trimmed away. -/
theorem trim_lf (Y : List Nat) : Spec.trim (Y ++ [10]) = Spec.trim Y := by
  unfold Spec.trim
  rw [dropWhile_space_lf, List.rdropWhile_concat_pos]
  simp [discardChar]

theorem nil_or_snoc (l : List Nat) : l = [] ∨ ∃ Y x, l = Y ++ [x] := by
  rcases l.eq_nil_or_concat with h | ⟨Y, x, h⟩
  · exact Or.inl h
  · exact Or.inr ⟨Y, x, by simpa using h⟩

theorem filter_no_cr {a : List Nat} (h : 13 ∉ a) : a.filter (fun x => !decide (x = 13)) = a := by
  rw [List.filter_eq_self]
  intro x hx
  have : x ≠ 13 := fun e => h (e ▸ hx)
  simpa using this

theorem trim_no_lf {X : List Nat} (h : 10 ∉ X.dropLast) : 10 ∉ Spec.trim X := by
  rcases nil_or_snoc X with rfl | ⟨Y, x, rfl⟩
  · simp [Spec.trim]
  · rw [List.dropLast_concat] at h
    by_cases hx : x = 10
    · subst hx
      rw [trim_lf]
      exact fun hm => h (trim_subset hm)
    · intro hm
      have := trim_subset hm
      simp only [List.mem_append, List.mem_singleton] at this
      rcases this with h1 | h1
      · exact h h1
      · exact hx h1.symm

theorem no_lf_inside {X R : List Nat} (h : X <:+: R) (hr : 10 ∉ R.dropLast) :
    10 ∉ X.dropLast := by
  obtain ⟨A, B, rfl⟩ := h
  rcases nil_or_snoc X with rfl | ⟨Y, x, rfl⟩
  · simp
  · rw [List.dropLast_concat]
    intro hm
    apply hr
    have e : A ++ (Y ++ [x]) ++ B = (A ++ Y) ++ (x :: B) := by simp
    rw [e, List.dropLast_append_of_ne_nil _ (by simp)]
    simp [hm]

theorem tokKey_inside (c : List Nat) : Spec.tokKey c <:+: c :=
  (List.takeWhile_prefix _).isInfix.trans (List.dropWhile_suffix _).isInfix

theorem tokRest_suffix (c : List Nat) : Spec.tokRest c <:+ c :=
  (List.drop_suffix _ _).trans ((List.dropWhile_suffix _).trans (List.dropWhile_suffix _))

theorem tok_length {c : List Nat} (h : Spec.tokRest c ≠ []) :
    (Spec.tokKey c).length + 1 + (Spec.tokRest c).length ≤ c.length := by
  have h1 : (c.takeWhile (· = 61)).length + (c.dropWhile (· = 61)).length = c.length := by
    rw [← List.length_append, List.takeWhile_append_dropWhile]
  have h2 : ((c.dropWhile (· = 61)).takeWhile (· ≠ 61)).length
      + ((c.dropWhile (· = 61)).dropWhile (· ≠ 61)).length = (c.dropWhile (· = 61)).length := by
    rw [← List.length_append, List.takeWhile_append_dropWhile]
  have h3 : 0 < (Spec.tokRest c).length := List.length_pos.2 h
  unfold Spec.tokRest at h3 ⊢
  unfold Spec.tokKey
  rw [List.length_drop] at h3 ⊢
  omega

/-- The trimmed value token is shorter than the string that `strtok` goes on with, when that
string ends with the line feed of the line. -/
theorem trim_value_length {R0 : List Nat} :
    (Spec.trim (Spec.tokKey (R0 ++ [10]))).length + 1 ≤ (R0 ++ [10]).length := by
  by_cases h : 61 ∈ R0 ++ [10]
  · have h1 := tokKey_length_lt h
    have h2 := trim_length_le (Spec.tokKey (R0 ++ [10]))
    omega
  · rw [tokKey_of_no_eq h, trim_lf]
    have := trim_length_le R0
    simp only [List.length_append, List.length_singleton]
    omega

/-- A line made of a key, `=`, a value and CR LF fits when its parts hold no line end and no
NUL and are short enough. -/
theorem fitLine_made {a b : List Nat} (ha10 : 10 ∉ a) (hb10 : 10 ∉ b) (ha0 : 0 ∉ a) (hb0 : 0 ∉ b)
    (ha13 : 13 ∉ a) (hb13 : 13 ∉ b) (hlen : a.length + 1 + b.length + 1 < SDCONFIG_BUFFER_LENGTH) :
    FitLine (a ++ [61] ++ b ++ Print.newline) := by
  have e : a ++ [61] ++ b ++ Print.newline = (a ++ [61] ++ b ++ [13]) ++ [10] := by
    simp [Print.newline]
  have r : Spec.removeCR (a ++ [61] ++ b ++ Print.newline) = a ++ [61] ++ b ++ [10] := by
    simp [Spec.removeCR, Print.newline, List.filter_append, filter_no_cr ha13, filter_no_cr hb13,
      List.filter_cons]
  refine ⟨?_, ?_, ?_, ?_⟩
  · rw [e, List.getLast?_concat]
  · rw [e, List.dropLast_concat]
    simp [ha10, hb10]
  · simp [Print.newline, ha0, hb0]
  · rw [r]
    simp only [List.length_append, List.length_singleton]
    omega

theorem removeCR_made {a b : List Nat} (ha13 : 13 ∉ a) (hb13 : 13 ∉ b) :
    Spec.removeCR (a ++ [61] ++ b ++ Print.newline) = a ++ [61] ++ b ++ [10] := by
  simp [Spec.removeCR, Print.newline, List.filter_append, filter_no_cr ha13, filter_no_cr hb13,
    List.filter_cons]

theorem removeCR_idem (l : List Nat) : Spec.removeCR (Spec.removeCR l) = Spec.removeCR l := by
  simp [Spec.removeCR]

/-- A line that fits, without its carriage returns, is a line that fits. -/
theorem fitLine_removeCR {l : List Nat} (h : FitLine l) : FitLine (Spec.removeCR l) := by
  obtain ⟨cb, hc, h10, h0, h13, hlen⟩ := fitLine_chunk h
  refine ⟨?_, ?_, ?_, ?_⟩
  · rw [hc, List.getLast?_concat]
  · rw [hc, List.dropLast_concat]
    exact h10
  · rw [hc]
    simp [h0]
  · rw [removeCR_idem, hc]
    simpa using hlen

/-- Each line of the old file gives a line that fits, or nothing, in the new file. -/
theorem fitLine_mergeLine (name : List Nat) {l : List Nat} (hk : KeyedLine l) :
    Spec.mergeLine name (Spec.removeCR l) = [] ∨ FitLine (Spec.mergeLine name (Spec.removeCR l)) := by
  unfold Spec.mergeLine
  by_cases hpar : Spec.isParam (Spec.removeCR l) = true
  · rw [if_pos hpar]
    by_cases hm : cstrOf name = Spec.trim (Spec.tokKey (Spec.removeCR l))
        ∧ Spec.trim (Spec.tokKey (Spec.removeCR l)) ≠ []
    · rw [if_pos hm]
      exact Or.inl rfl
    · rw [if_neg hm]
      right
      have hval := keyed_value_present hk hpar
      obtain ⟨cb, hc, h10, h0, h13, hlen⟩ := fitLine_chunk hk.1
      have hrne : Spec.tokRest (Spec.removeCR l) ≠ [] := by
        intro h
        rw [h] at hval
        exact hval rfl
      have hdl : 10 ∉ (Spec.removeCR l).dropLast := by
        rw [hc, List.dropLast_concat]
        exact h10
      have hK := tokKey_inside (Spec.removeCR l)
      have hR := tokRest_suffix (Spec.removeCR l)
      have hV := tokKey_inside (Spec.tokRest (Spec.removeCR l))
      have hVc : Spec.tokKey (Spec.tokRest (Spec.removeCR l)) <:+: Spec.removeCR l :=
        hV.trans hR.isInfix
      have hmem : ∀ x, x ∈ cb ++ [10] → x ≠ 0 ∧ x ≠ 13 := by
        intro x hx
        simp only [List.mem_append, List.mem_singleton] at hx
        rcases hx with hx | hx
        · exact ⟨fun e => h0 (e ▸ hx), fun e => h13 (e ▸ hx)⟩
        · subst hx
          exact ⟨by decide, by decide⟩
      have hlenV : (Spec.trim (Spec.tokKey (Spec.tokRest (Spec.removeCR l)))).length + 1
          ≤ (Spec.tokRest (Spec.removeCR l)).length := by
        obtain ⟨A, hA⟩ := hR
        rcases nil_or_snoc (Spec.tokRest (Spec.removeCR l)) with hnil | ⟨R0, x, hx⟩
        · exact absurd hnil hrne
        · rw [hx, hc, ← List.append_assoc] at hA
          have := (List.append_inj' hA rfl).2
          simp only [List.cons.injEq, and_true] at this
          subst this
          rw [hx]
          exact trim_value_length
      have hlenT := tok_length hrne
      have hlenK := trim_length_le (Spec.tokKey (Spec.removeCR l))
      have hlc : (Spec.removeCR l).length = cb.length + 1 := by rw [hc]; simp
      apply fitLine_made
      · exact trim_no_lf (no_lf_inside hK hdl)
      · exact trim_no_lf (no_lf_inside hVc hdl)
      · exact fun hm => (hmem 0 (hc ▸ hK.subset (trim_subset hm))).1 rfl
      · exact fun hm => (hmem 0 (hc ▸ hVc.subset (trim_subset hm))).1 rfl
      · exact fun hm => (hmem 13 (hc ▸ hK.subset (trim_subset hm))).2 rfl
      · exact fun hm => (hmem 13 (hc ▸ hVc.subset (trim_subset hm))).2 rfl
      · omega
  · rw [if_neg hpar]
    exact Or.inr (fitLine_removeCR hk.1)

end SdConfigFile

/-! ## Reading the new file -/

namespace SdConfigFile
open Libc

theorem flatten_filter_ne_nil (ls : List (List Nat)) :
    (ls.filter (fun l => !decide (l = []))).flatten = ls.flatten := by
  induction ls with
  | nil => rfl
  | cons l ls ih =>
    by_cases h : l = []
    · subst h
      simp [List.filter_cons, ih]
    · simp [List.filter_cons, h, ih]

theorem params_filter_ne_nil (ls : List (List Nat)) :
    Spec.params (ls.filter (fun l => !decide (l = []))) = Spec.params ls := by
  induction ls with
  | nil => rfl
  | cons l ls ih =>
    by_cases h : l = []
    · subst h
      have e : Spec.isParam (Spec.removeCR []) = false := by decide
      rw [params_cons_false ls e]
      simp [List.filter_cons, ih]
    · have e : (l :: ls).filter (fun l => !decide (l = []))
          = l :: ls.filter (fun l => !decide (l = [])) := by
        simp [List.filter_cons, h]
      rw [e]
      by_cases hp : Spec.isParam (Spec.removeCR l) = true
      · rw [params_cons_true _ hp, params_cons_true _ hp, ih]
      · have hp2 : Spec.isParam (Spec.removeCR l) = false := by simpa using hp
        rw [params_cons_false _ hp2, params_cons_false _ hp2, ih]

theorem params_append (a b : List (List Nat)) :
    Spec.params (a ++ b) = Spec.params a ++ Spec.params b := by
  simp [Spec.params]

/-- The lines of the new file fit, the empty ones apart. -/
theorem fitLine_newLines (name text : List Nat) (ls : List (List Nat))
    (hk : ∀ l ∈ ls, KeyedLine l)
    (hlast : FitLine (cstrOf name ++ [61] ++ text ++ Print.newline)) :
    ∀ l ∈ (Spec.newLines name text ls).filter (fun l => !decide (l = [])), FitLine l := by
  intro l hl
  rw [List.mem_filter] at hl
  obtain ⟨hmem, hne⟩ := hl
  have hne2 : l ≠ [] := by simpa using hne
  unfold Spec.newLines at hmem
  rw [List.mem_append] at hmem
  rcases hmem with h | h
  · rw [List.mem_map] at h
    obtain ⟨l0, hl0, rfl⟩ := h
    rcases fitLine_mergeLine name (hk l0 hl0) with h1 | h1
    · exact absurd h1 hne2
    · exact h1
  · rw [List.mem_singleton] at h
    rw [h]
    exact hlast

/-- The method `read(fileName, callbackFunction)` on the new file of a write session. -/
theorem readWith_committed {U : Type} (cb : SdConfigFile → U → Except Fault (SdConfigFile × U))
    (f : List Nat → List Nat → U → U) (hcb : ActsLike cb f) (name text : List Nat)
    (ls : List (List Nat)) (hk : ∀ l ∈ ls, KeyedLine l)
    (hlast : FitLine (cstrOf name ++ [61] ++ text ++ Print.newline))
    (fileName : List Nat) (s : SdConfigFile) (u : U)
    (hb : s.sd.beginOk = true) (ho : s.sd.openReadOk = true)
    (hf : SdFat.lookup s.sd.files (cstrOf fileName) = some (Spec.committed name text ls))
    (htemp : s.tempFile = none) :
    ∃ s2, readWith fileName cb s u
        = .ok (true, s2, (Spec.params (Spec.newLines name text ls)).foldl
            (fun u c => f (Spec.tokKey c) (Spec.tokRest c) u) u)
      ∧ s2.origFile = none := by
  obtain ⟨s2, h2, k1, _⟩ := readWith_fold cb f hcb _ (fitLine_newLines name text ls hk hlast)
    fileName s u hb ho (by rw [hf, flatten_filter_ne_nil]; rfl) htemp
  rw [params_filter_ne_nil] at h2
  exact ⟨s2, h2, k1⟩

/-! ### The line that `set` appends -/

theorem isComment_append {k : List Nat} (r : List Nat) (hk : k ≠ []) :
    Spec.isComment (k ++ 61 :: r) = Spec.isComment k := by
  rcases k with _ | ⟨a, k⟩
  · exact absurd rfl hk
  · rcases k with _ | ⟨b, k⟩
    · simp [Spec.isComment]
    · simp [Spec.isComment]

theorem tokKey_made {k : List Nat} (r : List Nat) (hk : k ≠ []) (h61 : 61 ∉ k) :
    Spec.tokKey (k ++ 61 :: r) = k := by
  unfold Spec.tokKey
  have hd : (k ++ 61 :: r).dropWhile (· = 61) = k ++ 61 :: r := by
    rcases k with _ | ⟨x, k⟩
    · exact absurd rfl hk
    · have : x ≠ 61 := fun e => h61 (by simp [e])
      simp [List.dropWhile_cons, this]
  rw [hd]
  apply takeWhile_append_stop
  · intro a ha
    have : a ≠ 61 := fun e => h61 (e ▸ ha)
    simpa using this
  · simp

theorem tokRest_made {k : List Nat} (r : List Nat) (hk : k ≠ []) (h61 : 61 ∉ k) :
    Spec.tokRest (k ++ 61 :: r) = r := by
  unfold Spec.tokRest
  have hd : (k ++ 61 :: r).dropWhile (· = 61) = k ++ 61 :: r := by
    rcases k with _ | ⟨x, k⟩
    · exact absurd rfl hk
    · have : x ≠ 61 := fun e => h61 (by simp [e])
      simp [List.dropWhile_cons, this]
  rw [hd, dropWhile_append_stop]
  · rfl
  · intro a ha
    have : a ≠ 61 := fun e => h61 (e ▸ ha)
    simpa using this
  · simp

/-- A string without spaces at its start and without space, tab or line feed at its end is
its own trim. -/
theorem trim_eq_self {k : List Nat} (h1 : k.head? ≠ some 32)
    (h2 : ∀ x, k.getLast? = some x → discardChar x = false) : Spec.trim k = k := by
  unfold Spec.trim
  have hd : k.dropWhile (· = 32) = k := by
    rcases k with _ | ⟨x, k⟩
    · rfl
    · have : x ≠ 32 := fun e => h1 (by simp [e])
      simp [List.dropWhile_cons, this]
  rw [hd]
  rcases nil_or_snoc k with rfl | ⟨Y, x, rfl⟩
  · rfl
  · have := h2 x (by simp)
    rw [List.rdropWhile_concat_neg]
    simp [this]

theorem goodKey_trim {k : List Nat} (h : GoodKey k) : Spec.trim k = k := by
  obtain ⟨hne, h0, h61, hsp, hc⟩ := h
  apply trim_eq_self
  · intro e
    rcases k with _ | ⟨x, k⟩
    · exact hne rfl
    · simp only [List.head?_cons, Option.some.injEq] at e
      subst e
      have := hsp 32 (by simp)
      simp [isspace] at this
  · intro x hx
    have hm : x ∈ k := by
      rcases nil_or_snoc k with rfl | ⟨Y, y, rfl⟩
      · simp at hx
      · rw [List.getLast?_concat] at hx
        simp only [Option.some.injEq] at hx
        simp [hx]
    have := hsp x hm
    unfold isspace at this
    unfold discardChar
    simp only [Bool.or_eq_false_iff, decide_eq_false_iff_not, Bool.and_eq_false_iff] at this ⊢
    omega

theorem goodKey_cstrOf {k : List Nat} (h : GoodKey k) : cstrOf k = k := by
  unfold cstrOf
  rw [List.takeWhile_eq_self_iff]
  intro x hx
  have : x ≠ 0 := fun e => h.2.1 (e ▸ hx)
  simpa using this

theorem goodKey_no_cr {k : List Nat} (h : GoodKey k) : 13 ∉ k := by
  intro hm
  have := h.2.2.2.1 13 hm
  simp [isspace] at this

theorem goodKey_no_lf {k : List Nat} (h : GoodKey k) : 10 ∉ k := by
  intro hm
  have := h.2.2.2.1 10 hm
  simp [isspace] at this

/-! ### `atoi` reads what `print` wrote -/

/-- The digits that `printNumber` writes, and what the digit loop of `atoi` makes of them. -/
theorem printNumberLoop_digits : ∀ (fuel n : Nat), n < fuel →
    ∃ ds : List Nat, (∀ acc, Print.printNumberLoop fuel n acc = ds ++ acc)
      ∧ (∀ d ∈ ds, 48 ≤ d ∧ d ≤ 57) ∧ ds ≠ []
      ∧ ∀ a rest, atoiDigits (ds ++ rest) a = atoiDigits rest (a * 10 ^ ds.length + n) := by
  intro fuel
  induction fuel with
  | zero => intro n h; omega
  | succ fuel ih =>
    intro n hn
    by_cases h0 : n / 10 = 0
    · refine ⟨[n % 10 + 48], ?_, ?_, by simp, ?_⟩
      · intro acc
        simp [Print.printNumberLoop, h0]
      · intro d hd
        simp only [List.mem_singleton] at hd
        omega
      · intro a rest
        have hlt : n < 10 := by omega
        have h1 : n % 10 = n := Nat.mod_eq_of_lt hlt
        simp only [List.singleton_append, atoiDigits, List.length_singleton, pow_one]
        rw [if_pos (by omega)]
        congr 1
        omega
    · obtain ⟨ds, h1, h2, h3, h4⟩ := ih (n / 10) (by omega)
      refine ⟨ds ++ [n % 10 + 48], ?_, ?_, by simp, ?_⟩
      · intro acc
        simp [Print.printNumberLoop, h0, h1]
      · intro d hd
        simp only [List.mem_append, List.mem_singleton] at hd
        rcases hd with hd | hd
        · exact h2 d hd
        · omega
      · intro a rest
        rw [List.append_assoc, h4]
        simp only [List.singleton_append, atoiDigits, List.length_append, List.length_singleton]
        rw [if_pos (by omega)]
        congr 1
        have hdm := Nat.div_add_mod n 10
        rw [pow_succ]
        have : n % 10 + 48 - 48 = n % 10 := by omega
        rw [this]
        nlinarith [hdm]

theorem printNumber_digits (n : Nat) :
    ∃ ds : List Nat, Print.printNumber n = ds ∧ (∀ d ∈ ds, 48 ≤ d ∧ d ≤ 57) ∧ ds ≠ []
      ∧ ∀ rest, atoiDigits (ds ++ rest) 0 = atoiDigits rest n := by
  obtain ⟨ds, h1, h2, h3, h4⟩ := printNumberLoop_digits (n + 1) n (by omega)
  refine ⟨ds, ?_, h2, h3, ?_⟩
  · unfold Print.printNumber
    rw [h1]
    simp
  · intro rest
    rw [h4]
    simp

/-- The text that `print(long)` writes holds only digits and the minus sign. -/
theorem printLong_chars (v : Int) :
    Print.printLong v ≠ [] ∧ ∀ d ∈ Print.printLong v, d = 45 ∨ (48 ≤ d ∧ d ≤ 57) := by
  obtain ⟨ds, h1, h2, h3, h4⟩ := printNumber_digits v.natAbs
  unfold Print.printLong
  rw [h1]
  split
  · refine ⟨by simp, ?_⟩
    intro d hd
    simp only [List.mem_cons] at hd
    rcases hd with hd | hd
    · exact Or.inl hd
    · exact Or.inr (h2 d hd)
  · exact ⟨h3, fun d hd => Or.inr (h2 d hd)⟩

/-- The function `atoi` reads back the number that `print(long)` wrote before a line feed. -/
theorem atoi_printLong (v : Int) : atoi (Print.printLong v ++ [10]) = v := by
  obtain ⟨ds, h1, h2, h3, h4⟩ := printNumber_digits v.natAbs
  have hend : atoiDigits [10] v.natAbs = v.natAbs := by simp [atoiDigits]
  unfold Print.printLong
  rw [h1]
  by_cases hv : v < 0
  · rw [if_pos hv]
    unfold atoi
    have hd : (45 :: ds ++ [10]).dropWhile isspace = 45 :: (ds ++ [10]) := by
      simp [List.dropWhile_cons, isspace]
    rw [hd]
    simp only
    rw [h4, hend]
    omega
  · rw [if_neg hv]
    rcases ds with _ | ⟨d, ds⟩
    · exact absurd rfl h3
    · have hdig := h2 d (by simp)
      unfold atoi
      have hd : ((d :: ds) ++ [10]).dropWhile isspace = d :: (ds ++ [10]) := by
        have : isspace d = false := by
          unfold isspace
          simp only [Bool.or_eq_false_iff, decide_eq_false_iff_not, Bool.and_eq_false_iff]
          omega
        simp [List.dropWhile_cons, this]
      rw [hd]
      have e := h4 [10]
      rw [hend] at e
      split
      · rename_i r heq
        simp only [List.cons.injEq] at heq
        omega
      · rename_i r heq
        simp only [List.cons.injEq] at heq
        omega
      · rw [← List.cons_append, e]
        omega

/-! ### The callbacks at an entry -/

/-- The callback that calls `get(itemName, x)` for an `int` acts like `Spec.getInt`. -/
theorem actsLike_getInt (itemName : List Nat) :
    ActsLike (getIntCallback itemName) (Spec.getInt itemName) := by
  intro s x a K q R he
  unfold getIntCallback get_int Spec.getInt
  by_cases hm : cstrOf itemName = Spec.trim K ∧ Spec.trim K ≠ []
  · by_cases hv : Spec.tokKey R = []
    · obtain ⟨s2, hck, _, hfr⟩ := checkItemName_entry_novalue he hm.1 hm.2 hv
      rw [hck]
      refine ⟨s2, ?_, hfr⟩
      simp [hv]
    · obtain ⟨s2, v, q2, hck, he2, hfr⟩ := checkItemName_entry_match he hm.1 hm.2 hv
      obtain ⟨post, hview⟩ := he2.keyView
      rw [hck]
      refine ⟨s2, ?_, hfr⟩
      simp only [he2.cur, hview.cstr_eq]
      rw [if_pos ⟨hm.1, hm.2, hv⟩]
  · rw [checkItemName_entry_nomatch he hm]
    refine ⟨_, ?_, sameFrame_trimmed s a K⟩
    simp only
    rw [if_neg (fun h => hm ⟨h.1, h.2.1⟩)]

end SdConfigFile

/-! ## The appended line, read back -/

namespace SdConfigFile
open Libc

theorem lastLine_removeCR {k text : List Nat} (hk : GoodKey k) (h13 : 13 ∉ text) :
    Spec.removeCR (cstrOf k ++ [61] ++ text ++ Print.newline) = k ++ 61 :: (text ++ [10]) := by
  rw [goodKey_cstrOf hk, removeCR_made (goodKey_no_cr hk) h13]
  simp

theorem lastLine_isParam {k text : List Nat} (hk : GoodKey k) (ht : text ≠ []) :
    Spec.isParam (k ++ 61 :: (text ++ [10])) = true := by
  unfold Spec.isParam
  rw [isComment_append _ hk.1, hk.2.2.2.2]
  have h1 : 0 < k.length := List.length_pos.2 hk.1
  have h2 : 0 < text.length := List.length_pos.2 ht
  simp only [List.length_append, List.length_cons, List.length_nil, Bool.not_false,
    Bool.and_true, Bool.and_eq_true, decide_eq_true_eq]
  refine ⟨by omega, ?_⟩
  simp

theorem lastLine_fit {k text : List Nat} (hk : GoodKey k) (h0 : 0 ∉ text) (h10 : 10 ∉ text)
    (h13 : 13 ∉ text) (hlen : k.length + 1 + text.length + 1 < SDCONFIG_BUFFER_LENGTH) :
    FitLine (cstrOf k ++ [61] ++ text ++ Print.newline) := by
  rw [goodKey_cstrOf hk]
  exact fitLine_made (goodKey_no_lf hk) h10 hk.2.1 h0 (goodKey_no_cr hk) h13 hlen

/-- The parameters of the new file: those of the lines taken over, then the appended line. -/
theorem params_newLines {k text : List Nat} (ls : List (List Nat)) (hk : GoodKey k)
    (ht : text ≠ []) (h13 : 13 ∉ text) :
    Spec.params (Spec.newLines k text ls)
      = Spec.params (ls.map (fun l => Spec.mergeLine k (Spec.removeCR l)))
        ++ [k ++ 61 :: (text ++ [10])] := by
  unfold Spec.newLines
  rw [params_append]
  congr 1
  have e := lastLine_removeCR hk h13
  have p := lastLine_isParam hk ht
  rw [← e] at p
  rw [params_cons_true [] p, e]
  rfl

theorem printLong_clean (v : Int) :
    Print.printLong v ≠ [] ∧ 0 ∉ Print.printLong v ∧ 10 ∉ Print.printLong v
      ∧ 13 ∉ Print.printLong v ∧ 61 ∉ Print.printLong v := by
  obtain ⟨h1, h2⟩ := printLong_chars v
  refine ⟨h1, ?_, ?_, ?_, ?_⟩ <;>
  · intro hm
    have := h2 _ hm
    omega

/-- What `get(k, x)` makes of `x` at the appended line `k=v`: the value `v`. -/
theorem getInt_lastLine {k : List Nat} (hk : GoodKey k) (v x : Int) :
    Spec.getInt k (Spec.tokKey (k ++ 61 :: (Print.printLong v ++ [10])))
      (Spec.tokRest (k ++ 61 :: (Print.printLong v ++ [10]))) x = v := by
  obtain ⟨c1, c2, c3, c4, c5⟩ := printLong_clean v
  have h61 : 61 ∉ Print.printLong v ++ [10] := by
    simp [c5]
  rw [tokKey_made _ hk.1 hk.2.2.1, tokRest_made _ hk.1 hk.2.2.1]
  unfold Spec.getInt
  rw [tokKey_of_no_eq h61, goodKey_trim hk, goodKey_cstrOf hk, if_pos ⟨rfl, hk.1, by simp⟩]
  exact atoi_printLong v

theorem removeCR_no_cr (l : List Nat) : 13 ∉ Spec.removeCR l := by
  simp [Spec.removeCR]

theorem keyed_no_cr (c : List Nat) (h : 13 ∉ c) :
    13 ∉ Spec.trim (Spec.tokKey c) ∧ 13 ∉ Spec.trim (Spec.tokKey (Spec.tokRest c)) :=
  ⟨fun hm => h ((tokKey_inside c).subset (trim_subset hm)),
   fun hm => h ((tokRest_suffix c).subset ((tokKey_inside _).subset (trim_subset hm)))⟩

/-- The parameters of the lines taken over, when no key is the one that is set and every
parameter written again is a parameter still: the parameters of the old file, written again. -/
theorem params_rewritten {c : List Nat} (hkey : GoodKey c) (ls : List (List Nat))
    (hno : ∀ l ∈ ls, Spec.isParam (Spec.removeCR l) = true →
      Spec.trim (Spec.tokKey (Spec.removeCR l)) ≠ c)
    (hkeep : ∀ l ∈ ls, Spec.isParam (Spec.removeCR l) = true →
      Spec.isParam (Spec.rewritten (Spec.removeCR l)) = true) :
    Spec.params (ls.map (fun l => Spec.mergeLine c (Spec.removeCR l)))
      = (Spec.params ls).map Spec.rewritten := by
  induction ls with
  | nil => rfl
  | cons l ls ih =>
    have ih2 := ih (fun x hx => hno x (List.mem_cons_of_mem _ hx))
      (fun x hx => hkeep x (List.mem_cons_of_mem _ hx))
    rw [List.map_cons]
    by_cases hp : Spec.isParam (Spec.removeCR l) = true
    · have hne := hno l (List.mem_cons_self _ _) hp
      have hm : ¬ (cstrOf c = Spec.trim (Spec.tokKey (Spec.removeCR l))
          ∧ Spec.trim (Spec.tokKey (Spec.removeCR l)) ≠ []) := by
        rw [goodKey_cstrOf hkey]
        exact fun h => hne h.1.symm
      obtain ⟨n1, n2⟩ := keyed_no_cr (Spec.removeCR l) (removeCR_no_cr l)
      have e : Spec.removeCR (Spec.mergeLine c (Spec.removeCR l))
          = Spec.rewritten (Spec.removeCR l) := by
        unfold Spec.mergeLine Spec.rewritten
        rw [if_pos hp, if_neg hm, removeCR_made n1 n2]
        simp
      have hp2 := hkeep l (List.mem_cons_self _ _) hp
      rw [← e] at hp2
      rw [params_cons_true _ hp2, params_cons_true _ hp, ih2, e]
      rfl
    · have hp2 : Spec.isParam (Spec.removeCR l) = false := by simpa using hp
      have e : Spec.mergeLine c (Spec.removeCR l) = Spec.removeCR l := by
        unfold Spec.mergeLine
        rw [if_neg hp]
      have hp3 : Spec.isParam (Spec.removeCR (Spec.mergeLine c (Spec.removeCR l))) = false := by
        rw [e, removeCR_idem]
        exact hp2
      rw [params_cons_false _ hp3, params_cons_false _ hp2, ih2]

/-- The key token and the rest of a line written again. -/
theorem rewritten_tokens {c : List Nat} (hne : Spec.trim (Spec.tokKey c) ≠ []) :
    Spec.tokKey (Spec.rewritten c) = Spec.trim (Spec.tokKey c)
    ∧ Spec.tokRest (Spec.rewritten c) = Spec.trim (Spec.tokKey (Spec.tokRest c)) ++ [10] := by
  have h61 : 61 ∉ Spec.trim (Spec.tokKey c) := fun hm => tokKey_no_eq c (trim_subset hm)
  unfold Spec.rewritten
  exact ⟨tokKey_made _ hne h61, tokRest_made _ hne h61⟩

end SdConfigFile

/-! ## Padding around key and value -/

namespace SdConfigFile
open Libc

/-- The method `get(const char*, char*, int)` at an entry whose key matches. -/
theorem get_chars_entry {s : SdConfigFile} {a q : Nat} {K R : List Nat} (he : Entry s a K q R)
    {itemName : List Nat} (hm : cstrOf itemName = Spec.trim K) (hne : Spec.trim K ≠ [])
    (hv : Spec.tokKey R ≠ []) (dst : List Nat) (maxLength : Int) :
    (match get_chars itemName dst maxLength s with
      | .error f => .error f
      | .ok (b, d, _) => .ok (some (b, d)))
      = (decodeChars (Spec.tokKey R) dst maxLength).map some := by
  obtain ⟨s2, v, q2, hck, he2, hfr⟩ := checkItemName_entry_match he hm hne hv
  obtain ⟨post, hview⟩ := he2.keyView
  have h2 := hview.drop_takeWhile (· = 32)
  have hlen : trimLength s2.lineBuffer (v + ((Spec.tokKey R).takeWhile (· = 32)).length)
      (strlen s2.lineBuffer (v + ((Spec.tokKey R).takeWhile (· = 32)).length))
      = (Spec.trim (Spec.tokKey R)).length := by
    rw [h2.strlen_eq, trimLength_eq _ _ h2.1]
    rfl
  unfold get_chars decodeChars
  rw [hck]
  simp only [he2.cur, skipSpaces_of_view hview, hlen, h2.cstr_eq]
  split_ifs <;> rfl

theorem dropWhile_spaces {a t : List Nat} (b : List Nat) (ha : ∀ x ∈ a, x = 32)
    (hne : t ≠ []) (ht : t.head? ≠ some 32) :
    (a ++ t ++ b).dropWhile (· = 32) = t ++ b := by
  rcases t with _ | ⟨x, t⟩
  · exact absurd rfl hne
  · have hx : x ≠ 32 := fun e => ht (by simp [e])
    rw [List.append_assoc, List.cons_append]
    apply dropWhile_append_stop
    · intro y hy
      simp [ha y hy]
    · simpa using hx

theorem rdropWhile_discard {t : List Nat} (b : List Nat) (hb : ∀ x ∈ b, discardChar x = true)
    (ht : ∀ x, t.getLast? = some x → discardChar x = false) :
    (t ++ b).rdropWhile discardChar = t := by
  induction b using List.reverseRecOn with
  | nil =>
    rw [List.append_nil]
    rcases nil_or_snoc t with rfl | ⟨Y, y, rfl⟩
    · rfl
    · have := ht y (by simp)
      rw [List.rdropWhile_concat_neg]
      simp [this]
  | append_singleton b x ih =>
    rw [← List.append_assoc, List.rdropWhile_concat_pos]
    · exact ih (fun y hy => hb y (by simp [hy]))
    · exact hb x (by simp)

theorem solid_last {t : List Nat} (h : Solid t) :
    ∀ x, t.getLast? = some x → discardChar x = false := by
  intro x hx
  obtain ⟨_, _, _, h10, _, _, h32, h9⟩ := h
  have hm : x ∈ t := by
    rcases nil_or_snoc t with rfl | ⟨Y, y, rfl⟩
    · simp at hx
    · rw [List.getLast?_concat] at hx
      simp only [Option.some.injEq] at hx
      simp [hx]
  have e1 : x ≠ 32 := fun e => h32 (e ▸ hx)
  have e2 : x ≠ 9 := fun e => h9 (e ▸ hx)
  have e3 : x ≠ 10 := fun e => h10 (e ▸ hm)
  simp [discardChar, e1, e2, e3]

/-- Spaces before and spaces, tabs and line feeds after a string are trimmed away. -/
theorem trim_padded {a t b : List Nat} (ha : ∀ x ∈ a, x = 32)
    (hb : ∀ x ∈ b, discardChar x = true) (ht : Solid t) : Spec.trim (a ++ t ++ b) = t := by
  unfold Spec.trim
  rw [dropWhile_spaces b ha ht.1 ht.2.2.2.2.2.1, rdropWhile_discard b hb (solid_last ht)]

theorem solid_trim {t : List Nat} (ht : Solid t) : Spec.trim t = t := by
  have := trim_padded (a := []) (b := []) (by simp) (by simp) ht
  simpa using this

theorem solid_cstrOf {k : List Nat} (h : Solid k) : cstrOf k = k := by
  unfold cstrOf
  rw [List.takeWhile_eq_self_iff]
  intro x hx
  have : x ≠ 0 := fun e => h.2.1 (e ▸ hx)
  simpa using this

theorem strncpy_succ (dst src : List Nat) (n : Nat) :
    strncpy dst src (n + 1) = (strncpy dst src n).set n (src.getD n 0) := by
  unfold strncpy
  rw [List.range_succ, List.foldl_append]
  rfl

/-- The function `strncpy` reads only the first `n` bytes of its source. -/
theorem strncpy_append (dst t b1 b2 : List Nat) (n : Nat) (hn : n ≤ t.length) :
    strncpy dst (t ++ b1) n = strncpy dst (t ++ b2) n := by
  induction n with
  | zero => rfl
  | succ n ih =>
    rw [strncpy_succ, strncpy_succ, ih (by omega)]
    congr 1
    rw [List.getD_eq_getElem?_getD, List.getD_eq_getElem?_getD,
      List.getElem?_append_left (by omega), List.getElem?_append_left (by omega)]

theorem paddedLine_split (p1 k p2 p3 v p4 : List Nat) :
    paddedLine p1 k p2 p3 v p4 = (p1 ++ k ++ p2) ++ 61 :: (p3 ++ v ++ p4 ++ [10]) := by
  simp [paddedLine]

theorem isComment_space (r : List Nat) : Spec.isComment (32 :: r) = false := by
  rcases r with _ | ⟨b, r⟩ <;> simp [Spec.isComment]

theorem isComment_append_other {k : List Nat} (r : List Nat) (hk : k ≠ [])
    (hr : r.head? ≠ some 47) : Spec.isComment (k ++ r) = Spec.isComment k := by
  rcases k with _ | ⟨a, k⟩
  · exact absurd rfl hk
  · rcases k with _ | ⟨b, k⟩
    · rcases r with _ | ⟨c, r⟩
      · simp
      · have hc : c ≠ 47 := fun e => hr (by simp [e])
        simp [Spec.isComment, hc]
    · simp [Spec.isComment]

/-- A byte that is no space, tab or `=` and occurs neither in the key nor in the value does
not occur in the padded line before its line feed. -/
theorem padded_no {p1 k p2 p3 v p4 : List Nat} {y : Nat}
    (h1 : ∀ x ∈ p1, x = 32) (h2 : ∀ x ∈ p2, x = 32 ∨ x = 9)
    (h3 : ∀ x ∈ p3, x = 32) (h4 : ∀ x ∈ p4, x = 32 ∨ x = 9)
    (hy32 : y ≠ 32) (hy9 : y ≠ 9) (hy61 : y ≠ 61) (hk : y ∉ k) (hv : y ∉ v) :
    y ∉ p1 ++ k ++ p2 ++ [61] ++ p3 ++ v ++ p4 := by
  intro hm
  simp only [List.mem_append, List.mem_singleton] at hm
  rcases hm with (((((h | h) | h) | h) | h) | h) | h
  · exact hy32 (h1 y h)
  · exact hk h
  · rcases h2 y h with e | e
    · exact hy32 e
    · exact hy9 e
  · exact hy61 h
  · exact hy32 (h3 y h)
  · exact hv h
  · rcases h4 y h with e | e
    · exact hy32 e
    · exact hy9 e

/-- The padded line as `read` sees it: it fits, it holds a parameter, its key token is the
padded key and the string behind its `=` is the padded value with the line feed. -/
theorem paddedLine_facts {p1 k p2 p3 v p4 : List Nat} (hk : Solid k)
    (hkc : Spec.isComment k = false) (hv : Solid v)
    (h1 : ∀ x ∈ p1, x = 32) (h2 : ∀ x ∈ p2, x = 32 ∨ x = 9)
    (h3 : ∀ x ∈ p3, x = 32) (h4 : ∀ x ∈ p4, x = 32 ∨ x = 9)
    (hfit : (paddedLine p1 k p2 p3 v p4).length < SDCONFIG_BUFFER_LENGTH) :
    FitLine (paddedLine p1 k p2 p3 v p4)
    ∧ Spec.removeCR (paddedLine p1 k p2 p3 v p4) = paddedLine p1 k p2 p3 v p4
    ∧ Spec.isParam (paddedLine p1 k p2 p3 v p4) = true
    ∧ Spec.tokKey (paddedLine p1 k p2 p3 v p4) = p1 ++ k ++ p2
    ∧ Spec.tokRest (paddedLine p1 k p2 p3 v p4) = p3 ++ v ++ p4 ++ [10]
    ∧ Spec.tokKey (p3 ++ v ++ p4 ++ [10]) = p3 ++ v ++ p4 ++ [10] := by
  obtain ⟨k1, k2, k3, k4, k5, k6, k7, k8⟩ := hk
  obtain ⟨v1, v2, v3, v4, v5, v6, v7, v8⟩ := hv
  have n0 : 0 ∉ p1 ++ k ++ p2 ++ [61] ++ p3 ++ v ++ p4 :=
    padded_no h1 h2 h3 h4 (by decide) (by decide) (by decide) k2 v2
  have n10 : 10 ∉ p1 ++ k ++ p2 ++ [61] ++ p3 ++ v ++ p4 :=
    padded_no h1 h2 h3 h4 (by decide) (by decide) (by decide) k4 v4
  have n13 : 13 ∉ p1 ++ k ++ p2 ++ [61] ++ p3 ++ v ++ p4 :=
    padded_no h1 h2 h3 h4 (by decide) (by decide) (by decide) k5 v5
  have hrem : Spec.removeCR (paddedLine p1 k p2 p3 v p4) = paddedLine p1 k p2 p3 v p4 := by
    unfold paddedLine Spec.removeCR
    rw [List.filter_eq_self]
    intro x hx
    rw [List.mem_append, List.mem_singleton] at hx
    have : x ≠ 13 := by
      rcases hx with hx | hx
      · exact fun e => n13 (e ▸ hx)
      · omega
    simpa using this
  have hkey61 : 61 ∉ p1 ++ k ++ p2 := by
    intro hm
    simp only [List.mem_append] at hm
    rcases hm with (h | h) | h
    · have := h1 61 h
      omega
    · exact k3 h
    · have := h2 61 h
      omega
  have hkeyne : p1 ++ k ++ p2 ≠ [] := by simp [k1]
  have hrest61 : 61 ∉ p3 ++ v ++ p4 ++ [10] := by
    intro hm
    simp only [List.mem_append, List.mem_singleton] at hm
    rcases hm with ((h | h) | h) | h
    · have := h3 61 h
      omega
    · exact v3 h
    · have := h4 61 h
      omega
    · omega
  refine ⟨⟨?_, ?_, ?_, ?_⟩, hrem, ?_, ?_, ?_, tokKey_of_no_eq hrest61⟩
  · unfold paddedLine
    rw [List.getLast?_concat]
  · unfold paddedLine
    rw [List.dropLast_concat]
    exact n10
  · unfold paddedLine
    intro hm
    rw [List.mem_append, List.mem_singleton] at hm
    rcases hm with h | h
    · exact n0 h
    · omega
  · rw [hrem]
    exact hfit
  · unfold Spec.isParam
    have hc : Spec.isComment (paddedLine p1 k p2 p3 v p4) = false := by
      rcases p1 with _ | ⟨x, p1⟩
      · have e : paddedLine [] k p2 p3 v p4 = k ++ (p2 ++ 61 :: (p3 ++ v ++ p4 ++ [10])) := by
          simp [paddedLine]
        rw [e, isComment_append_other _ k1, hkc]
        rcases p2 with _ | ⟨y, p2⟩
        · simp
        · rcases h2 y (by simp) with e2 | e2 <;> simp [e2]
      · have hx := h1 x (by simp)
        subst hx
        exact isComment_space _
    have hl1 : 0 < k.length := List.length_pos.2 k1
    have hl2 : 0 < v.length := List.length_pos.2 v1
    have hlen : 3 < (paddedLine p1 k p2 p3 v p4).length := by
      simp only [paddedLine, List.length_append, List.length_singleton]
      omega
    have h61 : (paddedLine p1 k p2 p3 v p4).contains 61 = true := by
      simp [paddedLine]
    rw [hc, h61]
    simpa using hlen
  · rw [paddedLine_split]
    exact tokKey_made _ hkeyne hkey61
  · rw [paddedLine_split]
    exact tokRest_made _ hkeyne hkey61

theorem discard_pad {p : List Nat} (h : ∀ x ∈ p, x = 32 ∨ x = 9) :
    ∀ x ∈ p ++ [10], discardChar x = true := by
  intro x hx
  rw [List.mem_append, List.mem_singleton] at hx
  rcases hx with hx | hx
  · rcases h x hx with e | e <;> simp [discardChar, e]
  · simp [discardChar, hx]

/-- The decode of a padded value is the decode of the value. -/
theorem decodeChars_padded {p3 v p4 : List Nat} (hv : Solid v) (h3 : ∀ x ∈ p3, x = 32)
    (h4 : ∀ x ∈ p4, x = 32 ∨ x = 9) (dst : List Nat) (maxLength : Int) :
    decodeChars (p3 ++ v ++ p4 ++ [10]) dst maxLength = decodeChars (v ++ [10]) dst maxLength := by
  have t1 : Spec.trim (p3 ++ v ++ p4 ++ [10]) = v := by
    rw [List.append_assoc (p3 ++ v)]
    exact trim_padded h3 (discard_pad h4) hv
  have t2 : Spec.trim (v ++ [10]) = v := by
    have := trim_padded (a := []) (b := [] ++ [10]) (by simp) (discard_pad (by simp)) hv
    simpa using this
  have d1 : (p3 ++ v ++ p4 ++ [10]).dropWhile (· = 32) = v ++ (p4 ++ [10]) := by
    rw [List.append_assoc (p3 ++ v)]
    exact dropWhile_spaces _ h3 hv.1 hv.2.2.2.2.2.1
  have d2 : (v ++ [10]).dropWhile (· = 32) = v ++ [10] := by
    have := dropWhile_spaces (a := []) [10] (by simp) hv.1 hv.2.2.2.2.2.1
    simpa using this
  unfold decodeChars
  simp only [t1, t2, d1, d2]
  split_ifs with c1 c2 c3
  · rfl
  · rfl
  · rw [strncpy_append dst v (p4 ++ [10]) [10] _ (by omega)]
  · rfl
  · rfl
  · rw [strncpy_append dst v (p4 ++ [10]) [10] _ (by omega)]

/-- Reading a padded line and calling `get(k, dst, maxLength)` decodes the value `v`. -/
theorem readThenGetChars_padded {p1 k p2 p3 v p4 : List Nat} (rest dst : List Nat)
    (maxLength : Int) (hk : Solid k) (hkc : Spec.isComment k = false) (hv : Solid v)
    (h1 : ∀ x ∈ p1, x = 32) (h2 : ∀ x ∈ p2, x = 32 ∨ x = 9)
    (h3 : ∀ x ∈ p3, x = 32) (h4 : ∀ x ∈ p4, x = 32 ∨ x = 9)
    (hfit : (paddedLine p1 k p2 p3 v p4).length < SDCONFIG_BUFFER_LENGTH) :
    readThenGetChars (paddedLine p1 k p2 p3 v p4 ++ rest) k dst maxLength
      = (decodeChars (v ++ [10]) dst maxLength).map some := by
  obtain ⟨hF, hrem, hpar, hK, hR, hV⟩ := paddedLine_facts hk hkc hv h1 h2 h3 h4 hfit
  have hpar2 : Spec.isParam (Spec.removeCR (paddedLine p1 k p2 p3 v p4)) = true := by
    rw [hrem]
    exact hpar
  obtain ⟨s3, a, q, hr, he, _⟩ := readConfigLine_param hF
    (s := opened (paddedLine p1 k p2 p3 v p4 ++ rest)) rfl rfl (printLineToFile_closed rfl) hpar2
  rw [hrem, hK, hR] at he
  have hp2 : ∀ x ∈ p2, discardChar x = true := by
    intro x hx
    rcases h2 x hx with e | e <;> simp [discardChar, e]
  have hm : cstrOf k = Spec.trim (p1 ++ k ++ p2) := by
    rw [trim_padded h1 hp2 hk, solid_cstrOf hk]
  have hne : Spec.trim (p1 ++ k ++ p2) ≠ [] := by
    rw [trim_padded h1 hp2 hk]
    exact hk.1
  have hval : Spec.tokKey (p3 ++ v ++ p4 ++ [10]) ≠ [] := by
    rw [hV]
    simp
  unfold readThenGetChars
  rw [hr]
  simp only
  have e := get_chars_entry he hm hne hval dst maxLength
  rw [hV, decodeChars_padded hv h3 h4] at e
  exact e

/-- With room in the destination the decode reports the match. -/
theorem decodeChars_ok (V dst : List Nat) (maxLength : Int) (hmax : 1 ≤ maxLength)
    (hroom : maxLength < dst.length) : ∃ d, decodeChars V dst maxLength = .ok (true, d) := by
  unfold decodeChars
  simp only
  split_ifs with c1 c2 c3 c4 c5
  · omega
  · omega
  · exact ⟨_, rfl⟩
  · omega
  · omega
  · exact ⟨_, rfl⟩

end SdConfigFile

/-! ## The claims -/

namespace SdConfigFile

open Libc

theorem strstr_isSome_iff (hay needle : List Nat) :
    (strstr hay needle).isSome = true ↔ needle <:+: hay := by
  induction hay with
  | nil =>
    unfold strstr
    by_cases h : needle = []
    · simp [h]
    · simp [h]
  | cons a hay ih =>
    unfold strstr
    rw [List.infix_cons_iff]
    by_cases hp : needle.isPrefixOf (a :: hay) = true
    · rw [if_pos hp]
      simp [List.isPrefixOf_iff_prefix.1 hp]
    · rw [if_neg hp]
      have : ¬ needle <+: a :: hay := fun h => hp (List.isPrefixOf_iff_prefix.2 h)
      simp [this, ← ih]

/-- What `readConfigLine` leaves when it returns `true`, in terms of the buffer itself. -/
theorem entry_of_readConfigLine {s0 s : SdConfigFile} (h : readConfigLine s0 = .ok (true, s)) :
    ∃ a q, Entry s a (cstr s.lineBuffer a) q (cstr s.lineBuffer q) := by
  obtain ⟨a, K, q, R, he, _⟩ := readConfigLine_true h
  obtain ⟨post, hK⟩ := he.keyView
  obtain ⟨junk, hR⟩ := he.restView
  refine ⟨a, q, ?_⟩
  rw [hK.cstr_eq, hR.cstr_eq]
  exact he

/-- Within the range of `int` the value that `atoi` returns is the decimal parse. -/
theorem atoiInt_of_range {s : List Nat} (h1 : -2147483648 ≤ atoi s) (h2 : atoi s ≤ 2147483647) :
    atoiInt s = atoi s := by
  unfold atoiInt strtol toInt
  rw [if_neg (by omega), if_neg (by omega)]
  omega

/-- C6, as the code has it: for the entry that `readConfigLine` has just reported, with a key
that (trimmed) is not empty and is byte-equal to `itemName`, `get(itemName, bool&)` returns
`true` if and only if the line holds a value token after the `=`. It then stores `true` exactly
when the `int` that `atoi` returns for the value token is 1 or the token contains `True` or
`true` as a substring, and `false` otherwise; for a token whose decimal parse lies in the range
of `int` this is the decode of the claim, by the decimal integer parse itself. When `get`
returns `false` the output variable keeps its value. -/
theorem C6_bool_decode_of_value_token (s0 s : SdConfigFile) (itemName : List Nat)
    (itemValue : Bool) (a q : Nat)
    (h : readConfigLine s0 = .ok (true, s))
    (ha : s.currentPos = some a) (hq : s.strtokSave = some q)
    (hne : Spec.trim (cstr s.lineBuffer a) ≠ [])
    (hm : Spec.trim (cstr s.lineBuffer a) = cstrOf itemName) :
    ∃ b y s2, get_bool itemName itemValue s = .ok (b, y, s2)
      ∧ (b = true ↔ Spec.tokKey (cstr s.lineBuffer q) ≠ [])
      ∧ (b = true → y = (decide (atoiInt (Spec.tokKey (cstr s.lineBuffer q)) = 1)
            || decide (ascii "True" <:+: Spec.tokKey (cstr s.lineBuffer q))
            || decide (ascii "true" <:+: Spec.tokKey (cstr s.lineBuffer q))))
      ∧ (b = true → -2147483648 ≤ atoi (Spec.tokKey (cstr s.lineBuffer q)) →
            atoi (Spec.tokKey (cstr s.lineBuffer q)) ≤ 2147483647 →
            y = Spec.boolDecode (Spec.tokKey (cstr s.lineBuffer q)))
      ∧ (b = false → y = itemValue) := by
  obtain ⟨a1, q1, he⟩ := entry_of_readConfigLine h
  obtain rfl : a1 = a := by
    have := he.cur
    rw [ha] at this
    exact (Option.some.inj this).symm
  obtain rfl : q1 = q := by
    have := he.save
    rw [hq] at this
    exact (Option.some.inj this).symm
  by_cases hv : Spec.tokKey (cstr s.lineBuffer q1) = []
  · obtain ⟨s2, hc, _, _⟩ := checkItemName_entry_novalue he hm.symm hne hv
    refine ⟨false, itemValue, s2, ?_, ?_, ?_, ?_, fun _ => rfl⟩
    · unfold get_bool
      rw [hc]
    · simp [hv]
    · intro hb
      simp at hb
    · intro hb
      simp at hb
  · obtain ⟨s2, v, q2, hc, he2, _⟩ := checkItemName_entry_match he hm.symm hne hv
    obtain ⟨post, hview⟩ := he2.keyView
    have hg : get_bool itemName itemValue s
        = .ok (true, (decide (atoiInt (Spec.tokKey (cstr s.lineBuffer q1)) = 1)
            || decide (ascii "True" <:+: Spec.tokKey (cstr s.lineBuffer q1))
            || decide (ascii "true" <:+: Spec.tokKey (cstr s.lineBuffer q1))), s2) := by
      unfold get_bool
      rw [hc]
      simp only [he2.cur, hview.cstr_eq, strstr_isSome_iff]
      split
      · rename_i hcond
        congr
        symm
        simpa [or_assoc] using hcond
      · rename_i hcond
        congr
        symm
        simpa [and_assoc] using hcond
    refine ⟨true, _, s2, hg, ?_, fun _ => rfl, ?_, ?_⟩
    · simp [hv]
    · intro _ h1 h2
      unfold Spec.boolDecode
      rw [atoiInt_of_range h1 h2]
    · intro hb
      simp at hb

/-- C6, applied to the entry read from the line `on=truexyz`, and the values the claim names:
the lines `on=1`, `on=true`, `on=True` and `on=truexyz` decode to `true`, the lines `on=0` and
`on=false` decode to `false`. -/
theorem C6_bool_decode_of_value_token_witness :
    (readConfigLine (opened (ascii "on=truexyz\n")) = .ok (true, afterRead (ascii "on=truexyz\n"))
      ∧ (afterRead (ascii "on=truexyz\n")).currentPos = some 0
      ∧ (afterRead (ascii "on=truexyz\n")).strtokSave = some 3
      ∧ Spec.trim (cstr (afterRead (ascii "on=truexyz\n")).lineBuffer 0) = ascii "on"
      ∧ Spec.tokKey (cstr (afterRead (ascii "on=truexyz\n")).lineBuffer 3) = ascii "truexyz\n"
      ∧ atoi (ascii "truexyz\n") = 0
      ∧ ∃ b y s2, get_bool (ascii "on") false (afterRead (ascii "on=truexyz\n")) = .ok (b, y, s2)
        ∧ (b = true ↔ Spec.tokKey (cstr (afterRead (ascii "on=truexyz\n")).lineBuffer 3) ≠ [])
        ∧ (b = true → y
            = (decide (atoiInt (Spec.tokKey (cstr (afterRead (ascii "on=truexyz\n")).lineBuffer 3)) = 1)
              || decide (ascii "True"
                  <:+: Spec.tokKey (cstr (afterRead (ascii "on=truexyz\n")).lineBuffer 3))
              || decide (ascii "true"
                  <:+: Spec.tokKey (cstr (afterRead (ascii "on=truexyz\n")).lineBuffer 3))))
        ∧ (b = true →
            -2147483648 ≤ atoi (Spec.tokKey (cstr (afterRead (ascii "on=truexyz\n")).lineBuffer 3)) →
            atoi (Spec.tokKey (cstr (afterRead (ascii "on=truexyz\n")).lineBuffer 3)) ≤ 2147483647 →
            y = Spec.boolDecode (Spec.tokKey (cstr (afterRead (ascii "on=truexyz\n")).lineBuffer 3)))
        ∧ (b = false → y = false))
    ∧ (get_bool (ascii "on") false (afterRead (ascii "on=1\n"))).map (fun r => (r.1, r.2.1))
        = .ok (true, true)
    ∧ (get_bool (ascii "on") false (afterRead (ascii "on=true\n"))).map (fun r => (r.1, r.2.1))
        = .ok (true, true)
    ∧ (get_bool (ascii "on") false (afterRead (ascii "on=True\n"))).map (fun r => (r.1, r.2.1))
        = .ok (true, true)
    ∧ (get_bool (ascii "on") false (afterRead (ascii "on=truexyz\n"))).map (fun r => (r.1, r.2.1))
        = .ok (true, true)
    ∧ (get_bool (ascii "on") true (afterRead (ascii "on=0\n"))).map (fun r => (r.1, r.2.1))
        = .ok (true, false)
    ∧ (get_bool (ascii "on") true (afterRead (ascii "on=false\n"))).map (fun r => (r.1, r.2.1))
        = .ok (true, false) :=
  ⟨⟨by decide, by decide, by decide, by decide, by decide, by decide,
      C6_bool_decode_of_value_token (opened (ascii "on=truexyz\n")) (afterRead (ascii "on=truexyz\n"))
        (ascii "on") false 0 3 (by decide) (by decide) (by decide) (by decide) (by decide)⟩,
    by decide, by decide, by decide, by decide, by decide, by decide⟩

/-- C6 fails as stated, in two ways. The file `flag=` (no line end) is reported as an entry
whose key `flag` equals the name asked for, yet `get(name, bool&)` returns `false` and leaves
the output variable alone, because the line holds no value token. And for the line
`on=4294967297` it stores `true`, although the decimal integer parse of the value is not 1 and
the value contains neither `True` nor `true`: the `int` that `atoi` returns for it is 1. -/
theorem C6_counterexample :
    ((read (ascii "cfg") (fresh (ascii "cfg") (ascii "flag="))).map (fun r => r.1) = .ok true
      ∧ (afterRead (ascii "flag=")).currentPos = some 0
      ∧ Spec.trim (cstr (afterRead (ascii "flag=")).lineBuffer 0) = ascii "flag"
      ∧ (get_bool (ascii "flag") true (afterRead (ascii "flag="))).map (fun r => (r.1, r.2.1))
          = .ok (false, true))
    ∧ ((afterRead (ascii "on=4294967297\n")).strtokSave = some 3
      ∧ Spec.tokKey (cstr (afterRead (ascii "on=4294967297\n")).lineBuffer 3) = ascii "4294967297\n"
      ∧ atoi (ascii "4294967297\n") = 4294967297
      ∧ atoiInt (ascii "4294967297\n") = 1
      ∧ Spec.boolDecode (ascii "4294967297\n") = false
      ∧ (get_bool (ascii "on") false (afterRead (ascii "on=4294967297\n"))).map
            (fun r => (r.1, r.2.1))
          = .ok (true, true)) := by
  decide

/-- C9 fails on the code: for the entry `k=hello`, a destination of eight bytes `X` and
`maxLength = 3`, `get` stores `he`, leaves index 2 as it was and stores the NUL at index 3:
the destination holds the string `heX`, not `he`, and an index that is not below `maxLength`
has been written. -/
theorem C9_off_by_one :
    (get_chars (ascii "k") (List.replicate 8 88) 3 (afterRead (ascii "k=hello\n"))).map
        (fun r => (r.1, r.2.1, cstr r.2.1 0))
      = .ok (true, [104, 101, 88, 0, 88, 88, 88, 88], ascii "heX") := by
  decide

/-- C10, as the code has it: in the commit step `write` returns `false` and leaves members
that do not depend on whether the delete and the rename succeeded; a rename that fails after a
successful delete shows only as the message `Unable to rename temporary file` on `Serial`
(and in the files on the card). -/
theorem C10_commit_failure_only_on_serial (fileName name : List Nat) (s : SdConfigFile)
    (ha : s.writeAppend = true) (ht : s.tempFile = some name) :
    ∃ s2, write fileName s = .ok (false, s2)
      ∧ members s2 = { members s with tempFile := none }
      ∧ s2.serial =
          if (s.sd.remove (cstrOf fileName)).1 = true
              ∧ ((s.sd.remove (cstrOf fileName)).2.rename name (cstrOf fileName)).1 = false
          then s.serial ++ [SerialMsg.unableToRenameTemporaryFile] else s.serial := by
  unfold write
  rw [ht]
  simp only [Option.isNone_some, Bool.false_eq_true, if_false]
  unfold writeStep
  rw [ha]
  simp only [not_true_eq_false, if_false]
  unfold writeCommit
  simp only [ht]
  by_cases h1 : (s.sd.remove (cstrOf fileName)).1 = true
  · by_cases h2 : ((s.sd.remove (cstrOf fileName)).2.rename name (cstrOf fileName)).1 = true
    · refine ⟨_, rfl, ?_, ?_⟩
      · simp [members, h1, h2, ha]
      · simp [h1, h2]
    · refine ⟨_, rfl, ?_, ?_⟩
      · simp [members, h1, h2, ha]
      · simp [h1, h2]
  · refine ⟨_, rfl, ?_, ?_⟩
    · simp [members, h1, ha]
    · simp [h1]

/-- C10, applied to a commit in which the delete succeeds and the rename fails. -/
theorem C10_commit_failure_only_on_serial_witness :
    (beforeCommit false).writeAppend = true ∧ (beforeCommit false).tempFile = some (ascii "_temp")
    ∧ ∃ s2, write (ascii "cfg") (beforeCommit false) = .ok (false, s2)
      ∧ members s2 = { members (beforeCommit false) with tempFile := none }
      ∧ s2.serial =
          if ((beforeCommit false).sd.remove (cstrOf (ascii "cfg"))).1 = true
              ∧ (((beforeCommit false).sd.remove (cstrOf (ascii "cfg"))).2.rename (ascii "_temp")
                  (cstrOf (ascii "cfg"))).1 = false
          then (beforeCommit false).serial ++ [SerialMsg.unableToRenameTemporaryFile]
          else (beforeCommit false).serial :=
  ⟨by decide, by decide,
    C10_commit_failure_only_on_serial (ascii "cfg") (ascii "_temp") (beforeCommit false)
      (by decide) (by decide)⟩

/-- C10 fails as stated: for the same object in the append phase, once on a card whose rename
fails and once on a card whose rename succeeds, the delete succeeds both times and `write`
gives the same return value and the same members; after the failed rename the card holds no
file `cfg`. -/
theorem C10_counterexample :
    ((beforeCommit false).sd.remove (ascii "cfg")).1 = true
    ∧ (((beforeCommit false).sd.remove (ascii "cfg")).2.rename (ascii "_temp") (ascii "cfg")).1 = false
    ∧ (((beforeCommit true).sd.remove (ascii "cfg")).2.rename (ascii "_temp") (ascii "cfg")).1 = true
    ∧ (write (ascii "cfg") (beforeCommit false)).map (fun r => (r.1, members r.2))
        = (write (ascii "cfg") (beforeCommit true)).map (fun r => (r.1, members r.2))
    ∧ (write (ascii "cfg") (beforeCommit false)).map (fun r => SdFat.lookup r.2.sd.files (ascii "cfg"))
        = .ok none
    ∧ (write (ascii "cfg") (beforeCommit true)).map (fun r => SdFat.lookup r.2.sd.files (ascii "cfg"))
        = .ok (some (ascii "a=2\r\n")) := by
  decide

/-- C5. Overflowed comments never yield a spurious match: when `readConfigLine` starts at the
beginning of a line that (without its carriage returns) begins with `#` or `//`, whatever the
length of the line and whatever bytes follow the marker, and it returns `true`, then the chunk
it reports was read from the bytes behind that line: no chunk of the comment, from its first
to the one that holds its line feed, is reported as an entry. -/
theorem C5_comment_chunks_never_reported (s s2 : SdConfigFile) (line rest : List Nat)
    (hfile : s.origFile = some (line ++ rest)) (hline : LineTail line rest)
    (hcomment : Spec.isComment (Spec.removeCR line) = true)
    (h : readConfigLine s = .ok (true, s2)) :
    ∃ r, s2.origFile = some r ∧ r.length < rest.length ∧ r <:+ rest :=
  comment_chunks_skipped line.length s s2 line rest rfl hfile hline (Or.inr hcomment) h

set_option maxRecDepth 100000 in
/-- C5, applied to a comment of 200 characters with `=` all over its tail (buffer capacity 40),
followed by the line `k=1`: the entry reported is `k=1`, the last line of the file. -/
theorem C5_comment_chunks_never_reported_witness :
    longComment.length = 200
    ∧ (opened (longComment ++ [10] ++ ascii "k=1\n")).origFile
        = some (longComment ++ [10] ++ ascii "k=1\n")
    ∧ Spec.isComment (Spec.removeCR (longComment ++ [10])) = true
    ∧ readConfigLine (opened (longComment ++ [10] ++ ascii "k=1\n"))
        = .ok (true, firstEntry (longComment ++ [10] ++ ascii "k=1\n"))
    ∧ (firstEntry (longComment ++ [10] ++ ascii "k=1\n")).origFile = some []
    ∧ ∃ r, (firstEntry (longComment ++ [10] ++ ascii "k=1\n")).origFile = some r
        ∧ r.length < (ascii "k=1\n").length ∧ r <:+ ascii "k=1\n" :=
  ⟨by decide, by decide, by decide, by decide, by decide,
    C5_comment_chunks_never_reported (opened (longComment ++ [10] ++ ascii "k=1\n"))
      (firstEntry (longComment ++ [10] ++ ascii "k=1\n")) (longComment ++ [10]) (ascii "k=1\n")
      (by decide) (Or.inl ⟨longComment, rfl, by decide⟩) (by decide) (by decide)⟩

/-- C4. Read visits every parameter once, in order: for a file without NUL whose lines all end
in a line feed and have at most capacity - 1 bytes once carriage returns are dropped,
`read(path, onEntry)` runs `onEntry` exactly once for each line that is longer than three
bytes, does not begin with `#` or `//` and contains `=`, in file order, and for no other line
(here `onEntry` notes the key token and the rest of the line it is called for); and the
resumable `read(path)` returns `true` exactly that many times and then `false`, with the file
closed. The object is one with no read or write in progress, on a card that opens the file. -/
theorem C4_read_visits_parameters_in_order (fileName : List Nat) (ls : List (List Nat))
    (s : SdConfigFile) (fuel : Nat) (hfit : ∀ l ∈ ls, FitLine l)
    (hb : s.sd.beginOk = true) (ho : s.sd.openReadOk = true)
    (hf : SdFat.lookup s.sd.files (cstrOf fileName) = some ls.flatten)
    (hclosed : s.origFile = none) (htemp : s.tempFile = none)
    (hfuel : (Spec.params ls).length < fuel) :
    (∃ s2, readWith fileName noteEntry s []
        = .ok (true, s2, (Spec.params ls).map (fun c => (Spec.tokKey c, Spec.tokRest c)))
      ∧ s2.origFile = none)
    ∧ (∃ s3, readCountLoop fileName fuel s = .ok ((Spec.params ls).length, s3)
      ∧ s3.origFile = none) := by
  constructor
  · obtain ⟨s2, h2, k1, _⟩ := readWith_fold noteEntry _ actsLike_noteEntry ls hfit fileName s []
      hb ho hf htemp
    rw [foldl_note] at h2
    exact ⟨s2, by simpa using h2, k1⟩
  · obtain ⟨k, hk⟩ : ∃ k, fuel = k + 1 := ⟨fuel - 1, by omega⟩
    subst hk
    have hopen : read fileName s = read fileName
        { s with origFile := some ls.flatten, commentActive := false, lineOverflow := false } := by
      unfold read
      rw [hclosed, openConfigFile_ok hb ho hf]
      simp
    rw [readCountLoop_congr fileName k hopen]
    exact readCountLoop_lines fileName ls hfit _ (k + 1) rfl htemp rfl hfuel

/-- C4, applied to the sample file: of its eight lines, `a=1`, ` b = 2 ` and `====` are
visited, in this order. -/
theorem C4_read_visits_parameters_in_order_witness :
    Spec.params sampleLines = [ascii "a=1\n", ascii " b = 2 \n", ascii "====\n"]
    ∧ (∃ s2, readWith (ascii "cfg") noteEntry (fresh (ascii "cfg") sampleLines.flatten) []
        = .ok (true, s2, (Spec.params sampleLines).map (fun c => (Spec.tokKey c, Spec.tokRest c)))
      ∧ s2.origFile = none)
    ∧ (∃ s3, readCountLoop (ascii "cfg") 4 (fresh (ascii "cfg") sampleLines.flatten)
        = .ok ((Spec.params sampleLines).length, s3)
      ∧ s3.origFile = none) :=
  ⟨by decide, C4_read_visits_parameters_in_order (ascii "cfg") sampleLines
    (fresh (ascii "cfg") sampleLines.flatten) 4 (by decide) (by decide) (by decide) (by decide)
    (by decide) (by decide) (by decide)⟩

/-- C3, counterexample: for the file `a=1\n#comment\nb=2\n` and the session
`while (write(path)) set("a", 9);` the committed file is `#comment\nb=2\r\na=9\r\n`. The bytes
`b=2\n` do not occur in it: the line of the key `b` has been written again with the line end
`\r\n`. -/
theorem C3_counterexample :
    (writeSession (ascii "cfg") (setIntBody (ascii "a") 9)
        (fresh (ascii "cfg") (ascii "a=1\n#comment\nb=2\n"))).map
        (fun fin => SdFat.lookup fin.sd.files (ascii "cfg"))
      = .ok (some (ascii "#comment\nb=2\r\na=9\r\n"))
    ∧ decide (ascii "b=2\n" <:+: ascii "#comment\nb=2\r\na=9\r\n") = false := by
  decide

/-- C3 (as amended). A write session that sets only the key `name` (`text` is what `println`
prints for the value), on a file whose lines `ls` end in a line feed, fit the buffer, hold no NUL
and, taken without carriage returns, have a byte before their first `=`: the session ends and
the committed file is `Spec.committed name text ls`. That is, in the original order: every line
that holds no parameter, without its carriage returns; every parameter with another key,
written again as trimmed key, `=`, trimmed value token, CR LF; nothing for a parameter with the
key `name`; and the line `name=text` CR LF at the end. The object is one with no read or write in
progress, on a card whose operations succeed, and the file is not named `_temp`. -/
theorem C3_other_lines_rewritten (fileName name text : List Nat) (ls : List (List Nat))
    (s : SdConfigFile) (hk : ∀ l ∈ ls, KeyedLine l)
    (hb : s.sd.beginOk = true) (hr : s.sd.openReadOk = true) (hw : s.sd.openWriteOk = true)
    (hrm : s.sd.removeOk = true) (hrn : s.sd.renameOk = true)
    (hfile : SdFat.lookup s.sd.files (cstrOf fileName) = some ls.flatten)
    (hname : cstrOf fileName ≠ ascii "_temp")
    (ho : s.origFile = none) (ht : s.tempFile = none) :
    ∃ fin, writeSession fileName (setCallback name text) s = .ok fin
      ∧ SdFat.lookup fin.sd.files (cstrOf fileName) = some (Spec.committed name text ls)
      ∧ fin.tempFile = none ∧ fin.origFile = none := by
  obtain ⟨fin, h1, h2, h3, h4, _⟩ :=
    writeSession_committed fileName name text ls s hk hb hr hw hrm hrn hfile hname ho ht
  exact ⟨fin, h1, h2, h3, h4⟩

/-- C3 (as amended), applied to the file `a=1\n#comment\r\n b = 2 \n` and `set("a", 9)`: the
committed file is `#comment\nb=2\r\na=9\r\n`. -/
theorem C3_other_lines_rewritten_witness :
    Spec.committed (ascii "a") (ascii "9") [ascii "a=1\n", ascii "#comment\r\n", ascii " b = 2 \n"]
      = ascii "#comment\nb=2\r\na=9\r\n"
    ∧ ∃ fin, writeSession (ascii "cfg") (setCallback (ascii "a") (ascii "9"))
          (fresh (ascii "cfg") [ascii "a=1\n", ascii "#comment\r\n", ascii " b = 2 \n"].flatten)
        = .ok fin
      ∧ SdFat.lookup fin.sd.files (cstrOf (ascii "cfg"))
        = some (Spec.committed (ascii "a") (ascii "9")
            [ascii "a=1\n", ascii "#comment\r\n", ascii " b = 2 \n"])
      ∧ fin.tempFile = none ∧ fin.origFile = none :=
  ⟨by decide, C3_other_lines_rewritten (ascii "cfg") (ascii "a") (ascii "9")
    [ascii "a=1\n", ascii "#comment\r\n", ascii " b = 2 \n"]
    (fresh (ascii "cfg") [ascii "a=1\n", ascii "#comment\r\n", ascii " b = 2 \n"].flatten)
    (by decide) (by decide) (by decide) (by decide) (by decide) (by decide) (by decide)
    (by decide) (by decide) (by decide)⟩

/-- C1, counterexample: the one line of the file `\r=abc\n` ends in a line feed, fits the
buffer, holds no NUL and has a byte (the carriage return) before its first `=`, and `k` is a key
as the claim wants it; the session `while (write(path)) set("k", 5);` dereferences `NULL`
(`fgets` drops the carriage return, `strtok` finds no value token behind the key `abc`, and
`printLineToFile` calls `checkItemName` on the pointer `strtok` gave). -/
theorem C1_counterexample :
    FitLine (ascii "\r=abc\n") ∧ (ascii "\r=abc\n").head? = some 13 ∧ GoodKey (ascii "k")
    ∧ writeSession (ascii "cfg") (setIntBody (ascii "k") 5)
        (fresh (ascii "cfg") (ascii "\r=abc\n")) = .error .nullDeref := by
  decide

/-- C1 (as amended). Round trip of an integer through write then read. The original file is
made of the lines `ls`, each of which ends in a line feed, fits the buffer, holds no NUL and,
taken without its carriage returns, has a byte before its first `=` when it holds a parameter;
the key `k` is not empty and has no NUL, no `=`, no white space and no `#` or `//` at its
start; the line `k=v` fits the buffer. Then the session `while (write(path)) set(k, v);` ends,
and `read(path, cb)` on the committed file, where `cb` calls `get(k, x)`, returns `true` and
ends with `x == v`. The object is one with no read or write in progress, on a card whose
operations succeed, and the file is not named `_temp`. -/
theorem C1_int_round_trip (fileName k : List Nat) (v x : Int) (ls : List (List Nat))
    (s : SdConfigFile) (hk : ∀ l ∈ ls, KeyedLine l) (hkey : GoodKey k)
    (hfit : k.length + 1 + (Print.printLong v).length + 1 < SDCONFIG_BUFFER_LENGTH)
    (hb : s.sd.beginOk = true) (hr : s.sd.openReadOk = true) (hw : s.sd.openWriteOk = true)
    (hrm : s.sd.removeOk = true) (hrn : s.sd.renameOk = true)
    (hfile : SdFat.lookup s.sd.files (cstrOf fileName) = some ls.flatten)
    (hname : cstrOf fileName ≠ ascii "_temp")
    (ho : s.origFile = none) (ht : s.tempFile = none) :
    ∃ fin back, writeSession fileName (setIntBody k v) s = .ok fin
      ∧ readWith fileName (getIntCallback k) fin x = .ok (true, back, v) := by
  obtain ⟨fin, h1, h2, h3, h4, h5, h6⟩ := writeSession_committed fileName k (Print.printLong v)
    ls s hk hb hr hw hrm hrn hfile hname ho ht
  obtain ⟨c1, c2, c3, c4, c5⟩ := printLong_clean v
  obtain ⟨back, hread, _⟩ := readWith_committed (getIntCallback k) (Spec.getInt k)
    (actsLike_getInt k) k (Print.printLong v) ls hk (lastLine_fit hkey c2 c3 c4 hfit)
    fileName fin x h5 h6 h2 h3
  refine ⟨fin, back, h1, ?_⟩
  rw [hread, params_newLines ls hkey c1 c4, List.foldl_append]
  simp only [List.foldl_cons, List.foldl_nil]
  rw [getInt_lastLine hkey]

/-- C1 (as amended), applied to a sample file and the spec's `set("gain", 42)`: the session
ends and reading the committed file with `get("gain", x)` gives `x == 42`. -/
theorem C1_int_round_trip_witness :
    ∃ fin back, writeSession (ascii "cfg") (setIntBody (ascii "gain") 42)
          (fresh (ascii "cfg") keyedSample.flatten) = .ok fin
      ∧ readWith (ascii "cfg") (getIntCallback (ascii "gain")) fin 0 = .ok (true, back, 42) :=
  C1_int_round_trip (ascii "cfg") (ascii "gain") 42 0 keyedSample
    (fresh (ascii "cfg") keyedSample.flatten) (by decide) (by decide) (by decide) (by decide)
    (by decide) (by decide) (by decide) (by decide) (by decide) (by decide) (by decide)
    (by decide)

/-- C2, counterexample: the file `a=1` (three bytes, no line end) holds no entry at all, so
none with the key `c`. After `while (write(path)) set("c", "hello");` the committed file is
`a=1c=hello\r\n`, and reading it back reports one entry, with the key `a` and the rest
`1c=hello\n`: no entry has the key `c`. -/
theorem C2_counterexample :
    (readWith (ascii "cfg") noteEntry (fresh (ascii "cfg") (ascii "a=1")) []).map
        (fun r => r.2.2) = .ok []
    ∧ (writeSession (ascii "cfg") (setCharsBody (ascii "c") (ascii "hello"))
          (fresh (ascii "cfg") (ascii "a=1"))).map
        (fun fin => SdFat.lookup fin.sd.files (ascii "cfg"))
      = .ok (some (ascii "a=1c=hello\r\n"))
    ∧ (writeSession (ascii "cfg") (setCharsBody (ascii "c") (ascii "hello"))
          (fresh (ascii "cfg") (ascii "a=1"))).bind
        (fun fin => (readWith (ascii "cfg") noteEntry fin []).map (fun r => r.2.2))
      = .ok [(ascii "a", ascii "1c=hello\n")] := by
  decide

/-- C2 (as amended). New-key append. The original file is made of the lines `ls`, each of which
ends in a line feed, fits the buffer, holds no NUL and, taken without its carriage returns, has
a byte before its first `=` when it holds a parameter; every parameter has a trimmed key that is
not empty and is not `c`, and written again as trimmed key, `=`, trimmed value token it still
holds a parameter (it is longer than three bytes and does not start like a comment). The key `c`
is not empty and has no NUL, `=`, white space or comment start; the value `w` is not empty and
has no CR or LF; the line `c=w` fits the buffer. Then the session
`while (write(path)) set(c, w);` ends, the committed file ends with the line `c=w` CR LF, and
`read` on it visits every parameter of the original in the original order, with its key trimmed
and its value token trimmed, followed by exactly one more entry, with the key `c` and the value
`w`. -/
theorem C2_new_key_appended (fileName c w : List Nat) (ls : List (List Nat)) (s : SdConfigFile)
    (hk : ∀ l ∈ ls, KeyedLine l) (hkey : GoodKey c)
    (hno : ∀ l ∈ ls, Spec.isParam (Spec.removeCR l) = true →
      Spec.trim (Spec.tokKey (Spec.removeCR l)) ≠ []
        ∧ Spec.trim (Spec.tokKey (Spec.removeCR l)) ≠ c)
    (hkeep : ∀ l ∈ ls, Spec.isParam (Spec.removeCR l) = true →
      Spec.isParam (Spec.rewritten (Spec.removeCR l)) = true)
    (hw0 : cstrOf w ≠ []) (hw10 : 10 ∉ cstrOf w) (hw13 : 13 ∉ cstrOf w)
    (hfit : c.length + 1 + (cstrOf w).length + 1 < SDCONFIG_BUFFER_LENGTH)
    (hb : s.sd.beginOk = true) (hr : s.sd.openReadOk = true) (hw : s.sd.openWriteOk = true)
    (hrm : s.sd.removeOk = true) (hrn : s.sd.renameOk = true)
    (hfile : SdFat.lookup s.sd.files (cstrOf fileName) = some ls.flatten)
    (hname : cstrOf fileName ≠ ascii "_temp")
    (ho : s.origFile = none) (ht : s.tempFile = none) :
    ∃ fin back, writeSession fileName (setCharsBody c w) s = .ok fin
      ∧ (∃ before, SdFat.lookup fin.sd.files (cstrOf fileName)
          = some (before ++ (c ++ [61] ++ cstrOf w ++ Print.newline)))
      ∧ readWith fileName noteEntry fin [] = .ok (true, back,
          (Spec.params ls).map (fun e =>
              (Spec.trim (Spec.tokKey e), Spec.trim (Spec.tokKey (Spec.tokRest e)) ++ [10]))
            ++ [(c, cstrOf w ++ [10])]) := by
  obtain ⟨fin, h1, h2, h3, h4, h5, h6⟩ := writeSession_committed fileName c (cstrOf w)
    ls s hk hb hr hw hrm hrn hfile hname ho ht
  have hnul : 0 ∉ cstrOf w := by
    intro hm
    have := List.mem_takeWhile_imp hm
    simp at this
  obtain ⟨back, hread, _⟩ := readWith_committed noteEntry (fun K R log => log ++ [(K, R)])
    actsLike_noteEntry c (cstrOf w) ls hk (lastLine_fit hkey hnul hw10 hw13 hfit)
    fileName fin [] h5 h6 h2 h3
  refine ⟨fin, back, h1, ⟨(ls.map (fun l => Spec.mergeLine c (Spec.removeCR l))).flatten, ?_⟩, ?_⟩
  · rw [h2]
    unfold Spec.committed Spec.newLines
    rw [goodKey_cstrOf hkey]
    simp
  · rw [hread, foldl_note, params_newLines ls hkey hw0 hw13,
      params_rewritten hkey ls (fun l hl hp => (hno l hl hp).2) hkeep]
    simp only [List.nil_append, List.map_append, List.map_map, List.map_cons, List.map_nil]
    have e1 : List.map ((fun c => (Spec.tokKey c, Spec.tokRest c)) ∘ Spec.rewritten)
          (Spec.params ls)
        = List.map (fun e =>
            (Spec.trim (Spec.tokKey e), Spec.trim (Spec.tokKey (Spec.tokRest e)) ++ [10]))
          (Spec.params ls) := by
      apply List.map_congr_left
      intro e he
      unfold Spec.params at he
      rw [List.mem_filter, List.mem_map] at he
      obtain ⟨⟨l, hl, rfl⟩, hp⟩ := he
      obtain ⟨t1, t2⟩ := rewritten_tokens (hno l hl hp).1
      simp only [Function.comp_apply, t1, t2]
    rw [e1, tokKey_made _ hkey.1 hkey.2.2.1, tokRest_made _ hkey.1 hkey.2.2.1]

/-- C2 (as amended), applied to a sample file and the spec's `set("c", "hello")`: the entries
`gain=7` and `b=2` are read back in this order, then `c=hello`. -/
theorem C2_new_key_appended_witness :
    (Spec.params keyedSample).map (fun e =>
        (Spec.trim (Spec.tokKey e), Spec.trim (Spec.tokKey (Spec.tokRest e)) ++ [10]))
      = [(ascii "gain", ascii "7\n"), (ascii "b", ascii "2\n")]
    ∧ ∃ fin back, writeSession (ascii "cfg") (setCharsBody (ascii "c") (ascii "hello"))
          (fresh (ascii "cfg") keyedSample.flatten) = .ok fin
      ∧ (∃ before, SdFat.lookup fin.sd.files (cstrOf (ascii "cfg"))
          = some (before ++ (ascii "c" ++ [61] ++ cstrOf (ascii "hello") ++ Print.newline)))
      ∧ readWith (ascii "cfg") noteEntry fin [] = .ok (true, back,
          (Spec.params keyedSample).map (fun e =>
              (Spec.trim (Spec.tokKey e), Spec.trim (Spec.tokKey (Spec.tokRest e)) ++ [10]))
            ++ [(ascii "c", cstrOf (ascii "hello") ++ [10])]) :=
  ⟨by decide, C2_new_key_appended (ascii "cfg") (ascii "c") (ascii "hello") keyedSample
    (fresh (ascii "cfg") keyedSample.flatten) (by decide) (by decide) (by decide) (by decide)
    (by decide) (by decide) (by decide) (by decide) (by decide) (by decide) (by decide)
    (by decide) (by decide) (by decide) (by decide) (by decide) (by decide)⟩

/-- C8, counterexample: with a tab before the key, the line `\tkey=val\n` is not matched by
`get("key", dst, 8)`: the result is `false` and the destination is untouched, while the unpadded
line `key=val\n` is matched. With a tab before the value, the line `key=\tval\n` is matched but
the tab is copied to the destination as part of the value. -/
theorem C8_counterexample :
    readThenGetChars (ascii "\tkey=val\n") (ascii "key") (List.replicate 8 88) 8
      = .ok (some (false, List.replicate 8 88))
    ∧ readThenGetChars (ascii "key=val\n") (ascii "key") (List.replicate 8 88) 8
      = .ok (some (true, ascii "valX" ++ 0 :: ascii "XXX"))
    ∧ readThenGetChars (ascii "key=\tval\n") (ascii "key") (List.replicate 8 88) 8
      = .ok (some (true, ascii "\tvalX" ++ 0 :: ascii "XX")) := by
  decide

/-- C8 (as amended). Padding of spaces before the key and before the value, and of spaces and
tabs after the key and after the value, is insignificant for `get(k, dst, maxLength)`. The key
`k` and the value `v` are not empty, hold no NUL, `=`, CR or LF, do not start with a space and
do not end with a space or a tab, and `k` does not start with `#` or `//`; the padded line
`<p1>k<p2>=<p3>v<p4>\n` fits the buffer. Then reading the padded line and calling
`get(k, dst, maxLength)` gives the same result and the same destination as for the unpadded
line `k=v\n`, and when `1 <= maxLength < ` the size of the destination the result is `true`. -/
theorem C8_padding_insignificant (p1 k p2 p3 v p4 rest rest0 dst : List Nat) (maxLength : Int)
    (hk : Solid k) (hkc : Spec.isComment k = false) (hv : Solid v)
    (h1 : ∀ x ∈ p1, x = 32) (h2 : ∀ x ∈ p2, x = 32 ∨ x = 9)
    (h3 : ∀ x ∈ p3, x = 32) (h4 : ∀ x ∈ p4, x = 32 ∨ x = 9)
    (hfit : (paddedLine p1 k p2 p3 v p4).length < SDCONFIG_BUFFER_LENGTH) :
    readThenGetChars (paddedLine p1 k p2 p3 v p4 ++ rest) k dst maxLength
      = readThenGetChars (paddedLine [] k [] [] v [] ++ rest0) k dst maxLength
    ∧ (1 ≤ maxLength → maxLength < dst.length →
        ∃ d, readThenGetChars (paddedLine p1 k p2 p3 v p4 ++ rest) k dst maxLength
          = .ok (some (true, d))) := by
  have hfit0 : (paddedLine [] k [] [] v []).length < SDCONFIG_BUFFER_LENGTH := by
    simp only [paddedLine, List.length_append, List.length_singleton, List.length_nil] at hfit ⊢
    omega
  have e1 := readThenGetChars_padded rest dst maxLength hk hkc hv h1 h2 h3 h4 hfit
  have e0 := @readThenGetChars_padded [] k [] [] v [] rest0 dst
    maxLength hk hkc hv (by simp) (by simp) (by simp) (by simp) hfit0
  refine ⟨e1.trans e0.symm, ?_⟩
  intro hmax hroom
  obtain ⟨d, hd⟩ := decodeChars_ok (v ++ [10]) dst maxLength hmax hroom
  refine ⟨d, ?_⟩
  rw [e1, hd]
  rfl

/-- C8 (as amended), applied to the line `  key \t= val\t \n`, followed by another line: the
result is that of the line `key=val\n`. -/
theorem C8_padding_insignificant_witness :
    paddedLine (ascii "  ") (ascii "key") (ascii " \t") (ascii " ") (ascii "val") (ascii "\t ")
      = ascii "  key \t= val\t \n"
    ∧ readThenGetChars (ascii "key=val\n") (ascii "key") (List.replicate 8 88) 5
      = .ok (some (true, ascii "valX" ++ 0 :: ascii "XXX"))
    ∧ (readThenGetChars (paddedLine (ascii "  ") (ascii "key") (ascii " \t") (ascii " ")
          (ascii "val") (ascii "\t ") ++ ascii "x=1\n") (ascii "key") (List.replicate 8 88) 5
        = readThenGetChars (paddedLine [] (ascii "key") [] [] (ascii "val") [] ++ [])
          (ascii "key") (List.replicate 8 88) 5
      ∧ (1 ≤ (5 : Int) → (5 : Int) < (List.replicate 8 88).length →
          ∃ d, readThenGetChars (paddedLine (ascii "  ") (ascii "key") (ascii " \t") (ascii " ")
              (ascii "val") (ascii "\t ") ++ ascii "x=1\n") (ascii "key") (List.replicate 8 88) 5
            = .ok (some (true, d)))) :=
  ⟨by decide, by decide,
    C8_padding_insignificant (ascii "  ") (ascii "key") (ascii " \t") (ascii " ") (ascii "val")
      (ascii "\t ") (ascii "x=1\n") [] (List.replicate 8 88) 5 (by decide) (by decide) (by decide)
      (by decide) (by decide) (by decide) (by decide) (by decide)⟩

end SdConfigFile

/-! ## What a call changes on the card -/

namespace SdConfigFile
open Libc

theorem sameOps_refl (sd : SdFat) : SameOps sd sd := ⟨rfl, rfl, rfl, rfl, rfl⟩

theorem sameOps_trans {a b c : SdFat} (h1 : SameOps a b) (h2 : SameOps b c) : SameOps a c := by
  obtain ⟨a1, a2, a3, a4, a5⟩ := h1
  obtain ⟨b1, b2, b3, b4, b5⟩ := h2
  exact ⟨b1.trans a1, b2.trans a2, b3.trans a3, b4.trans a4, b5.trans a5⟩

theorem othersKept_refl (sd : SdFat) : OthersKept sd sd := fun _ _ => rfl

theorem othersKept_trans {a b c : SdFat} (h1 : OthersKept a b) (h2 : OthersKept b c) :
    OthersKept a c :=
  fun n hn => (h2 n hn).trans (h1 n hn)

theorem othersKept_eq {a b : SdFat} (h : b = a) : OthersKept a b := by
  subst h
  exact othersKept_refl _

theorem sameOps_eq {a b : SdFat} (h : b = a) : SameOps a b := by
  subst h
  exact sameOps_refl _

theorem append_kept (sd : SdFat) {t : List Nat} (ht : t ∈ tempNames) (b : List Nat) :
    SameOps sd (sd.append t b) ∧ OthersKept sd (sd.append t b) := by
  refine ⟨⟨rfl, rfl, rfl, rfl, rfl⟩, fun n hn => ?_⟩
  show SdFat.lookup (sd.files.map _) n = _
  have hne : ¬ n = t := fun e => hn (e ▸ ht)
  rw [lookup_map_append, if_neg hne]

theorem remove_kept (sd : SdFat) {t : List Nat} (ht : t ∈ tempNames) :
    SameOps sd (sd.remove t).2 ∧ OthersKept sd (sd.remove t).2 := by
  unfold SdFat.remove
  split
  · refine ⟨⟨rfl, rfl, rfl, rfl, rfl⟩, fun n hn => ?_⟩
    show SdFat.lookup (sd.files.filter _) n = _
    have hne : ¬ n = t := fun e => hn (e ▸ ht)
    rw [lookup_filter, if_neg hne]
  · exact ⟨sameOps_refl _, othersKept_refl _⟩

theorem create_kept (sd : SdFat) {t : List Nat} (ht : t ∈ tempNames) :
    SameOps sd (sd.create t) ∧ OthersKept sd (sd.create t) := by
  unfold SdFat.create
  split
  · exact ⟨sameOps_refl _, othersKept_refl _⟩
  · refine ⟨⟨rfl, rfl, rfl, rfl, rfl⟩, fun n hn => ?_⟩
    show SdFat.lookup (sd.files ++ [(t, [])]) n = _
    rw [lookup_append_new]
    rcases hl : SdFat.lookup sd.files n with _ | x
    · have : ¬ t = n := fun e => hn (e ▸ ht)
      simp [this]
    · rfl

/-- Bytes sent through the temporary file reach a file with a temp-file name only. -/
theorem tempOut_kept {s : SdConfigFile} (hinv : ∀ t, s.tempFile = some t → t ∈ tempNames)
    (b : List Nat) : SameOps s.sd (s.tempOut b) ∧ OthersKept s.sd (s.tempOut b) := by
  unfold tempOut
  rcases ht : s.tempFile with _ | t
  · exact ⟨sameOps_refl _, othersKept_refl _⟩
  · exact append_kept _ (hinv t ht) b

theorem tempOut_twice {s s1 : SdConfigFile} {a : List Nat} (h : s1.sd = s.tempOut a)
    (ht : s1.tempFile = s.tempFile) (b : List Nat) : s1.tempOut b = s.tempOut (a ++ b) := by
  unfold tempOut at h ⊢
  rw [ht, h]
  cases s.tempFile
  · rfl
  · simp only [append_append]

/-- The method `readConfigLine` changes the card only by adding bytes to the temporary file,
and keeps the handle of the temporary file and the phase. -/
theorem readConfigLine_frame {s0 s : SdConfigFile} {b : Bool}
    (h : readConfigLine s0 = .ok (b, s)) :
    s.tempFile = s0.tempFile ∧ s.writeAppend = s0.writeAppend ∧ ∃ out, s.sd = s0.tempOut out := by
  rcases hfile : s0.origFile with _ | file
  · rw [readConfigLine_closed hfile] at h
    simp only [Except.ok.injEq, Prod.mk.injEq] at h
    obtain ⟨_, h⟩ := h
    subst h
    exact ⟨rfl, rfl, [], (tempOut_nil _).symm⟩
  · obtain ⟨n, hn⟩ : ∃ n, file.length = n := ⟨_, rfl⟩
    induction n using Nat.strong_induction_on generalizing s0 file with
    | _ n ih =>
      rcases file with _ | ⟨c, cs⟩
      · rw [readConfigLine_nil hfile] at h
        split at h
        · simp at h
        · rename_i s1 hs1
          obtain ⟨out, p1, _, _, p4, _, _, p7, _⟩ := printLineToFile_frame hs1
          simp only [Except.ok.injEq, Prod.mk.injEq] at h
          obtain ⟨_, h⟩ := h
          subst h
          exact ⟨p4, p7, out, p1⟩
      · rw [readConfigLine_cons hfile] at h
        split at h
        · simp at h
        · rename_i s1 hs1
          obtain ⟨out, p1, _, _, p4, _, _, p7, _⟩ := printLineToFile_frame hs1
          split at h
          · simp at h
          · rename_i s3 s4 hc
            simp only [Except.ok.injEq, Prod.mk.injEq] at h
            obtain ⟨_, h⟩ := h
            subst h
            obtain ⟨f1, _, _, f4, f5, f6⟩ := classifyChunk_frame hc
            have := f6 s3 rfl
            subst this
            exact ⟨by rw [f4]; exact p4, by rw [f5]; exact p7, out, by rw [f1]; exact p1⟩
          · rename_i s3 hc
            obtain ⟨f1, _, f3, f4, f5, _⟩ := classifyChunk_frame hc
            simp only at f1 f3 f4 f5
            have hlt := fgets_length_lt (SDCONFIG_BUFFER_LENGTH - 1) (by decide) c cs
            obtain ⟨g1, g2, out2, g3⟩ := ih _ (by rw [← hn]; exact hlt) h _ f3 rfl
            refine ⟨by rw [g1, f4]; exact p4, by rw [g2, f5]; exact p7, out ++ out2, ?_⟩
            rw [g3]
            exact tempOut_twice (by rw [f1]; exact p1) (by rw [f4]; exact p4) out2

theorem tempName_mem {i : Nat} (hi : i < 3) (buf : List Nat) :
    cstr ([95, 116, 101, 109, 112, i, 0] ++ buf) 0 ∈ tempNames := by
  have h : tempNames = [[95, 116, 101, 109, 112], [95, 116, 101, 109, 112, 1],
      [95, 116, 101, 109, 112, 2]] := by decide
  rw [h]
  rcases i with _ | _ | _ | i
  · simp [cstr, List.takeWhile]
  · simp [cstr, List.takeWhile]
  · simp [cstr, List.takeWhile]
  · omega

theorem openTempFileStep_frame {i : Nat} (hi : i < 3) {s s1 : SdConfigFile}
    {o : Option SdConfigFile} (h : openTempFileStep i s = .ok (o, s1)) :
    SameOps s.sd s1.sd ∧ OthersKept s.sd s1.sd ∧ s1.origFile = s.origFile
      ∧ s1.writeAppend = s.writeAppend
      ∧ (∀ s3, o = some s3 → s3 = s1 ∧ ∃ t, t ∈ tempNames ∧ s1.tempFile = some t)
      ∧ (o = none → s1.tempFile = s.tempFile) := by
  have hmem := tempName_mem hi (s.lineBuffer.drop 7)
  unfold openTempFileStep at h
  split at h
  · simp at h
  · simp only at h
    generalize cstr ([95, 116, 101, 109, 112, i, 0] ++ List.drop 7 s.lineBuffer) 0 = t at h hmem
    have hr : SameOps s.sd (if s.sd.exists t = true then s.sd.remove t else (true, s.sd)).2
        ∧ OthersKept s.sd (if s.sd.exists t = true then s.sd.remove t else (true, s.sd)).2 := by
      split
      · exact remove_kept _ hmem
      · exact ⟨sameOps_refl _, othersKept_refl _⟩
    generalize (if s.sd.exists t = true then s.sd.remove t else (true, s.sd)) = R at h hr
    split at h
    · simp only [Except.ok.injEq, Prod.mk.injEq] at h
      obtain ⟨h1, h2⟩ := h
      subst h1 h2
      exact ⟨sameOps_refl _, othersKept_refl _, rfl, rfl, fun _ e => by simp at e, fun _ => rfl⟩
    · split at h
      · simp only [Except.ok.injEq, Prod.mk.injEq] at h
        obtain ⟨h1, h2⟩ := h
        subst h1 h2
        exact ⟨hr.1, hr.2, rfl, rfl, fun _ e => by simp at e, fun _ => rfl⟩
      · simp only [Except.ok.injEq, Prod.mk.injEq] at h
        obtain ⟨h1, h2⟩ := h
        subst h1 h2
        have hc := create_kept R.2 hmem
        refine ⟨sameOps_trans hr.1 hc.1, othersKept_trans hr.2 hc.2, rfl, rfl, ?_, fun e => by simp at e⟩
        intro s3 e
        simp only [Option.some.injEq] at e
        exact ⟨e.symm, t, hmem, rfl⟩

/-- The method `openTempFile` touches files with a temp-file name only; when it succeeds the
handle of the temporary file is open on such a file. -/
theorem openTempFileLoop_frame (n : Nat) : ∀ (i : Nat) (s s1 : SdConfigFile) (b : Bool),
    i + n ≤ 3 → openTempFileLoop n i s = .ok (b, s1) →
    SameOps s.sd s1.sd ∧ OthersKept s.sd s1.sd ∧ s1.origFile = s.origFile
      ∧ s1.writeAppend = s.writeAppend
      ∧ (b = true → ∃ t, t ∈ tempNames ∧ s1.tempFile = some t)
      ∧ (b = false → s1.tempFile = s.tempFile) := by
  induction n with
  | zero =>
    intro i s s1 b _ h
    unfold openTempFileLoop at h
    simp only [Except.ok.injEq, Prod.mk.injEq] at h
    obtain ⟨h1, h2⟩ := h
    subst h1 h2
    exact ⟨sameOps_refl _, othersKept_refl _, rfl, rfl, fun e => by simp at e, fun _ => rfl⟩
  | succ n ih =>
    intro i s s1 b hi h
    unfold openTempFileLoop at h
    split at h
    · simp at h
    · rename_i s2 s3 hstep
      simp only [Except.ok.injEq, Prod.mk.injEq] at h
      obtain ⟨h1, h2⟩ := h
      subst h1 h2
      obtain ⟨a1, a2, a3, a4, a5, _⟩ := openTempFileStep_frame (by omega) hstep
      obtain ⟨e, t, ht, htf⟩ := a5 _ rfl
      subst e
      exact ⟨a1, a2, a3, a4, fun _ => ⟨t, ht, htf⟩, fun e => by simp at e⟩
    · rename_i s2 hstep
      obtain ⟨a1, a2, a3, a4, _, a6⟩ := openTempFileStep_frame (by omega) hstep
      obtain ⟨b1, b2, b3, b4, b5, b6⟩ := ih (i + 1) s2 s1 b (by omega) h
      exact ⟨sameOps_trans a1 b1, othersKept_trans a2 b2, b3.trans a3, b4.trans a4, b5,
        fun e => (b6 e).trans (a6 rfl)⟩

theorem openTempFile_frame {s s1 : SdConfigFile} {b : Bool} (h : openTempFile s = .ok (b, s1)) :
    SameOps s.sd s1.sd ∧ OthersKept s.sd s1.sd ∧ s1.origFile = s.origFile
      ∧ s1.writeAppend = s.writeAppend
      ∧ (b = true → ∃ t, t ∈ tempNames ∧ s1.tempFile = some t)
      ∧ (b = false → s1.tempFile = s.tempFile) :=
  openTempFileLoop_frame 3 0 s s1 b (by omega) h

/-- The method `openConfigFile` leaves the card, the temporary file and the phase as they
are; the handle of the configuration file is open afterwards exactly when the result is
`true`, and the result is `false` when the file is absent or cannot be opened. -/
theorem openConfigFile_frame {fileName : List Nat} {s s1 : SdConfigFile} {b : Bool}
    (h : openConfigFile fileName s = .ok (b, s1)) :
    s1.sd = s.sd ∧ s1.tempFile = s.tempFile ∧ s1.writeAppend = s.writeAppend
      ∧ (b = true → s1.origFile.isSome = true
          ∧ s1.origFile = SdFat.lookup s.sd.files (cstrOf fileName))
      ∧ ((SdFat.lookup s.sd.files (cstrOf fileName) = none ∨ s.sd.openReadOk = false) →
          b = false) := by
  unfold openConfigFile at h
  split at h
  · simp at h
  · split at h
    · rename_i hl
      simp only [Except.ok.injEq, Prod.mk.injEq] at h
      obtain ⟨h1, h2⟩ := h
      subst h1 h2
      exact ⟨rfl, rfl, rfl, fun e => by simp at e, fun _ => rfl⟩
    · rename_i content hl
      split at h
      · simp only [Except.ok.injEq, Prod.mk.injEq] at h
        obtain ⟨h1, h2⟩ := h
        subst h1 h2
        exact ⟨rfl, rfl, rfl, fun e => by simp at e, fun _ => rfl⟩
      · rename_i hro
        simp only [Except.ok.injEq, Prod.mk.injEq] at h
        obtain ⟨h1, h2⟩ := h
        subst h1 h2
        refine ⟨rfl, rfl, rfl, fun _ => ⟨rfl, hl.symm⟩, ?_⟩
        rintro (e | e)
        · rw [e] at hl
          simp at hl
        · rw [e] at hro
          simp at hro

/-- In the loop of `write`, with both files open, one call of `readConfigLine` decides. -/
theorem writeMergeLoop_eq {s : SdConfigFile} (ht : s.tempFile.isSome = true)
    (ho : s.origFile.isSome = true) :
    writeMergeLoop (fuelOf s) s =
      match readConfigLine s with
      | .error f => .error f
      | .ok (true, s1) => .ok (true, s1)
      | .ok (false, s1) => .ok (false, s1) := by
  obtain ⟨file, hfile⟩ := Option.isSome_iff_exists.1 ho
  obtain ⟨t, htemp⟩ := Option.isSome_iff_exists.1 ht
  unfold fuelOf
  rw [hfile]
  simp only
  unfold writeMergeLoop
  rw [hfile, htemp]
  simp only [Option.isSome_some, and_self, if_true]
  rcases hr : readConfigLine s with f | ⟨b, s1⟩
  · rfl
  · rcases b with _ | _
    · have hclosed := readConfigLine_false hr
      simp only
      unfold writeMergeLoop
      rw [hclosed]
      simp only [Option.isSome_none, Bool.false_eq_true, false_and, if_false]
    · obtain ⟨a, K, q, R, he, _⟩ := readConfigLine_true hr
      simp only [he.cur, Option.isSome_some, if_true]

theorem writeMergeLoop_frame {σ s2 : SdConfigFile} {b : Bool} {t : List Nat}
    (ht : σ.tempFile = some t) (hmem : t ∈ tempNames) (ho : σ.origFile.isSome = true)
    (h : writeMergeLoop (fuelOf σ) σ = .ok (b, s2)) :
    SameOps σ.sd s2.sd ∧ OthersKept σ.sd s2.sd ∧ s2.tempFile = some t
      ∧ s2.writeAppend = σ.writeAppend
      ∧ (b = false → readConfigLine σ = .ok (false, s2) ∧ s2.origFile = none) := by
  rw [writeMergeLoop_eq (by rw [ht]; rfl) ho] at h
  rcases hr : readConfigLine σ with f | ⟨b1, s1⟩
  · rw [hr] at h
    simp at h
  · rw [hr] at h
    obtain ⟨f1, f2, out, f3⟩ := readConfigLine_frame hr
    have hk := tempOut_kept (s := σ) (fun u hu => by rw [ht] at hu; cases hu; exact hmem) out
    rcases b1 with _ | _
    · simp only [Except.ok.injEq, Prod.mk.injEq] at h
      obtain ⟨h1, h2⟩ := h
      subst h1 h2
      exact ⟨by rw [f3]; exact hk.1, by rw [f3]; exact hk.2, f1.trans ht, f2,
        fun _ => ⟨rfl, readConfigLine_false hr⟩⟩
    · simp only [Except.ok.injEq, Prod.mk.injEq] at h
      obtain ⟨h1, h2⟩ := h
      subst h1 h2
      exact ⟨by rw [f3]; exact hk.1, by rw [f3]; exact hk.2, f1.trans ht, f2,
        fun e => by simp at e⟩

/-- A call of `write` in the merge phase, behind the opening of the temporary file. -/
theorem writeStep_merge {fileName : List Nat} {s s2 : SdConfigFile} {b : Bool} {t : List Nat}
    (ha : s.writeAppend = false) (ht : s.tempFile = some t) (hmem : t ∈ tempNames)
    (h : writeStep fileName s = .ok (b, s2)) :
    SameOps s.sd s2.sd ∧ OthersKept s.sd s2.sd ∧ (s2.tempFile = some t ∨ s2.tempFile = none)
      ∧ (s.origFile = none →
          (SdFat.lookup s.sd.files (cstrOf fileName) = none ∨ s.sd.openReadOk = false) →
          b = false ∧ s2.tempFile = none ∧ s2.sd = s.sd)
      ∧ (appendActive s2 = true → b = true ∧ s2.origFile = none
          ∧ ∃ σ σ1, σ.origFile.isSome = true ∧ (s.origFile.isSome = true → σ = s)
            ∧ σ.sd = s.sd
            ∧ (s.origFile = none → σ.origFile = SdFat.lookup s.sd.files (cstrOf fileName))
            ∧ readConfigLine σ = .ok (false, σ1)
            ∧ s2 = { σ1 with writeAppend := true }) := by
  unfold writeStep at h
  rw [ha] at h
  simp only [Bool.false_eq_true, not_false_eq_true, if_true] at h
  have tail : ∀ σ : SdConfigFile, σ.sd = s.sd → σ.tempFile = some t → σ.writeAppend = false →
      σ.origFile.isSome = true → (s.origFile.isSome = true → σ = s) →
      (s.origFile = none → σ.origFile = SdFat.lookup s.sd.files (cstrOf fileName)) →
      (s.origFile = none →
          (SdFat.lookup s.sd.files (cstrOf fileName) = none ∨ s.sd.openReadOk = false) → False) →
      ∀ b1 s3, writeMergeLoop (fuelOf σ) σ = .ok (b1, s3) →
      (b = true ∧ ((b1 = true ∧ s2 = s3) ∨ (b1 = false ∧ s2 = { s3 with writeAppend := true }))) →
      SameOps s.sd s2.sd ∧ OthersKept s.sd s2.sd ∧ (s2.tempFile = some t ∨ s2.tempFile = none)
      ∧ (s.origFile = none →
          (SdFat.lookup s.sd.files (cstrOf fileName) = none ∨ s.sd.openReadOk = false) →
          b = false ∧ s2.tempFile = none ∧ s2.sd = s.sd)
      ∧ (appendActive s2 = true → b = true ∧ s2.origFile = none
          ∧ ∃ σ σ1, σ.origFile.isSome = true ∧ (s.origFile.isSome = true → σ = s)
            ∧ σ.sd = s.sd
            ∧ (s.origFile = none → σ.origFile = SdFat.lookup s.sd.files (cstrOf fileName))
            ∧ readConfigLine σ = .ok (false, σ1)
            ∧ s2 = { σ1 with writeAppend := true }) := by
    intro σ hsd hσt hσa hσo hσs hσl hopen b1 s3 hm hres
    obtain ⟨m1, m2, m3, m4, m5⟩ := writeMergeLoop_frame hσt hmem hσo hm
    rw [hsd] at m1 m2
    obtain ⟨hb, hres⟩ := hres
    rcases hres with ⟨hb1, e⟩ | ⟨hb1, e⟩
    · subst e
      refine ⟨m1, m2, Or.inl m3, fun h1 h2 => (hopen h1 h2).elim, ?_⟩
      intro hact
      unfold appendActive at hact
      rw [m4, hσa] at hact
      simp at hact
    · subst e
      obtain ⟨r1, r2⟩ := m5 hb1
      exact ⟨m1, m2, Or.inl m3, fun h1 h2 => (hopen h1 h2).elim,
        fun _ => ⟨hb, r2, σ, s3, hσo, hσs, hsd, hσl, r1, rfl⟩⟩
  obtain hof | ⟨file, hof⟩ : s.origFile = none ∨ ∃ file, s.origFile = some file := by
    cases s.origFile <;> simp
  · rw [hof] at h
    simp only [Option.isNone_none, if_true] at h
    rcases hoc : openConfigFile fileName s with f | ⟨b0, σ⟩
    · rw [hoc] at h
      simp at h
    · rw [hoc] at h
      obtain ⟨c1, c2, c3, c4, c5⟩ := openConfigFile_frame hoc
      rcases b0 with _ | _
      · simp only [Except.ok.injEq, Prod.mk.injEq] at h
        obtain ⟨h1, h2⟩ := h
        subst h1 h2
        refine ⟨sameOps_eq c1, othersKept_eq c1, Or.inr rfl, fun _ _ => ⟨rfl, rfl, c1⟩, ?_⟩
        intro hact
        simp [appendActive] at hact
      · simp only at h
        rcases hm : writeMergeLoop (fuelOf σ) σ with f | ⟨b1, s3⟩
        · rw [hm] at h
          simp at h
        · rw [hm] at h
          refine tail σ c1 (c2.trans ht) (c3.trans ha) (c4 rfl).1
            (fun e => by rw [hof] at e; simp at e) (fun _ => (c4 rfl).2)
            (fun _ h2 => by simpa using c5 h2) b1 s3 hm ?_
          rcases b1 with _ | _
          · simp only [Except.ok.injEq, Prod.mk.injEq] at h
            exact ⟨h.1.symm, Or.inr ⟨rfl, h.2.symm⟩⟩
          · simp only [Except.ok.injEq, Prod.mk.injEq] at h
            exact ⟨h.1.symm, Or.inl ⟨rfl, h.2.symm⟩⟩
  · rw [hof] at h
    simp only [Option.isNone_some, Bool.false_eq_true, if_false] at h
    rcases hm : writeMergeLoop (fuelOf s) s with f | ⟨b1, s3⟩
    · rw [hm] at h
      simp at h
    · rw [hm] at h
      refine tail s rfl ht ha (by rw [hof]; rfl) (fun _ => rfl)
        (fun e => by rw [hof] at e; simp at e) (fun e => by rw [hof] at e; simp at e) b1 s3 hm ?_
      rcases b1 with _ | _
      · simp only [Except.ok.injEq, Prod.mk.injEq] at h
        exact ⟨h.1.symm, Or.inr ⟨rfl, h.2.symm⟩⟩
      · simp only [Except.ok.injEq, Prod.mk.injEq] at h
        exact ⟨h.1.symm, Or.inl ⟨rfl, h.2.symm⟩⟩

theorem appendActive_false_iff {s : SdConfigFile} {t : List Nat} (ht : s.tempFile = some t) :
    appendActive s = s.writeAppend := by
  unfold appendActive
  rw [ht]
  simp

/-- A call of `write` that is not entered with the append phase active. -/
theorem write_merge_frame {fileName : List Nat} {s s2 : SdConfigFile} {b : Bool}
    (hinv : ∀ t, s.tempFile = some t → t ∈ tempNames) (hact : appendActive s = false)
    (h : write fileName s = .ok (b, s2)) :
    SameOps s.sd s2.sd ∧ OthersKept s.sd s2.sd ∧ (∀ t, s2.tempFile = some t → t ∈ tempNames)
      ∧ (cstrOf fileName ∉ tempNames → s.origFile = none →
          (SdFat.lookup s.sd.files (cstrOf fileName) = none ∨ s.sd.openReadOk = false) →
          b = false ∧ s2.tempFile = none
            ∧ (s.tempFile.isSome = true → s2.sd = s.sd)
            ∧ (s.tempFile = none → ∃ b1 s1, openTempFile s = .ok (b1, s1) ∧ s2.sd = s1.sd))
      ∧ (appendActive s2 = true → b = true ∧ s2.origFile = none
          ∧ ∃ σ σ1, σ.origFile.isSome = true
            ∧ (s.tempFile.isSome = true → s.origFile.isSome = true → σ = s)
            ∧ OthersKept s.sd σ.sd
            ∧ (s.origFile.isSome = true → σ.origFile = s.origFile)
            ∧ (s.origFile = none → σ.origFile = SdFat.lookup σ.sd.files (cstrOf fileName))
            ∧ readConfigLine σ = .ok (false, σ1) ∧ s2 = { σ1 with writeAppend := true }) := by
  unfold write at h
  obtain htf | ⟨t, htf⟩ : s.tempFile = none ∨ ∃ t, s.tempFile = some t := by
    cases s.tempFile <;> simp
  · rw [htf] at h
    simp only [Option.isNone_none, if_true] at h
    rcases hot : openTempFile s with f | ⟨b0, s1⟩
    · rw [hot] at h
      simp at h
    · rw [hot] at h
      obtain ⟨a1, a2, a3, a4, a5, a6⟩ := openTempFile_frame hot
      rcases b0 with _ | _
      · simp only [Except.ok.injEq, Prod.mk.injEq] at h
        obtain ⟨h1, h2⟩ := h
        subst h1 h2
        have e : s1.tempFile = none := (a6 rfl).trans htf
        refine ⟨a1, a2, ?_, fun _ _ _ => ⟨rfl, e, fun e1 => by rw [htf] at e1; simp at e1,
          fun _ => ⟨false, s1, rfl, rfl⟩⟩, ?_⟩
        · intro u hu
          simp only [e] at hu
          simp at hu
        · intro hact2
          simp [appendActive, e] at hact2
      · simp only at h
        obtain ⟨t, hmem, hs1t⟩ := a5 rfl
        obtain ⟨w1, w2, w3, w4, w5⟩ :=
          writeStep_merge (s := { s1 with writeAppend := false, currentPos := none }) rfl hs1t
            hmem h
        simp only at w1 w2 w4 w5
        refine ⟨sameOps_trans a1 w1, othersKept_trans a2 w2, ?_, ?_, ?_⟩
        · intro u hu
          rcases w3 with e | e
          · rw [e] at hu
            cases hu
            exact hmem
          · rw [e] at hu
            simp at hu
        · intro hp ho hfail
          have hfail1 : SdFat.lookup s1.sd.files (cstrOf fileName) = none
              ∨ s1.sd.openReadOk = false := by
            rcases hfail with e | e
            · exact Or.inl ((a2 _ hp).trans e)
            · exact Or.inr (a1.2.1.trans e)
          obtain ⟨x1, x2, x3⟩ := w4 (a3.trans ho) hfail1
          exact ⟨x1, x2, fun e1 => by rw [htf] at e1; simp at e1, fun _ => ⟨true, s1, rfl, x3⟩⟩
        · intro hact2
          obtain ⟨y1, y2, σ, σ1, y3, y6, y7, y8, y4, y5⟩ := w5 hact2
          refine ⟨y1, y2, σ, σ1, y3, fun e => by rw [htf] at e; simp at e, ?_, ?_, ?_, y4, y5⟩
          · rw [y7]
            exact a2
          · intro e
            rw [y6 (a3.symm ▸ e)]
            exact a3
          · intro e
            rw [y8 (a3.trans e), y7]
  · rw [htf] at h
    simp only [Option.isNone_some, Bool.false_eq_true, if_false] at h
    have ha : s.writeAppend = false := by
      rw [← appendActive_false_iff htf]
      exact hact
    obtain ⟨w1, w2, w3, w4, w5⟩ := writeStep_merge ha htf (hinv t htf) h
    refine ⟨w1, w2, ?_, ?_, ?_⟩
    · intro u hu
      rcases w3 with e | e
      · rw [e] at hu
        cases hu
        exact hinv t htf
      · rw [e] at hu
        simp at hu
    · intro _ ho hfail
      obtain ⟨x1, x2, x3⟩ := w4 ho hfail
      exact ⟨x1, x2, fun _ => x3, fun e1 => by rw [htf] at e1; simp at e1⟩
    · intro hact2
      obtain ⟨y1, y2, σ, σ1, y3, y4, y7, y8, y5, y6⟩ := w5 hact2
      refine ⟨y1, y2, σ, σ1, y3, fun _ e => y4 e, othersKept_eq y7, ?_, ?_, y5, y6⟩
      · intro e
        rw [y4 e]
      · intro e
        rw [y8 e, y7]

/-- A call of `write` that is entered with the append phase active is the commit. -/
theorem write_commit_eq {s : SdConfigFile} (fileName : List Nat) (hact : appendActive s = true) :
    write fileName s = .ok (writeCommit fileName s) := by
  unfold appendActive at hact
  simp only [Bool.and_eq_true] at hact
  exact write_append_eq fileName hact.2 hact.1

theorem rename_sameOps (sd : SdFat) (a b : List Nat) : SameOps sd (sd.rename a b).2 := by
  unfold SdFat.rename
  split
  · exact ⟨rfl, rfl, rfl, rfl, rfl⟩
  · exact sameOps_refl _

/-- The commit leaves the oracles of the card as they are and closes the temporary file. -/
theorem writeCommit_frame (fileName : List Nat) (s : SdConfigFile) :
    SameOps s.sd (writeCommit fileName s).2.sd ∧ (writeCommit fileName s).2.tempFile = none
      ∧ (writeCommit fileName s).1 = false := by
  have hrem : SameOps s.sd (s.sd.remove (cstrOf fileName)).2 := by
    unfold SdFat.remove
    split
    · exact ⟨rfl, rfl, rfl, rfl, rfl⟩
    · exact sameOps_refl _
  unfold writeCommit
  refine ⟨?_, rfl, rfl⟩
  simp only
  split
  · split
    · exact hrem
    · split
      · exact sameOps_trans hrem (rename_sameOps _ _ _)
      · exact sameOps_trans hrem (rename_sameOps _ _ _)
  · exact hrem

/-- The method `set` changes the card only by adding bytes to the temporary file. -/
theorem setText_frame {itemName valueText : List Nat} {s s2 : SdConfigFile} {b : Bool}
    (hinv : ∀ t, s.tempFile = some t → t ∈ tempNames)
    (h : setText itemName valueText s = .ok (b, s2)) :
    SameOps s.sd s2.sd ∧ OthersKept s.sd s2.sd ∧ s2.tempFile = s.tempFile
      ∧ s2.writeAppend = s.writeAppend ∧ s2.origFile = s.origFile := by
  unfold setText at h
  split at h
  · rename_i hc
    obtain ⟨_, hts⟩ := hc
    obtain ⟨t, ht⟩ := Option.isSome_iff_exists.1 hts
    simp only [Except.ok.injEq, Prod.mk.injEq] at h
    obtain ⟨_, h⟩ := h
    subst h
    have hm := hinv t ht
    have e : (((s.tempPrint (cstrOf itemName)).tempPrint [61]).tempPrint
        (valueText ++ Print.newline)).sd
        = s.sd.append t (cstrOf itemName ++ ([61] ++ (valueText ++ Print.newline))) := by
      show ((s.tempPrint (cstrOf itemName)).tempPrint [61]).tempOut _ = _
      rw [tempOut_tempPrint, tempOut_tempPrint, tempOut_open ht]
    rw [e]
    exact ⟨(append_kept _ hm _).1, (append_kept _ hm _).2, rfl, rfl, rfl⟩
  · split at h
    · simp at h
    · rename_i s1 hc
      obtain ⟨g1, _, g3, g4, _, _, g7, _⟩ := checkItemName_frame hc
      simp only [Except.ok.injEq, Prod.mk.injEq] at h
      obtain ⟨_, h⟩ := h
      subst h
      exact ⟨sameOps_eq g1, othersKept_eq g1, g4, g7, g3⟩
    · rename_i s1 hc
      obtain ⟨g1, _, g3, g4, _, _, g7, _⟩ := checkItemName_frame hc
      simp only [Except.ok.injEq, Prod.mk.injEq] at h
      obtain ⟨_, h⟩ := h
      subst h
      exact ⟨sameOps_eq g1, othersKept_eq g1, g4, g7, g3⟩

theorem get_int_frame {itemName : List Nat} {x y : Int} {s s2 : SdConfigFile} {b : Bool}
    (h : get_int itemName x s = .ok (b, y, s2)) :
    s2.sd = s.sd ∧ s2.tempFile = s.tempFile ∧ s2.writeAppend = s.writeAppend := by
  unfold get_int at h
  split at h
  · simp at h
  · rename_i s1 hc
    obtain ⟨g1, _, _, g4, _, _, g7, _⟩ := checkItemName_frame hc
    split at h
    · simp at h
    · simp only [Except.ok.injEq, Prod.mk.injEq] at h
      obtain ⟨_, _, h⟩ := h
      subst h
      exact ⟨g1, g4, g7⟩
  · rename_i s1 hc
    obtain ⟨g1, _, _, g4, _, _, g7, _⟩ := checkItemName_frame hc
    simp only [Except.ok.injEq, Prod.mk.injEq] at h
    obtain ⟨_, _, h⟩ := h
    subst h
    exact ⟨g1, g4, g7⟩

theorem get_long_frame {itemName : List Nat} {x y : Int} {s s2 : SdConfigFile} {b : Bool}
    (h : get_long itemName x s = .ok (b, y, s2)) :
    s2.sd = s.sd ∧ s2.tempFile = s.tempFile ∧ s2.writeAppend = s.writeAppend := by
  unfold get_long at h
  split at h
  · simp at h
  · rename_i s1 hc
    obtain ⟨g1, _, _, g4, _, _, g7, _⟩ := checkItemName_frame hc
    split at h
    · simp at h
    · simp only [Except.ok.injEq, Prod.mk.injEq] at h
      obtain ⟨_, _, h⟩ := h
      subst h
      exact ⟨g1, g4, g7⟩
  · rename_i s1 hc
    obtain ⟨g1, _, _, g4, _, _, g7, _⟩ := checkItemName_frame hc
    simp only [Except.ok.injEq, Prod.mk.injEq] at h
    obtain ⟨_, _, h⟩ := h
    subst h
    exact ⟨g1, g4, g7⟩

theorem get_bool_frame {itemName : List Nat} {x y : Bool} {s s2 : SdConfigFile} {b : Bool}
    (h : get_bool itemName x s = .ok (b, y, s2)) :
    s2.sd = s.sd ∧ s2.tempFile = s.tempFile ∧ s2.writeAppend = s.writeAppend := by
  unfold get_bool at h
  split at h
  · simp at h
  · rename_i s1 hc
    obtain ⟨g1, _, _, g4, _, _, g7, _⟩ := checkItemName_frame hc
    split at h
    · simp at h
    · split at h <;> simp only [Except.ok.injEq, Prod.mk.injEq] at h <;> obtain ⟨_, _, h⟩ := h
        <;> subst h <;> exact ⟨g1, g4, g7⟩
  · rename_i s1 hc
    obtain ⟨g1, _, _, g4, _, _, g7, _⟩ := checkItemName_frame hc
    simp only [Except.ok.injEq, Prod.mk.injEq] at h
    obtain ⟨_, _, h⟩ := h
    subst h
    exact ⟨g1, g4, g7⟩

theorem get_chars_frame {itemName dst d : List Nat} {maxLength : Int} {s s2 : SdConfigFile}
    {b : Bool} (h : get_chars itemName dst maxLength s = .ok (b, d, s2)) :
    s2.sd = s.sd ∧ s2.tempFile = s.tempFile ∧ s2.writeAppend = s.writeAppend := by
  unfold get_chars at h
  split at h
  · simp at h
  · rename_i s1 hc
    obtain ⟨g1, _, _, g4, _, _, g7, _⟩ := checkItemName_frame hc
    split at h
    · simp at h
    · simp only at h
      split_ifs at h
      all_goals first
        | (simp at h; done)
        | (simp only [Except.ok.injEq, Prod.mk.injEq] at h
           obtain ⟨_, _, h⟩ := h
           subst h
           exact ⟨g1, g4, g7⟩)
  · rename_i s1 hc
    obtain ⟨g1, _, _, g4, _, _, g7, _⟩ := checkItemName_frame hc
    simp only [Except.ok.injEq, Prod.mk.injEq] at h
    obtain ⟨_, _, h⟩ := h
    subst h
    exact ⟨g1, g4, g7⟩

theorem get_String_frame {itemName x y : List Nat} {s s2 : SdConfigFile} {b : Bool}
    (h : get_String itemName x s = .ok (b, y, s2)) :
    s2.sd = s.sd ∧ s2.tempFile = s.tempFile ∧ s2.writeAppend = s.writeAppend := by
  unfold get_String at h
  split at h
  · simp at h
  · rename_i s1 hc
    obtain ⟨g1, _, _, g4, _, _, g7, _⟩ := checkItemName_frame hc
    split at h
    · simp at h
    · simp only [Except.ok.injEq, Prod.mk.injEq] at h
      obtain ⟨_, _, h⟩ := h
      subst h
      exact ⟨g1, g4, g7⟩
  · rename_i s1 hc
    obtain ⟨g1, _, _, g4, _, _, g7, _⟩ := checkItemName_frame hc
    simp only [Except.ok.injEq, Prod.mk.injEq] at h
    obtain ⟨_, _, h⟩ := h
    subst h
    exact ⟨g1, g4, g7⟩

/-- In a write session the handle of the temporary file, when open, is on a file with a
temp-file name. -/
theorem inSession_temp {fileName : List Nat} {s : SdConfigFile} (hs : InSession fileName s) :
    ∀ t, s.tempFile = some t → t ∈ tempNames := by
  induction hs with
  | constructed sd lineBuffer equalsSplit =>
    intro t ht
    simp [SdConfigFile.new] at ht
  | byWrite hs h ih =>
    rename_i s s2 b
    by_cases hact : appendActive s = true
    · rw [write_commit_eq fileName hact] at h
      simp only [Except.ok.injEq] at h
      intro t ht
      have := (writeCommit_frame fileName s).2.1
      rw [h] at this
      simp only at this
      rw [this] at ht
      simp at ht
    · exact (write_merge_frame ih (by simpa using hact) h).2.2.1
  | bySet hs h ih =>
    intro t ht
    rw [(setText_frame ih h).2.2.1] at ht
    exact ih t ht
  | byGetInt hs h ih =>
    intro t ht
    rw [(get_int_frame h).2.1] at ht
    exact ih t ht
  | byGetLong hs h ih =>
    intro t ht
    rw [(get_long_frame h).2.1] at ht
    exact ih t ht
  | byGetBool hs h ih =>
    intro t ht
    rw [(get_bool_frame h).2.1] at ht
    exact ih t ht
  | byGetChars hs h ih =>
    intro t ht
    rw [(get_chars_frame h).2.1] at ht
    exact ih t ht
  | byGetString hs h ih =>
    intro t ht
    rw [(get_String_frame h).2.1] at ht
    exact ih t ht

end SdConfigFile

/-! ## A second write session on the committed file -/

namespace SdConfigFile
open Libc

theorem trim_head (t : List Nat) : (Spec.trim t).head? ≠ some 32 := by
  intro e
  unfold Spec.trim at e
  obtain ⟨r, hr⟩ := List.rdropWhile_prefix discardChar (t.dropWhile (· = 32))
  have h := List.head?_dropWhile_not (· = 32) t
  rcases hx : (t.dropWhile (· = 32)).rdropWhile discardChar with _ | ⟨x, xs⟩
  · rw [hx] at e
    simp at e
  · rw [hx] at e hr
    simp only [List.head?_cons, Option.some.injEq] at e
    subst e
    rw [← hr] at h
    simp at h

theorem trim_last (t : List Nat) : ∀ x, (Spec.trim t).getLast? = some x → discardChar x = false := by
  intro x hx
  unfold Spec.trim at hx
  have hne : (t.dropWhile (· = 32)).rdropWhile discardChar ≠ [] := by
    intro e
    rw [e] at hx
    simp at hx
  have h := List.rdropWhile_last_not discardChar (t.dropWhile (· = 32)) hne
  rw [List.getLast?_eq_getLast _ hne] at hx
  simp only [Option.some.injEq] at hx
  rw [hx] at h
  simpa using h

theorem trim_trim (t : List Nat) : Spec.trim (Spec.trim t) = Spec.trim t :=
  trim_eq_self (trim_head t) (trim_last t)

/-- A write session that sets one key leaves the oracles of the card as they are. -/
theorem writeSessionLoop_ops (fileName name text : List Nat) (fuel : Nat) :
    ∀ s fin : SdConfigFile, (∀ t, s.tempFile = some t → t ∈ tempNames) →
      writeSessionLoop fileName (setCallback name text) fuel s = .ok fin → SameOps s.sd fin.sd := by
  induction fuel with
  | zero =>
    intro s fin _ h
    unfold writeSessionLoop at h
    simp at h
  | succ fuel ih =>
    intro s fin hinv h
    unfold writeSessionLoop at h
    rcases hw : write fileName s with f | ⟨b, s1⟩
    · rw [hw] at h
      simp at h
    · rw [hw] at h
      have hframe : SameOps s.sd s1.sd
          ∧ (b = true → ∀ t, s1.tempFile = some t → t ∈ tempNames) := by
        by_cases hact : appendActive s = true
        · rw [write_commit_eq fileName hact] at hw
          simp only [Except.ok.injEq] at hw
          have hc := writeCommit_frame fileName s
          rw [hw] at hc
          simp only at hc
          exact ⟨hc.1, fun e => by rw [hc.2.2] at e; simp at e⟩
        · obtain ⟨w1, _, w3, _⟩ := write_merge_frame hinv (by simpa using hact) hw
          exact ⟨w1, fun _ => w3⟩
      rcases b with _ | _
      · simp only [Except.ok.injEq] at h
        subst h
        exact hframe.1
      · simp only at h
        unfold setCallback at h
        rcases hs : setText name text s1 with f | ⟨b2, s2⟩
        · rw [hs] at h
          simp at h
        · rw [hs] at h
          simp only at h
          obtain ⟨f1, _, f3, _⟩ := setText_frame (hframe.2 rfl) hs
          have hinv2 : ∀ t, s2.tempFile = some t → t ∈ tempNames := by
            intro t ht
            rw [f3] at ht
            exact hframe.2 rfl t ht
          exact sameOps_trans hframe.1 (sameOps_trans f1 (ih s2 fin hinv2 h))

theorem chunk_no_cr {l : List Nat} (h : FitLine l) : 13 ∉ Spec.removeCR l := by
  obtain ⟨cb, hc, _, _, h13, _⟩ := fitLine_chunk h
  rw [hc]
  simp [h13]

/-- A parameter line that the merge has written again reads, without its carriage return, as
trimmed key, `=`, trimmed value token, line feed. -/
theorem removeCR_merged {c : List Nat} (h13 : 13 ∉ c) :
    Spec.removeCR (Spec.trim (Spec.tokKey c) ++ [61] ++ Spec.trim (Spec.tokKey (Spec.tokRest c))
      ++ Print.newline) = Spec.rewritten c := by
  have hK : 13 ∉ Spec.trim (Spec.tokKey c) :=
    fun hm => h13 ((tokKey_inside c).subset (trim_subset hm))
  have hV : 13 ∉ Spec.trim (Spec.tokKey (Spec.tokRest c)) :=
    fun hm => h13 ((tokRest_suffix c).subset ((tokKey_inside _).subset (trim_subset hm)))
  rw [removeCR_made hK hV]
  unfold Spec.rewritten
  simp

/-- The merge writes a line that it has written before in the same way again. -/
theorem mergeLine_rewritten (name : List Nat) {c : List Nat}
    (hne : Spec.trim (Spec.tokKey c) ≠ [])
    (hm : ¬ (cstrOf name = Spec.trim (Spec.tokKey c) ∧ Spec.trim (Spec.tokKey c) ≠ []))
    (hkeep : Spec.isParam (Spec.rewritten c) = true) :
    Spec.mergeLine name (Spec.rewritten c)
      = Spec.trim (Spec.tokKey c) ++ [61] ++ Spec.trim (Spec.tokKey (Spec.tokRest c))
        ++ Print.newline := by
  obtain ⟨t1, t2⟩ := rewritten_tokens hne
  have h61 : 61 ∉ Spec.trim (Spec.tokKey (Spec.tokRest c)) ++ [10] := by
    intro hmem
    simp only [List.mem_append, List.mem_singleton] at hmem
    rcases hmem with hmem | hmem
    · exact tokKey_no_eq _ (trim_subset hmem)
    · simp at hmem
  unfold Spec.mergeLine
  rw [if_pos hkeep, t1, t2, trim_trim, if_neg hm, tokKey_of_no_eq h61, trim_lf, trim_trim]

/-- A line of the new file is a fixed point of the merge, taken without its carriage
returns. -/
theorem mergeLine_fix (name : List Nat) {l : List Nat} (hk : KeyedLine l)
    (hgood : Spec.isParam (Spec.removeCR l) = true →
      ¬ (cstrOf name = Spec.trim (Spec.tokKey (Spec.removeCR l))
        ∧ Spec.trim (Spec.tokKey (Spec.removeCR l)) ≠ []) →
      Spec.trim (Spec.tokKey (Spec.removeCR l)) ≠ []
        ∧ Spec.isParam (Spec.rewritten (Spec.removeCR l)) = true) :
    Spec.mergeLine name (Spec.removeCR (Spec.mergeLine name (Spec.removeCR l)))
      = Spec.mergeLine name (Spec.removeCR l) := by
  by_cases hpar : Spec.isParam (Spec.removeCR l) = true
  · by_cases hm : cstrOf name = Spec.trim (Spec.tokKey (Spec.removeCR l))
        ∧ Spec.trim (Spec.tokKey (Spec.removeCR l)) ≠ []
    · have e : Spec.mergeLine name (Spec.removeCR l) = [] := by
        unfold Spec.mergeLine
        rw [if_pos hpar, if_pos hm]
      rw [e]
      rfl
    · obtain ⟨hne, hkeep⟩ := hgood hpar hm
      have e : Spec.mergeLine name (Spec.removeCR l)
          = Spec.trim (Spec.tokKey (Spec.removeCR l)) ++ [61]
            ++ Spec.trim (Spec.tokKey (Spec.tokRest (Spec.removeCR l))) ++ Print.newline := by
        unfold Spec.mergeLine
        rw [if_pos hpar, if_neg hm]
      rw [e, removeCR_merged (chunk_no_cr hk.1), mergeLine_rewritten name hne hm hkeep]
  · have e : Spec.mergeLine name (Spec.removeCR l) = Spec.removeCR l := by
      unfold Spec.mergeLine
      rw [if_neg hpar]
    rw [e, removeCR_idem, e]

/-- A line of the new file fits and has a byte before its first `=`. -/
theorem keyedLine_mergeLine (name : List Nat) {l : List Nat} (hk : KeyedLine l)
    (hgood : Spec.isParam (Spec.removeCR l) = true →
      ¬ (cstrOf name = Spec.trim (Spec.tokKey (Spec.removeCR l))
        ∧ Spec.trim (Spec.tokKey (Spec.removeCR l)) ≠ []) →
      Spec.trim (Spec.tokKey (Spec.removeCR l)) ≠ []
        ∧ Spec.isParam (Spec.rewritten (Spec.removeCR l)) = true)
    (hne : Spec.mergeLine name (Spec.removeCR l) ≠ []) :
    KeyedLine (Spec.mergeLine name (Spec.removeCR l)) := by
  rcases fitLine_mergeLine name hk with h | hfit
  · exact absurd h hne
  · refine ⟨hfit, ?_⟩
    by_cases hpar : Spec.isParam (Spec.removeCR l) = true
    · by_cases hm : cstrOf name = Spec.trim (Spec.tokKey (Spec.removeCR l))
          ∧ Spec.trim (Spec.tokKey (Spec.removeCR l)) ≠ []
      · have e : Spec.mergeLine name (Spec.removeCR l) = [] := by
          unfold Spec.mergeLine
          rw [if_pos hpar, if_pos hm]
        exact absurd e hne
      · obtain ⟨hkne, _⟩ := hgood hpar hm
        have e : Spec.mergeLine name (Spec.removeCR l)
            = Spec.trim (Spec.tokKey (Spec.removeCR l)) ++ [61]
              ++ Spec.trim (Spec.tokKey (Spec.tokRest (Spec.removeCR l)))
              ++ Print.newline := by
          unfold Spec.mergeLine
          rw [if_pos hpar, if_neg hm]
        rw [e, removeCR_merged (chunk_no_cr hk.1)]
        intro _
        unfold Spec.rewritten
        have h61 : 61 ∉ Spec.trim (Spec.tokKey (Spec.removeCR l)) :=
          fun hmem => tokKey_no_eq _ (trim_subset hmem)
        rcases hx : Spec.trim (Spec.tokKey (Spec.removeCR l)) with _ | ⟨x, xs⟩
        · exact absurd hx hkne
        · rw [hx] at h61
          have : x ≠ 61 := fun e => h61 (by simp [e])
          simpa using this
    · have e : Spec.mergeLine name (Spec.removeCR l) = Spec.removeCR l := by
        unfold Spec.mergeLine
        rw [if_neg hpar]
      rw [e, removeCR_idem]
      exact hk.2

/-- The merge of a second session leaves the appended line `name=text` of the first out. -/
theorem mergeLine_lastLine {name text : List Nat} (hkey : GoodKey name) (ht : text ≠ [])
    (h13 : 13 ∉ text) :
    Spec.mergeLine name (Spec.removeCR (cstrOf name ++ [61] ++ text ++ Print.newline)) = [] := by
  rw [lastLine_removeCR hkey h13]
  unfold Spec.mergeLine
  rw [if_pos (lastLine_isParam hkey ht), tokKey_made _ hkey.1 hkey.2.2.1, goodKey_trim hkey,
    goodKey_cstrOf hkey, if_pos ⟨rfl, hkey.1⟩]

theorem keyedLine_lastLine {name text : List Nat} (hkey : GoodKey name) (h0 : 0 ∉ text)
    (h10 : 10 ∉ text) (h13 : 13 ∉ text)
    (hlen : name.length + 1 + text.length + 1 < SDCONFIG_BUFFER_LENGTH) :
    KeyedLine (cstrOf name ++ [61] ++ text ++ Print.newline) := by
  refine ⟨lastLine_fit hkey h0 h10 h13 hlen, fun _ => ?_⟩
  rw [lastLine_removeCR hkey h13]
  obtain ⟨hne, _, h61, _⟩ := hkey
  rcases name with _ | ⟨x, xs⟩
  · exact absurd rfl hne
  · have : x ≠ 61 := fun e => h61 (by simp [e])
    simpa using this

/-- The lines of the new file, those left out by the merge dropped. -/
theorem newLines_keyed {name text : List Nat} {ls : List (List Nat)}
    (hk : ∀ l ∈ ls, KeyedLine l) (hkey : GoodKey name)
    (hgood : ∀ l ∈ ls, Spec.isParam (Spec.removeCR l) = true →
      ¬ (cstrOf name = Spec.trim (Spec.tokKey (Spec.removeCR l))
        ∧ Spec.trim (Spec.tokKey (Spec.removeCR l)) ≠ []) →
      Spec.trim (Spec.tokKey (Spec.removeCR l)) ≠ []
        ∧ Spec.isParam (Spec.rewritten (Spec.removeCR l)) = true)
    (h0 : 0 ∉ text) (h10 : 10 ∉ text) (h13 : 13 ∉ text)
    (hlen : name.length + 1 + text.length + 1 < SDCONFIG_BUFFER_LENGTH) :
    ∀ x ∈ (Spec.newLines name text ls).filter (fun l => !decide (l = [])), KeyedLine x := by
  intro x hx
  rw [List.mem_filter] at hx
  obtain ⟨hx, hne⟩ := hx
  have hne : x ≠ [] := by simpa using hne
  unfold Spec.newLines at hx
  rw [List.mem_append, List.mem_map, List.mem_singleton] at hx
  rcases hx with ⟨l, hl, rfl⟩ | rfl
  · exact keyedLine_mergeLine name (hk l hl) (hgood l hl) hne
  · exact keyedLine_lastLine hkey h0 h10 h13 hlen

/-- A second session that sets the same key to the same value commits the same bytes. -/
theorem committed_again {name text : List Nat} {ls : List (List Nat)}
    (hk : ∀ l ∈ ls, KeyedLine l) (hkey : GoodKey name)
    (hgood : ∀ l ∈ ls, Spec.isParam (Spec.removeCR l) = true →
      ¬ (cstrOf name = Spec.trim (Spec.tokKey (Spec.removeCR l))
        ∧ Spec.trim (Spec.tokKey (Spec.removeCR l)) ≠ []) →
      Spec.trim (Spec.tokKey (Spec.removeCR l)) ≠ []
        ∧ Spec.isParam (Spec.rewritten (Spec.removeCR l)) = true)
    (ht : text ≠ []) (h13 : 13 ∉ text) :
    Spec.committed name text ((Spec.newLines name text ls).filter (fun l => !decide (l = [])))
      = Spec.committed name text ls := by
  have hlast : cstrOf name ++ [61] ++ text ++ Print.newline ≠ [] := by
    simp [Print.newline]
  have hmap : ((ls.map (fun l => Spec.mergeLine name (Spec.removeCR l))).filter
        (fun l => !decide (l = []))).map (fun l => Spec.mergeLine name (Spec.removeCR l))
      = (ls.map (fun l => Spec.mergeLine name (Spec.removeCR l))).filter
        (fun l => !decide (l = [])) := by
    conv_rhs => rw [← List.map_id ((ls.map (fun l => Spec.mergeLine name (Spec.removeCR l))).filter
      (fun l => !decide (l = [])))]
    apply List.map_congr_left
    intro x hx
    rw [List.mem_filter, List.mem_map] at hx
    obtain ⟨⟨l, hl, rfl⟩, _⟩ := hx
    exact mergeLine_fix name (hk l hl) (hgood l hl)
  unfold Spec.committed
  conv_lhs => unfold Spec.newLines
  rw [List.filter_append, List.map_append, hmap]
  simp only [List.filter_cons, hlast, decide_False, Bool.not_false, if_true, List.filter_nil,
    List.map_cons, List.map_nil, mergeLine_lastLine hkey ht h13, List.flatten_append,
    List.flatten_cons, List.flatten_nil, List.nil_append, List.append_nil]
  unfold Spec.newLines
  rw [List.flatten_append, flatten_filter_ne_nil]
  simp

end SdConfigFile

/-! ## Lines that do not fit the buffer -/

namespace SdConfigFile
open Libc

theorem getLast?_cons_ne_nil {x : Nat} {c : List Nat} (h : c ≠ []) :
    (x :: c).getLast? = c.getLast? := by
  rcases c with _ | ⟨y, c⟩
  · exact absurd rfl h
  · simp [List.getLast?_cons_cons]

/-- A chunk that fills the buffer is read as it stands, without its carriage returns; `fgets`
stops behind it. -/
theorem fgets_full (c rest : List Nat) : ∀ room : Nat, 10 ∉ c →
    (Spec.removeCR c).length = room → c.getLast? ≠ some 13 →
    SdFat.fgets room (c ++ rest) = (Spec.removeCR c, rest) := by
  induction c with
  | nil =>
    intro room _ hlen _
    have hr : room = 0 := by simpa [Spec.removeCR] using hlen.symm
    subst hr
    rcases rest with _ | ⟨r, rest⟩
    · simp [SdFat.fgets, Spec.removeCR]
    · simp [SdFat.fgets, Spec.removeCR]
  | cons ch c ih =>
    intro room h10 hlen hlast
    have h10c : 10 ∉ c := fun h => h10 (List.mem_cons_of_mem _ h)
    have hch : ch ≠ 10 := fun h => h10 (by simp [h])
    have hlastc : c.getLast? ≠ some 13 := by
      by_cases hc : c = []
      · rw [hc]
        simp
      · rw [← getLast?_cons_ne_nil hc]
        exact hlast
    simp only [List.cons_append]
    by_cases h13 : ch = 13
    · subst h13
      rw [removeCR_cons_cr] at hlen ⊢
      have hcne : c ≠ [] := by
        intro hc
        rw [hc] at hlast
        simp at hlast
      have hroom : room ≠ 0 := by
        intro h0
        rw [h0] at hlen
        have hnil : Spec.removeCR c = [] := List.length_eq_zero.1 hlen
        obtain ⟨Y, x, hx⟩ : ∃ Y x, c = Y ++ [x] := by
          rcases nil_or_snoc c with h | h
          · exact absurd h hcne
          · exact h
        rw [hx, List.getLast?_concat] at hlastc
        have hx13 : x ≠ 13 := fun e => hlastc (by rw [e])
        have : x ∈ Spec.removeCR c := by
          rw [hx]
          unfold Spec.removeCR
          simp [hx13]
        rw [hnil] at this
        simp at this
      unfold SdFat.fgets
      rw [if_neg hroom, if_pos rfl]
      exact ih room h10c hlen hlastc
    · rw [removeCR_cons_other _ h13] at hlen ⊢
      simp only [List.length_cons] at hlen
      unfold SdFat.fgets
      rw [if_neg (by omega), if_neg h13, if_neg hch, ih (room - 1) h10c (by omega) hlastc]

theorem fullChunk_clean {c : List Nat} (h : FullChunk c) :
    10 ∉ Spec.removeCR c ∧ 0 ∉ Spec.removeCR c ∧ 13 ∉ Spec.removeCR c
      ∧ (Spec.removeCR c).length = SDCONFIG_BUFFER_LENGTH - 1 := by
  obtain ⟨h10, h0, hlen, _⟩ := h
  refine ⟨fun hm => h10 (removeCR_mem hm), fun hm => h0 (removeCR_mem hm), ?_, hlen⟩
  intro hm
  unfold Spec.removeCR at hm
  simp at hm

theorem overflowOf_full {c : List Nat} (junk : List Nat) (hne : c ≠ []) (h10 : 10 ∉ c) :
    overflowOf (c ++ 0 :: junk) c.length = true := by
  obtain ⟨Y, x, hx⟩ : ∃ Y x, c = Y ++ [x] := by
    rcases nil_or_snoc c with h | h
    · exact absurd h hne
    · exact h
  subst hx
  have hx10 : x ≠ 10 := fun e => h10 (by simp [e])
  unfold overflowOf
  have : (Y ++ [x] ++ 0 :: junk).getD ((Y ++ [x]).length - 1) 0 = x := by
    have e : (Y ++ [x]).length - 1 = Y.length := by simp
    rw [e, List.append_assoc]
    exact getD_append_length _ _ _
  rw [this]
  simp [hx10]

/-- The first chunk of a data line that does not fit is reported as an entry: the key is the
first token of the chunk, and what follows its `=` in the chunk is what is left of the
value. -/
theorem readConfigLine_full {s s1 : SdConfigFile} {c rest : List Nat} (hc : FullChunk c)
    (hfile : s.origFile = some (c ++ rest)) (hca : s.commentActive = false)
    (hp : printLineToFile s = .ok s1) (hpar : Spec.isParam (Spec.removeCR c) = true)
    (hhead : (Spec.removeCR c).head? ≠ some 61) :
    ∃ s3 a q, readConfigLine s = .ok (true, s3)
      ∧ Entry s3 a (Spec.tokKey (Spec.removeCR c)) q (Spec.tokRest (Spec.removeCR c))
      ∧ s3.equalsSplit = true ∧ s3.origFile = some rest
      ∧ s3.commentActive = false ∧ s3.sd = s1.sd ∧ s3.serial = s1.serial
      ∧ s3.tempFile = s1.tempFile ∧ s3.writeAppend = s1.writeAppend := by
  obtain ⟨h10, h0, h13, hlen⟩ := fullChunk_clean hc
  have hlen39 : (Spec.removeCR c).length = 39 := hlen
  have hcne : Spec.removeCR c ≠ [] := by
    intro e
    rw [e] at hlen39
    simp at hlen39
  have hne : c ++ rest ≠ [] := by
    intro e
    have : c = [] := (List.append_eq_nil.1 e).1
    rw [this] at hcne
    exact hcne rfl
  obtain ⟨_, _, _, _, _, _, p6, _, _⟩ := printLineToFile_frame hp
  have hca1 : s1.commentActive = false := p6.trans hca
  unfold Spec.isParam at hpar
  simp only [Bool.and_eq_true, decide_eq_true_eq, Bool.not_eq_true'] at hpar
  obtain ⟨⟨hl3, hcm⟩, h61⟩ := hpar
  rw [readConfigLine_step hfile hne, hp]
  simp only [fgets_full c rest _ hc.1 hc.2.2.1 hc.2.2.2]
  rw [classifyChunk_eq]
  simp only
  rw [if_neg (by omega), commentAt_chunk _ _ hl3, if_neg (by simp [hca1, hcm])]
  have hv := view_chunk (Spec.removeCR c)
    (List.drop ((Spec.removeCR c).length + 1) s1.lineBuffer) h0
  have hk : Spec.tokKey (Spec.removeCR c) ≠ [] := by
    rcases hx : Spec.removeCR c with _ | ⟨x, xs⟩
    · exact absurd hx hcne
    · rw [hx] at hhead
      have hx61 : x ≠ 61 := fun e => hhead (by simp [e])
      exact tokKey_ne_nil_of_mem (x := x) (by simp) hx61
  obtain ⟨buf2, q, post, junk2, e, v1, v2, hle, _⟩ := strtokFrom_views hv hk
  simp only [e]
  have hov := overflowOf_full (List.drop ((Spec.removeCR c).length + 1) s1.lineBuffer) hcne h10
  rw [if_neg (by rw [hov]; intro hcon; simp at hcon)]
  exact ⟨_, _, q, rfl, ⟨rfl, rfl, ⟨post, v1⟩, ⟨junk2, v2⟩, hle⟩, rfl, rfl, hca1, rfl, rfl, rfl, rfl⟩

theorem piece_ne_nil {l : List Nat} (h : KeyedPiece l) : l ≠ [] := by
  rcases h with h | h
  · exact fitLine_ne_nil h.1
  · intro e
    have := h.1.2.2.1
    rw [e] at this
    simp [Spec.removeCR, SDCONFIG_BUFFER_LENGTH] at this

theorem length_le_flatten_pieces (ls : List (List Nat)) (h : ∀ l ∈ ls, KeyedPiece l) :
    ls.length ≤ ls.flatten.length := by
  induction ls with
  | nil => simp
  | cons l ls ih =>
    have h1 := List.length_pos.2 (piece_ne_nil (h l (by simp)))
    have h2 := ih (fun l' h' => h l' (by simp [h']))
    simp only [List.length_cons, List.flatten_cons, List.length_append]
    omega

/-- A piece that holds no parameter is a line that fits. -/
theorem piece_fit {l : List Nat} (h : KeyedPiece l)
    (hnp : Spec.isParam (Spec.removeCR l) = false) : FitLine l := by
  rcases h with h | h
  · exact h.1
  · rw [h.2.1] at hnp
    simp at hnp

/-- A piece that holds a parameter is reported as an entry, and has a value token. -/
theorem readConfigLine_piece {s s1 : SdConfigFile} {l rest : List Nat} (hk : KeyedPiece l)
    (hfile : s.origFile = some (l ++ rest)) (hca : s.commentActive = false)
    (hp : printLineToFile s = .ok s1) (hpar : Spec.isParam (Spec.removeCR l) = true) :
    (∃ s3 a q, readConfigLine s = .ok (true, s3)
      ∧ Entry s3 a (Spec.tokKey (Spec.removeCR l)) q (Spec.tokRest (Spec.removeCR l))
      ∧ s3.equalsSplit = true ∧ s3.origFile = some rest
      ∧ s3.commentActive = false ∧ s3.sd = s1.sd ∧ s3.serial = s1.serial
      ∧ s3.tempFile = s1.tempFile ∧ s3.writeAppend = s1.writeAppend)
    ∧ Spec.tokKey (Spec.tokRest (Spec.removeCR l)) ≠ [] := by
  rcases hk with hk | ⟨hc, _, hhead, hval⟩
  · exact ⟨readConfigLine_param hk.1 hfile hca hp hpar, keyed_value_present hk hpar⟩
  · exact ⟨readConfigLine_full hc hfile hca hp hpar hhead, hval⟩

/-- The loop of `read(fileName, callbackFunction)` over a file of pieces: the callback is run
once for each piece that holds a parameter, in file order, and for no other piece. -/
theorem readLoop_pieces {U : Type} (cb : SdConfigFile → U → Except Fault (SdConfigFile × U))
    (f : List Nat → List Nat → U → U) (hcb : ActsLike cb f) (ls : List (List Nat)) :
    (∀ l ∈ ls, KeyedPiece l) → ∀ (s : SdConfigFile) (u : U) (fuel : Nat),
      s.origFile = some ls.flatten → s.tempFile = none → s.commentActive = false →
      (Spec.params ls).length + 2 ≤ fuel →
      ∃ s2, readLoop cb fuel s u
          = .ok (s2, (Spec.params ls).foldl (fun u c => f (Spec.tokKey c) (Spec.tokRest c) u) u)
        ∧ s2.origFile = none ∧ s2.tempFile = none ∧ s2.sd = s.sd ∧ s2.serial = s.serial := by
  induction ls with
  | nil =>
    intro _ s u fuel hfile htemp _ hfuel
    obtain ⟨k, hk⟩ : ∃ k, fuel = k + 2 := ⟨fuel - 2, by omega⟩
    subst hk
    have hfile' : s.origFile = some [] := by simpa using hfile
    refine ⟨{ s with origFile := none }, ?_, rfl, htemp, rfl, rfl⟩
    unfold readLoop
    rw [hfile', readConfigLine_nil hfile', printLineToFile_closed htemp]
    simp only [Option.isSome_some, if_true]
    unfold readLoop
    simp [Spec.params]
  | cons l ls ih =>
    intro hfit s u fuel hfile htemp hca hfuel
    have hl : KeyedPiece l := hfit l (by simp)
    have hfit' : ∀ l' ∈ ls, KeyedPiece l' := fun l' h' => hfit l' (by simp [h'])
    have hfile' : s.origFile = some (l ++ ls.flatten) := by simpa using hfile
    have hp := printLineToFile_closed htemp
    obtain ⟨k, hk⟩ : ∃ k, fuel = k + 1 := ⟨fuel - 1, by omega⟩
    subst hk
    by_cases hpar : Spec.isParam (Spec.removeCR l) = true
    · obtain ⟨⟨s3, a, q, hr, he, _, e1, e2, e3, e4, e5, _⟩, _⟩ :=
        readConfigLine_piece hl hfile' hca hp hpar
      obtain ⟨s4, hc, g1, g2, g3, g4, _, g6, _, _⟩ := hcb s3 u a _ q _ he
      rw [params_cons_true ls hpar] at hfuel ⊢
      simp only [List.length_cons] at hfuel
      obtain ⟨s5, h5, k1, k2, k3, k4⟩ := ih hfit' s4 (f (Spec.tokKey (Spec.removeCR l))
        (Spec.tokRest (Spec.removeCR l)) u) k (by rw [g3]; exact e1) (by rw [g4, e5]; exact htemp)
        (by rw [g6]; exact e2) (by omega)
      refine ⟨s5, ?_, k1, k2, by rw [k3, g1, e3], by rw [k4, g2, e4]⟩
      unfold readLoop
      rw [hfile', hr]
      simp only [Option.isSome_some, if_true, he.cur, hc]
      exact h5
    · have hpar' : Spec.isParam (Spec.removeCR l) = false := by simpa using hpar
      obtain ⟨s3, hr, e1, e2, e3, e4, e5, _, _, _, _⟩ := readConfigLine_skip (piece_fit hl hpar') hfile' hca hp hpar'
      rw [params_cons_false ls hpar'] at hfuel ⊢
      obtain ⟨s5, h5, k1, k2, k3, k4⟩ := ih hfit' s3 u (k + 1) e1 (by rw [e5]; exact htemp) e2 hfuel
      refine ⟨s5, ?_, k1, k2, by rw [k3, e3], by rw [k4, e4]⟩
      rw [readLoop_congr cb k u hr (by rw [hfile']; rfl) (by rw [e1]; rfl)]
      exact h5

/-- The method `read(fileName, callbackFunction)` on a file of pieces. -/
theorem readWith_pieces {U : Type} (cb : SdConfigFile → U → Except Fault (SdConfigFile × U))
    (f : List Nat → List Nat → U → U) (hcb : ActsLike cb f) (ls : List (List Nat))
    (hfit : ∀ l ∈ ls, KeyedPiece l) (fileName : List Nat) (s : SdConfigFile) (u : U)
    (hb : s.sd.beginOk = true) (ho : s.sd.openReadOk = true)
    (hf : SdFat.lookup s.sd.files (cstrOf fileName) = some ls.flatten)
    (htemp : s.tempFile = none) :
    ∃ s2, readWith fileName cb s u
        = .ok (true, s2, (Spec.params ls).foldl (fun u c => f (Spec.tokKey c) (Spec.tokRest c) u) u)
      ∧ s2.origFile = none ∧ s2.tempFile = none ∧ s2.sd = s.sd ∧ s2.serial = s.serial := by
  have hlen : (Spec.params ls).length + 2 ≤ ls.flatten.length + 2 := by
    have := params_length_le ls
    have := length_le_flatten_pieces ls hfit
    omega
  obtain ⟨s2, h2, k1, k2, k3, k4⟩ := readLoop_pieces cb f hcb ls hfit
    { s with origFile := some ls.flatten, commentActive := false, lineOverflow := false } u
    (ls.flatten.length + 2) rfl htemp rfl hlen
  refine ⟨s2, ?_, k1, k2, k3, k4⟩
  unfold readWith
  rw [openConfigFile_ok hb ho hf]
  simp only [fuelOf]
  rw [h2]

/-- The merge of a write session whose body sets only the key `name`: from a state between two
pieces of the original file, with `T` already in the temporary file and `pend` the line that the
next call of `write` will add, the session ends with the commit of the new file. -/
theorem session_pieces (fileName name text t : List Nat) :
    ∀ (ls : List (List Nat)), (∀ l ∈ ls, KeyedPiece l) →
    ∀ (fuel : Nat) (σ σ1 : SdConfigFile) (pend T : List Nat),
      σ.tempFile = some t → σ.origFile = some ls.flatten → σ.commentActive = false →
      σ.writeAppend = false → printLineToFile σ = .ok σ1 → σ1.sd = σ.sd.append t pend →
      CardInv σ.sd (cstrOf fileName) t T → ls.length + 2 ≤ fuel →
      ∃ fin, writeSessionLoop fileName (setCallback name text) fuel σ = .ok fin
        ∧ SdFat.lookup fin.sd.files (cstrOf fileName)
            = some (T ++ pend ++ Spec.committed name text ls)
        ∧ fin.tempFile = none ∧ fin.origFile = none
        ∧ fin.sd.beginOk = true ∧ fin.sd.openReadOk = true := by
  intro ls
  induction ls with
  | nil =>
    intro _ fuel σ σ1 pend T ht ho _ hwa hp hsd hcard hfuel
    exact session_end fileName name text t ht (by simpa using ho) hwa hp hsd hcard
      (by simpa using hfuel)
  | cons l ls ih =>
    intro hk fuel σ σ1 pend T ht ho hca hwa hp hsd hcard hfuel
    obtain ⟨k, rfl⟩ : ∃ k, fuel = k + 1 := ⟨fuel - 1, by simp at hfuel; omega⟩
    have hfuel2 : ls.length + 2 ≤ k := by simp at hfuel; omega
    have hkl := hk l (List.mem_cons_self _ _)
    have hkt : ∀ x ∈ ls, KeyedPiece x := fun x hx => hk x (List.mem_cons_of_mem _ hx)
    have hfile : σ.origFile = some (l ++ ls.flatten) := by rw [ho, List.flatten_cons]
    obtain ⟨out, -, -, f3, f4, -, f6, f7, -⟩ := printLineToFile_frame hp
    have hisT : σ.tempFile.isSome = true := by rw [ht]; rfl
    have hisO : σ.origFile.isSome = true := by rw [ho]; rfl
    have hcardP : CardInv σ1.sd (cstrOf fileName) t (T ++ pend) := by
      rw [hsd]
      exact cardInv_append hcard pend
    by_cases hpar : Spec.isParam (Spec.removeCR l) = true
    · obtain ⟨⟨s3, a, q, hr, he, hes, ho3, hca3, hsd3, hser3, ht3, hwa3⟩, hval⟩ :=
        readConfigLine_piece hkl hfile hca hp hpar
      have hw : write fileName σ = .ok (true, s3) := by
        rw [write_merge_eq fileName hisT hwa hisO, hr]
      have ht3b : s3.tempFile = some t := by rw [ht3, f4, ht]
      have hwa3b : s3.writeAppend = false := by rw [hwa3, f7, hwa]
      have hcard3 : CardInv s3.sd (cstrOf fileName) t (T ++ pend) := by
        rw [hsd3]
        exact hcardP
      unfold writeSessionLoop
      rw [hw]
      simp only
      by_cases hm : cstrOf name = Spec.trim (Spec.tokKey (Spec.removeCR l))
          ∧ Spec.trim (Spec.tokKey (Spec.removeCR l)) ≠ []
      · obtain ⟨s4, v, q2, hck, -, hfr⟩ := checkItemName_entry_match he hm.1 hm.2 hval
        have hb : setCallback name text s3 = .ok { s4 with currentPos := none } := by
          unfold setCallback
          rw [setText_merge name text hwa3b, hck]
        rw [hb]
        simp only
        obtain ⟨g1, g2, g3, g4, g5, g6, g7, g8⟩ := hfr
        obtain ⟨fin, h1, h2, h3⟩ := ih hkt k { s4 with currentPos := none }
          { s4 with currentPos := none } [] (T ++ pend)
          (by show s4.tempFile = some t; rw [g4, ht3b])
          (by show s4.origFile = some ls.flatten; rw [g3, ho3])
          (by show s4.commentActive = false; rw [g6, hca3])
          (by show s4.writeAppend = false; rw [g7, hwa3b])
          (printLineToFile_null rfl)
          (by show s4.sd = s4.sd.append t []; rw [append_nil])
          (by show CardInv s4.sd _ _ _; rw [g1]; exact hcard3)
          hfuel2
        refine ⟨fin, h1, ?_, h3⟩
        rw [h2, committed_cons]
        unfold Spec.mergeLine
        rw [if_pos hpar, if_pos hm]
        simp only [List.append_nil, List.nil_append]
      · have hck := checkItemName_entry_nomatch he hm
        have hb : setCallback name text s3
            = .ok (trimmed s3 a (Spec.tokKey (Spec.removeCR l))) := by
          unfold setCallback
          rw [setText_merge name text hwa3b, hck]
        rw [hb]
        simp only
        have he2 := entry_trimmed he
        obtain ⟨s5, hp5, hsd5, -⟩ := printLineToFile_entry
          (s := trimmed s3 a (Spec.tokKey (Spec.removeCR l))) (t := t) ht3b he2 hes hval
        obtain ⟨fin, h1, h2, h3⟩ := ih hkt k (trimmed s3 a (Spec.tokKey (Spec.removeCR l))) s5
          (Spec.trim (Spec.tokKey (Spec.removeCR l)) ++ [61]
            ++ Spec.trim (Spec.tokKey (Spec.tokRest (Spec.removeCR l))) ++ Print.newline)
          (T ++ pend) ht3b ho3 hca3 hwa3b hp5 hsd5 hcard3 hfuel2
        refine ⟨fin, h1, ?_, h3⟩
        rw [h2, committed_cons]
        unfold Spec.mergeLine
        rw [if_pos hpar, if_neg hm]
        simp only [List.append_assoc]
    · have hnp : Spec.isParam (Spec.removeCR l) = false := by simpa using hpar
      obtain ⟨s3, hr, ho3, hca3, hsd3, hser3, ht3, hwa3, hcur3, hes3, junk, hview⟩ :=
        readConfigLine_skip (piece_fit hkl hnp) hfile hca hp hnp
      have ht3b : s3.tempFile = some t := by rw [ht3, f4, ht]
      have hwa3b : s3.writeAppend = false := by rw [hwa3, f7, hwa]
      have hw : write fileName σ = write fileName s3 := by
        rw [write_merge_eq fileName hisT hwa hisO,
          write_merge_eq fileName (by rw [ht3b]; rfl) hwa3b (by rw [ho3]; rfl), hr]
      rw [writeSessionLoop_congr fileName _ k hw]
      have hcard3 : CardInv s3.sd (cstrOf fileName) t (T ++ pend) := by
        rw [hsd3]
        exact hcardP
      obtain ⟨fin, h1, h2, h3⟩ := ih hkt (k + 1) s3 (s3.tempPrint (Spec.removeCR l))
        (Spec.removeCR l) (T ++ pend) ht3b ho3 hca3 hwa3b
        (printLineToFile_verbatim ht3b hcur3 hes3 hview)
        (by rw [tempPrint_sd, tempOut_open ht3b]) hcard3 (by omega)
      refine ⟨fin, h1, ?_, h3⟩
      rw [h2, committed_cons]
      unfold Spec.mergeLine
      rw [if_neg (by simpa using hnp)]
      simp only [List.append_assoc]

/-- A write session whose body sets only the key `name`, on a file of pieces: the session ends, and the new file is in the place of the old. -/
theorem writeSession_pieces (fileName name text : List Nat) (ls : List (List Nat))
    (s : SdConfigFile) (hk : ∀ l ∈ ls, KeyedPiece l)
    (hb : s.sd.beginOk = true) (hr : s.sd.openReadOk = true) (hw : s.sd.openWriteOk = true)
    (hrm : s.sd.removeOk = true) (hrn : s.sd.renameOk = true)
    (hfile : SdFat.lookup s.sd.files (cstrOf fileName) = some ls.flatten)
    (hname : cstrOf fileName ≠ ascii "_temp")
    (ho : s.origFile = none) (ht : s.tempFile = none) :
    ∃ fin, writeSession fileName (setCallback name text) s = .ok fin
      ∧ SdFat.lookup fin.sd.files (cstrOf fileName) = some (Spec.committed name text ls)
      ∧ fin.tempFile = none ∧ fin.origFile = none
      ∧ fin.sd.beginOk = true ∧ fin.sd.openReadOk = true := by
  obtain ⟨σ, hwr, hσt, hσo, hσc, hσw, hσp, hcard⟩ := write_first hb hr hw hrm hrn hfile hname ho ht
  unfold writeSession
  rw [hfile]
  simp only [Option.getD_some]
  rw [writeSessionLoop_congr fileName _ _ hwr]
  have hlen := length_le_flatten_pieces ls hk
  obtain ⟨fin, h1, h2, h3⟩ := session_pieces fileName name text (ascii "_temp") ls hk
    (ls.flatten.length + 2 + 1) σ σ [] [] hσt hσo hσc hσw (printLineToFile_null hσp)
    (by rw [append_nil]) hcard (by omega)
  refine ⟨fin, h1, ?_, h3⟩
  rw [h2]
  simp

/-- The caller loop `while (read(fileName)) {}` over the unread pieces of an open file: `read`
returns `true` once for each piece that holds a parameter, then `false`. -/
theorem readCountLoop_pieces (fileName : List Nat) (ls : List (List Nat)) :
    (∀ l ∈ ls, KeyedPiece l) → ∀ (s : SdConfigFile) (fuel : Nat),
      s.origFile = some ls.flatten → s.tempFile = none → s.commentActive = false →
      (Spec.params ls).length < fuel →
      ∃ s2, readCountLoop fileName fuel s = .ok ((Spec.params ls).length, s2)
        ∧ s2.origFile = none := by
  induction ls with
  | nil =>
    intro _ s fuel hfile htemp _ hfuel
    obtain ⟨k, hk⟩ : ∃ k, fuel = k + 1 := ⟨fuel - 1, by omega⟩
    subst hk
    have hfile' : s.origFile = some [] := by simpa using hfile
    refine ⟨{ s with origFile := none }, ?_, rfl⟩
    unfold readCountLoop
    rw [read_open (by rw [hfile']; rfl), readConfigLine_nil hfile', printLineToFile_closed htemp]
    simp [Spec.params]
  | cons l ls ih =>
    intro hfit s fuel hfile htemp hca hfuel
    have hl : KeyedPiece l := hfit l (by simp)
    have hfit' : ∀ l' ∈ ls, KeyedPiece l' := fun l' h' => hfit l' (by simp [h'])
    have hfile' : s.origFile = some (l ++ ls.flatten) := by simpa using hfile
    have hp := printLineToFile_closed htemp
    obtain ⟨k, hk⟩ : ∃ k, fuel = k + 1 := ⟨fuel - 1, by omega⟩
    subst hk
    by_cases hpar : Spec.isParam (Spec.removeCR l) = true
    · obtain ⟨⟨s3, a, q, hr, he, _, e1, e2, e3, e4, e5, _⟩, _⟩ :=
        readConfigLine_piece hl hfile' hca hp hpar
      rw [params_cons_true ls hpar] at hfuel ⊢
      simp only [List.length_cons] at hfuel ⊢
      obtain ⟨s5, h5, k1⟩ := ih hfit' s3 k e1 (by rw [e5]; exact htemp) e2 (by omega)
      refine ⟨s5, ?_, k1⟩
      unfold readCountLoop
      rw [read_open (by rw [hfile']; rfl), hr]
      simp only [h5]
    · have hpar' : Spec.isParam (Spec.removeCR l) = false := by simpa using hpar
      obtain ⟨s3, hr, e1, e2, e3, e4, e5, _, _, _, _⟩ := readConfigLine_skip (piece_fit hl hpar') hfile' hca hp hpar'
      rw [params_cons_false ls hpar'] at hfuel ⊢
      obtain ⟨s5, h5, k1⟩ := ih hfit' s3 (k + 1) e1 (by rw [e5]; exact htemp) e2 hfuel
      refine ⟨s5, ?_, k1⟩
      rw [@readCountLoop_congr fileName k s s3
        (by rw [read_open (by rw [hfile']; rfl), read_open (by rw [e1]; rfl), hr])]
      exact h5

end SdConfigFile

/-! ## The claims on write sessions and on the tokenizer -/

namespace SdConfigFile
open Libc

/-- C13, at an object in the append phase with the temporary file open (it holds `a=2`): the
call `set("c", 5)` writes the line `c=5` CR LF to the temporary file and returns `false`, where
the doc comment of `set` promises `true` if the configuration was set. -/
theorem C13_set_returns_false_in_append_phase :
    (beforeCommit true).writeAppend = true
    ∧ (beforeCommit true).tempFile = some (ascii "_temp")
    ∧ (set_long (ascii "c") 5 (beforeCommit true)).map
        (fun r => (r.1, SdFat.lookup r.2.sd.files (ascii "_temp")))
      = .ok (false, some (ascii "a=2\r\nc=5\r\n")) := by
  decide

/-- C14, at the file `hello` (five bytes, no line end): `read(path, callback)` runs the
callback for the line, with the key token `hello` and nothing behind it, the resumable
`read(path)` and `readConfigLine` return `true` for it, and so does `write(path)`, with the
cursor at `hello`; the line holds no `=` and continues no earlier line. The same line with its
line feed is skipped. -/
theorem C14_unterminated_line_is_reported :
    (readWith (ascii "cfg") noteEntry (fresh (ascii "cfg") (ascii "hello")) []).map
        (fun r => r.2.2) = .ok [(ascii "hello", [])]
    ∧ (read (ascii "cfg") (fresh (ascii "cfg") (ascii "hello"))).map Prod.fst = .ok true
    ∧ (readConfigLine (opened (ascii "hello"))).map Prod.fst = .ok true
    ∧ (write (ascii "cfg") (fresh (ascii "cfg") (ascii "hello"))).map
        (fun r => (r.1, r.2.textAt r.2.currentPos)) = .ok (true, ascii "hello")
    ∧ (readWith (ascii "cfg") noteEntry (fresh (ascii "cfg") (ascii "hello\n")) []).map
        (fun r => r.2.2) = .ok [] := by
  decide

/-- C16, at the file `hello` (five bytes, no line end): the first call of `write(path)` returns
`true` for the line, `set("k", 1)` does not match, and the second call of `write(path)`
dereferences `NULL` instead of going on to the commit: the session
`while (write(path)) set("k", 1);` does not come to its end. -/
theorem C16_session_faults_on_unterminated_line :
    (write (ascii "cfg") (fresh (ascii "cfg") (ascii "hello"))).map Prod.fst = .ok true
    ∧ (set_int (ascii "k") 1 (firstPending (ascii "hello"))).map Prod.fst = .ok false
    ∧ (set_int (ascii "k") 1 (firstPending (ascii "hello"))).bind
        (fun r => write (ascii "cfg") r.2) = .error .nullDeref
    ∧ writeSession (ascii "cfg") (setIntBody (ascii "k") 1) (fresh (ascii "cfg") (ascii "hello"))
      = .error .nullDeref := by
  decide

/-- C18, at the entry `a=1` in the merge phase of a write session: `set("a", 5)` matches and
returns `true`, and the call `set("b", 6)` made next on the same entry dereferences `NULL`.
The same holds for a `get` after that `set`. -/
theorem C18_second_call_after_match_faults :
    (set_int (ascii "a") 5 (firstPending (ascii "a=1\n"))).map
        (fun r => (r.1, r.2.currentPos)) = .ok (true, none)
    ∧ (set_int (ascii "a") 5 (firstPending (ascii "a=1\n"))).bind
        (fun r => set_int (ascii "b") 6 r.2) = .error .nullDeref
    ∧ (set_int (ascii "a") 5 (firstPending (ascii "a=1\n"))).bind
        (fun r => get_int (ascii "b") 0 r.2) = .error .nullDeref := by
  decide

/-- C19, at a comment line of 39 characters: the chunk that holds its line feed has one byte, and
`commentActive` is still `true` when the whole line has been read. When the line `key=value`
follows the comment, `read` reports no entry; without the comment the entry `key` is
reported. -/
theorem C19_comment_continuation_leaks :
    (readConfigLine (opened comment39)).map (fun r => (r.1, r.2.origFile, r.2.commentActive))
      = .ok (false, none, true)
    ∧ (readWith (ascii "cfg") noteEntry (fresh (ascii "cfg") (comment39 ++ ascii "key=value\n"))
        []).map (fun r => r.2.2) = .ok []
    ∧ (readWith (ascii "cfg") noteEntry (fresh (ascii "cfg") (ascii "key=value\n")) []).map
        (fun r => r.2.2) = .ok [(ascii "key", ascii "value\n")] := by
  decide

/-- C11, as the code has it: in a write session on a path that is not one of the temp-file
names, every call of `write` other than the one entered with the append phase active, and every
call of `set` and of `get`, leaves the file of that path as it is, and with it every file whose
name is not a temp-file name. A call of `write` that finds the original closed and cannot open
it returns `false` with the temporary file closed; if the temporary file was open when the call
was entered the card is then as it was, and if not the card is as `openTempFile` left it in
that call (it removes a file that stands under the temp-file name and creates an empty one).
The five overloads of `set` go through `setText`. -/
theorem C11_original_untouched_until_commit (fileName : List Nat) (s : SdConfigFile)
    (hs : InSession fileName s) (hpath : cstrOf fileName ∉ tempNames) :
    (∀ b s2, appendActive s = false → write fileName s = .ok (b, s2) →
        SdFat.lookup s2.sd.files (cstrOf fileName) = SdFat.lookup s.sd.files (cstrOf fileName)
        ∧ OthersKept s.sd s2.sd
        ∧ (s.origFile = none →
            (SdFat.lookup s.sd.files (cstrOf fileName) = none ∨ s.sd.openReadOk = false) →
            b = false ∧ s2.tempFile = none
              ∧ (s.tempFile.isSome = true → s2.sd = s.sd)
              ∧ (s.tempFile = none → ∃ b1 s1, openTempFile s = .ok (b1, s1) ∧ s2.sd = s1.sd)))
    ∧ (∀ itemName valueText b s2, setText itemName valueText s = .ok (b, s2) →
        SdFat.lookup s2.sd.files (cstrOf fileName) = SdFat.lookup s.sd.files (cstrOf fileName)
        ∧ OthersKept s.sd s2.sd)
    ∧ (∀ itemName x b y s2, get_int itemName x s = .ok (b, y, s2) → s2.sd = s.sd)
    ∧ (∀ itemName x b y s2, get_long itemName x s = .ok (b, y, s2) → s2.sd = s.sd)
    ∧ (∀ itemName x b y s2, get_bool itemName x s = .ok (b, y, s2) → s2.sd = s.sd)
    ∧ (∀ itemName dst maxLength b d s2,
        get_chars itemName dst maxLength s = .ok (b, d, s2) → s2.sd = s.sd)
    ∧ (∀ itemName x b y s2, get_String itemName x s = .ok (b, y, s2) → s2.sd = s.sd) := by
  have hinv := inSession_temp hs
  refine ⟨?_, ?_, fun _ _ _ _ _ h => (get_int_frame h).1, fun _ _ _ _ _ h => (get_long_frame h).1,
    fun _ _ _ _ _ h => (get_bool_frame h).1, fun _ _ _ _ _ _ h => (get_chars_frame h).1,
    fun _ _ _ _ _ h => (get_String_frame h).1⟩
  · intro b s2 hact h
    obtain ⟨_, w2, _, w4, _⟩ := write_merge_frame hinv hact h
    exact ⟨w2 _ hpath, w2, w4 hpath⟩
  · intro itemName valueText b s2 h
    obtain ⟨_, f2, _⟩ := setText_frame hinv h
    exact ⟨f2 _ hpath, f2⟩

/-- C11 at a newly constructed object whose card holds no file `cfg`, only a left-over `_temp`:
the call `write("cfg")` is entered with the append phase not active, the original closed and
absent and the temporary file closed, so it is a call that fails to open the original. -/
theorem C11_original_untouched_until_commit_witness :
    InSession (ascii "cfg") staleTemp
    ∧ cstrOf (ascii "cfg") ∉ tempNames
    ∧ appendActive staleTemp = false
    ∧ staleTemp.origFile = none
    ∧ staleTemp.tempFile = none
    ∧ SdFat.lookup staleTemp.sd.files (cstrOf (ascii "cfg")) = none
    ∧ (write (ascii "cfg") staleTemp).map (fun r => (r.1, r.2.tempFile, r.2.sd.files))
        = .ok (false, none, [(ascii "_temp", [])])
    ∧ (openTempFile staleTemp).map (fun r => (r.1, r.2.sd.files))
        = .ok (true, [(ascii "_temp", [])])
    ∧ ((∀ b s2, appendActive staleTemp = false →
        write (ascii "cfg") staleTemp = .ok (b, s2) →
        SdFat.lookup s2.sd.files (cstrOf (ascii "cfg"))
          = SdFat.lookup staleTemp.sd.files (cstrOf (ascii "cfg"))
        ∧ OthersKept staleTemp.sd s2.sd
        ∧ (staleTemp.origFile = none →
            (SdFat.lookup staleTemp.sd.files (cstrOf (ascii "cfg")) = none
              ∨ staleTemp.sd.openReadOk = false) →
            b = false ∧ s2.tempFile = none
              ∧ (staleTemp.tempFile.isSome = true → s2.sd = staleTemp.sd)
              ∧ (staleTemp.tempFile = none →
                  ∃ b1 s1, openTempFile staleTemp = .ok (b1, s1) ∧ s2.sd = s1.sd)))
      ∧ (∀ itemName valueText b s2,
        setText itemName valueText staleTemp = .ok (b, s2) →
        SdFat.lookup s2.sd.files (cstrOf (ascii "cfg"))
          = SdFat.lookup staleTemp.sd.files (cstrOf (ascii "cfg"))
        ∧ OthersKept staleTemp.sd s2.sd)
      ∧ (∀ itemName x b y s2, get_int itemName x staleTemp = .ok (b, y, s2) →
        s2.sd = staleTemp.sd)
      ∧ (∀ itemName x b y s2, get_long itemName x staleTemp = .ok (b, y, s2) →
        s2.sd = staleTemp.sd)
      ∧ (∀ itemName x b y s2, get_bool itemName x staleTemp = .ok (b, y, s2) →
        s2.sd = staleTemp.sd)
      ∧ (∀ itemName dst maxLength b d s2,
        get_chars itemName dst maxLength staleTemp = .ok (b, d, s2) →
        s2.sd = staleTemp.sd)
      ∧ (∀ itemName x b y s2,
        get_String itemName x staleTemp = .ok (b, y, s2) →
        s2.sd = staleTemp.sd)) :=
  ⟨InSession.constructed _ _ _, by decide, by decide, by decide, by decide, by decide, by decide,
    by decide,
    C11_original_untouched_until_commit (ascii "cfg") staleTemp (InSession.constructed _ _ _)
      (by decide)⟩

/-- C11 fails as stated: on a card that holds no file `cfg` but a left-over file `_temp` with
the content `precious`, the first call `write("cfg")` of a session cannot open the original and
returns `false`, yet it has deleted the left-over file: `openTempFile`, which runs before the
original is opened, removed it and created an empty file under that name. -/
theorem C11_counterexample :
    cstrOf (ascii "cfg") ∉ tempNames
    ∧ appendActive staleTemp = false
    ∧ SdFat.lookup staleTemp.sd.files (ascii "cfg") = none
    ∧ SdFat.lookup staleTemp.sd.files (ascii "_temp") = some (ascii "precious\n")
    ∧ (write (ascii "cfg") staleTemp).map
          (fun r => (r.1, SdFat.lookup r.2.sd.files (ascii "cfg"),
            SdFat.lookup r.2.sd.files (ascii "_temp")))
        = .ok (false, none, some []) := by
  decide

/-- C20, at a session on the path `_temp`: the first call of `write`, entered with the append
phase not active, opens the temporary file under the name of the original; the original
`a=1` is deleted and an empty file stands in its place, before any commit. -/
theorem C20_counterexample :
    appendActive (fresh (ascii "_temp") (ascii "a=1\n")) = false
    ∧ SdFat.lookup (fresh (ascii "_temp") (ascii "a=1\n")).sd.files (cstrOf (ascii "_temp"))
        = some (ascii "a=1\n")
    ∧ (write (ascii "_temp") (fresh (ascii "_temp") (ascii "a=1\n"))).map
          (fun r => (r.1, SdFat.lookup r.2.sd.files (cstrOf (ascii "_temp")), appendActive r.2))
        = .ok (true, some [], true) := by decide

/-- C20 (as amended), for paths that are not temp-file names: in every state of a write session a call of
`write` entered with the append phase active is the commit; every other call of `write`, and
every call of `set` and of `get`, leaves the file of the path as it is, so it neither deletes
the original nor renames the temporary file onto it; and the append phase is active after a
call only when it was active before, or when the call is a call of `write` that returns `true`
after `readConfigLine` has returned `false` on the open original (the handle that was open at
entry, or the file of the path opened by this call), which closes the original. -/
theorem C20_commit_only_after_merge (fileName : List Nat) (s : SdConfigFile)
    (hs : InSession fileName s) (hpath : cstrOf fileName ∉ tempNames) :
    (appendActive s = true → write fileName s = .ok (writeCommit fileName s))
    ∧ (∀ b s2, appendActive s = false → write fileName s = .ok (b, s2) →
        SdFat.lookup s2.sd.files (cstrOf fileName) = SdFat.lookup s.sd.files (cstrOf fileName)
        ∧ (appendActive s2 = true → b = true ∧ s2.origFile = none
            ∧ ∃ σ σ1, σ.origFile.isSome = true
              ∧ (s.tempFile.isSome = true → s.origFile.isSome = true → σ = s)
              ∧ (s.origFile.isSome = true → σ.origFile = s.origFile)
              ∧ (s.origFile = none → σ.origFile = SdFat.lookup s.sd.files (cstrOf fileName))
              ∧ readConfigLine σ = .ok (false, σ1) ∧ s2 = { σ1 with writeAppend := true }))
    ∧ (∀ itemName valueText b s2, setText itemName valueText s = .ok (b, s2) →
        SdFat.lookup s2.sd.files (cstrOf fileName) = SdFat.lookup s.sd.files (cstrOf fileName)
        ∧ appendActive s2 = appendActive s)
    ∧ (∀ itemName x b y s2, get_int itemName x s = .ok (b, y, s2) →
        s2.sd = s.sd ∧ appendActive s2 = appendActive s)
    ∧ (∀ itemName x b y s2, get_long itemName x s = .ok (b, y, s2) →
        s2.sd = s.sd ∧ appendActive s2 = appendActive s)
    ∧ (∀ itemName x b y s2, get_bool itemName x s = .ok (b, y, s2) →
        s2.sd = s.sd ∧ appendActive s2 = appendActive s)
    ∧ (∀ itemName dst maxLength b d s2,
        get_chars itemName dst maxLength s = .ok (b, d, s2) →
        s2.sd = s.sd ∧ appendActive s2 = appendActive s)
    ∧ (∀ itemName x b y s2, get_String itemName x s = .ok (b, y, s2) →
        s2.sd = s.sd ∧ appendActive s2 = appendActive s) := by
  have hinv := inSession_temp hs
  have key : ∀ s2 : SdConfigFile, s2.tempFile = s.tempFile → s2.writeAppend = s.writeAppend →
      appendActive s2 = appendActive s := by
    intro s2 e1 e2
    unfold appendActive
    rw [e1, e2]
  refine ⟨write_commit_eq fileName, ?_, ?_,
    fun _ _ _ _ _ h => ⟨(get_int_frame h).1, key _ (get_int_frame h).2.1 (get_int_frame h).2.2⟩,
    fun _ _ _ _ _ h => ⟨(get_long_frame h).1, key _ (get_long_frame h).2.1 (get_long_frame h).2.2⟩,
    fun _ _ _ _ _ h => ⟨(get_bool_frame h).1, key _ (get_bool_frame h).2.1 (get_bool_frame h).2.2⟩,
    fun _ _ _ _ _ _ h =>
      ⟨(get_chars_frame h).1, key _ (get_chars_frame h).2.1 (get_chars_frame h).2.2⟩,
    fun _ _ _ _ _ h =>
      ⟨(get_String_frame h).1, key _ (get_String_frame h).2.1 (get_String_frame h).2.2⟩⟩
  · intro b s2 hact h
    obtain ⟨_, w2, _, _, w5⟩ := write_merge_frame hinv hact h
    refine ⟨w2 _ hpath, fun hact2 => ?_⟩
    obtain ⟨y1, y2, σ, σ1, y3, y4, y5, y6, y7, y8, y9⟩ := w5 hact2
    exact ⟨y1, y2, σ, σ1, y3, y4, y6, fun e => (y7 e).trans (y5 _ hpath), y8, y9⟩
  · intro itemName valueText b s2 h
    obtain ⟨_, f2, f3, f4, _⟩ := setText_frame hinv h
    exact ⟨f2 _ hpath, key _ f3 f4⟩

/-- C20 (as amended) at the object that the first call of `write` leaves for the file `a=1`: the
append phase is not active, and the next call of `write` returns `true` with the append phase
active. -/
theorem C20_commit_only_after_merge_witness :
    InSession (ascii "cfg") pendingEntry
    ∧ cstrOf (ascii "cfg") ∉ tempNames
    ∧ appendActive pendingEntry = false
    ∧ (write (ascii "cfg") pendingEntry).map (fun r => (r.1, appendActive r.2)) = .ok (true, true)
    ∧ ((appendActive pendingEntry = true → write (ascii "cfg") pendingEntry = .ok (writeCommit (ascii "cfg") pendingEntry))
      ∧ (∀ b s2, appendActive pendingEntry = false → write (ascii "cfg") pendingEntry = .ok (b, s2) →
          SdFat.lookup s2.sd.files (cstrOf (ascii "cfg"))
            = SdFat.lookup pendingEntry.sd.files (cstrOf (ascii "cfg"))
          ∧ (appendActive s2 = true → b = true ∧ s2.origFile = none
              ∧ ∃ σ σ1, σ.origFile.isSome = true
                ∧ (pendingEntry.tempFile.isSome = true → pendingEntry.origFile.isSome = true → σ = pendingEntry)
                ∧ (pendingEntry.origFile.isSome = true → σ.origFile = pendingEntry.origFile)
                ∧ (pendingEntry.origFile = none
                    → σ.origFile = SdFat.lookup pendingEntry.sd.files (cstrOf (ascii "cfg")))
                ∧ readConfigLine σ = .ok (false, σ1) ∧ s2 = { σ1 with writeAppend := true }))
      ∧ (∀ itemName valueText b s2, setText itemName valueText pendingEntry = .ok (b, s2) →
          SdFat.lookup s2.sd.files (cstrOf (ascii "cfg"))
            = SdFat.lookup pendingEntry.sd.files (cstrOf (ascii "cfg"))
          ∧ appendActive s2 = appendActive pendingEntry)
      ∧ (∀ itemName x b y s2, get_int itemName x pendingEntry = .ok (b, y, s2) →
          s2.sd = pendingEntry.sd ∧ appendActive s2 = appendActive pendingEntry)
      ∧ (∀ itemName x b y s2, get_long itemName x pendingEntry = .ok (b, y, s2) →
          s2.sd = pendingEntry.sd ∧ appendActive s2 = appendActive pendingEntry)
      ∧ (∀ itemName x b y s2, get_bool itemName x pendingEntry = .ok (b, y, s2) →
          s2.sd = pendingEntry.sd ∧ appendActive s2 = appendActive pendingEntry)
      ∧ (∀ itemName dst maxLength b d s2,
          get_chars itemName dst maxLength pendingEntry = .ok (b, d, s2) →
          s2.sd = pendingEntry.sd ∧ appendActive s2 = appendActive pendingEntry)
      ∧ (∀ itemName x b y s2, get_String itemName x pendingEntry = .ok (b, y, s2) →
          s2.sd = pendingEntry.sd ∧ appendActive s2 = appendActive pendingEntry)) :=
  ⟨InSession.byWrite (InSession.constructed _ _ _)
      (by decide : write (ascii "cfg") (fresh (ascii "cfg") (ascii "a=1\n"))
        = .ok (true, pendingEntry)),
    by decide, by decide, by decide,
    C20_commit_only_after_merge (ascii "cfg") pendingEntry
      (InSession.byWrite (InSession.constructed _ _ _)
        (by decide : write (ascii "cfg") (fresh (ascii "cfg") (ascii "a=1\n"))
          = .ok (true, pendingEntry)))
      (by decide)⟩

/-- C17, at the file `a=1`, `b=2` and the session `while (write(path)) set("a", 9);`: after
`set` has matched the pending line `a=1`, the next step flushes nothing to the temp file and
presents `b`; the committed file holds `b=2` first and `a=9` last, so the line `a=9` is not at
the position of the line `a=1`. Without the call of `set` the step flushes `a=1`. -/
theorem C17_counterexample :
    (writeSession (ascii "cfg") (setIntBody (ascii "a") 9)
        (fresh (ascii "cfg") (ascii "a=1\nb=2\n"))).map
          (fun r => SdFat.lookup r.sd.files (ascii "cfg"))
      = .ok (some (ascii "b=2\r\na=9\r\n"))
    ∧ ((set_int (ascii "a") 9 (firstPending (ascii "a=1\nb=2\n"))).bind
          (fun r => write (ascii "cfg") r.2)).map
          (fun r => (r.1, SdFat.lookup r.2.sd.files (ascii "_temp"), r.2.textAt r.2.currentPos))
      = .ok (true, some [], ascii "b")
    ∧ (write (ascii "cfg") (firstPending (ascii "a=1\nb=2\n"))).map
          (fun r => (r.1, SdFat.lookup r.2.sd.files (ascii "_temp"), r.2.textAt r.2.currentPos))
      = .ok (true, some (ascii "a=1\r\n"), ascii "b") := by decide

/-- C17 (as amended). The merge leaves the matched line out and the new line comes last. The
original file is made of the lines `pre`, the line `l` and the lines `post`, each of which ends
in a line feed, fits the buffer, holds no NUL and, taken without its carriage returns, has a
byte before its first `=` when it holds a parameter; `l` holds a parameter whose trimmed key is
the key `name` and is not empty. Then the session `while (write(path)) set(name, value);`, where
`text` is what `println(value)` prints before the line end, ends, and the committed file is the
lines of `pre` as the merge writes them, directly followed by the lines of `post` as the merge
writes them, followed by the line `name=text` CR LF. -/
theorem C17_matched_line_left_out_and_appended (fileName name text : List Nat)
    (pre post : List (List Nat)) (l : List Nat) (s : SdConfigFile)
    (hk : ∀ x ∈ pre ++ l :: post, KeyedLine x)
    (hl : Spec.isParam (Spec.removeCR l) = true)
    (hkey : cstrOf name = Spec.trim (Spec.tokKey (Spec.removeCR l)))
    (hne : Spec.trim (Spec.tokKey (Spec.removeCR l)) ≠ [])
    (hb : s.sd.beginOk = true) (hr : s.sd.openReadOk = true) (hw : s.sd.openWriteOk = true)
    (hrm : s.sd.removeOk = true) (hrn : s.sd.renameOk = true)
    (hfile : SdFat.lookup s.sd.files (cstrOf fileName) = some (pre ++ l :: post).flatten)
    (hname : cstrOf fileName ≠ ascii "_temp")
    (ho : s.origFile = none) (ht : s.tempFile = none) :
    ∃ fin, writeSession fileName (setCallback name text) s = .ok fin
      ∧ SdFat.lookup fin.sd.files (cstrOf fileName)
        = some ((pre.map (fun x => Spec.mergeLine name (Spec.removeCR x))).flatten
            ++ (post.map (fun x => Spec.mergeLine name (Spec.removeCR x))).flatten
            ++ (cstrOf name ++ [61] ++ text ++ Print.newline)) := by
  obtain ⟨fin, h1, h2, _⟩ := writeSession_committed fileName name text (pre ++ l :: post) s hk
    hb hr hw hrm hrn hfile hname ho ht
  refine ⟨fin, h1, ?_⟩
  rw [h2]
  have hm : Spec.mergeLine name (Spec.removeCR l) = [] := by
    unfold Spec.mergeLine
    rw [if_pos hl, if_pos ⟨hkey, hne⟩]
  unfold Spec.committed Spec.newLines
  simp only [List.map_append, List.map_cons, List.flatten_append, List.flatten_cons, hm,
    List.nil_append, List.flatten_nil, List.append_nil, List.map_nil]

/-- C17 (as amended) at the file `# c`, `a=1`, `b=2` and `set("a", "9")`: the committed file is
`# c`, `b=2`, `a=9`. -/
theorem C17_matched_line_left_out_and_appended_witness :
    ([ascii "# c\r\n"].map (fun x => Spec.mergeLine (ascii "a") (Spec.removeCR x))).flatten
        ++ ([ascii "b=2\n"].map (fun x => Spec.mergeLine (ascii "a") (Spec.removeCR x))).flatten
        ++ (cstrOf (ascii "a") ++ [61] ++ ascii "9" ++ Print.newline)
      = ascii "# c\nb=2\r\na=9\r\n"
    ∧ ∃ fin, writeSession (ascii "cfg") (setCallback (ascii "a") (ascii "9"))
          (fresh (ascii "cfg") ([ascii "# c\r\n"] ++ ascii "a=1\n" :: [ascii "b=2\n"]).flatten)
        = .ok fin
      ∧ SdFat.lookup fin.sd.files (cstrOf (ascii "cfg"))
        = some (([ascii "# c\r\n"].map
                (fun x => Spec.mergeLine (ascii "a") (Spec.removeCR x))).flatten
            ++ ([ascii "b=2\n"].map
                (fun x => Spec.mergeLine (ascii "a") (Spec.removeCR x))).flatten
            ++ (cstrOf (ascii "a") ++ [61] ++ ascii "9" ++ Print.newline)) :=
  ⟨by decide, C17_matched_line_left_out_and_appended (ascii "cfg") (ascii "a") (ascii "9")
    [ascii "# c\r\n"] [ascii "b=2\n"] (ascii "a=1\n")
    (fresh (ascii "cfg") ([ascii "# c\r\n"] ++ ascii "a=1\n" :: [ascii "b=2\n"]).flatten)
    (by decide) (by decide) (by decide) (by decide) (by decide) (by decide) (by decide)
    (by decide) (by decide) (by decide) (by decide) (by decide) (by decide)⟩

/-- C12, at the file `k = ` and the session `while (write(path)) set("a", 1);`: the first
session commits `k=` CR LF, `a=1` CR LF; the second session, run on that file, finds the line
`k=` too short to hold a parameter and copies it as `fgets` delivers it, without the carriage
return, so it commits `k=` LF, `a=1` CR LF. With the two pairs `a=1`, `b=2` the second session
ends in a fault: after `set("a", 1)` has matched the entry `a=1`, the call `set("b", 2)` runs on
a cursor that is `NULL`. -/
theorem C12_counterexample :
    (writeSession (ascii "cfg") (setIntBody (ascii "a") 1)
        (fresh (ascii "cfg") (ascii "k = \n"))).map
          (fun r => SdFat.lookup r.sd.files (ascii "cfg"))
      = .ok (some (ascii "k=\r\na=1\r\n"))
    ∧ (writeSession (ascii "cfg") (setIntBody (ascii "a") 1)
        (fresh (ascii "cfg") (ascii "k=\r\na=1\r\n"))).map
          (fun r => SdFat.lookup r.sd.files (ascii "cfg"))
      = .ok (some (ascii "k=\na=1\r\n"))
    ∧ ((writeSession (ascii "cfg") (setIntBody (ascii "a") 1)
        (fresh (ascii "cfg") (ascii "k = \n"))).bind
          (writeSession (ascii "cfg") (setIntBody (ascii "a") 1))).map
          (fun r => SdFat.lookup r.sd.files (ascii "cfg"))
      = .ok (some (ascii "k=\na=1\r\n"))
    ∧ (writeSession (ascii "cfg")
        (fun s => (setIntBody (ascii "a") 1 s).bind (setIntBody (ascii "b") 2))
        (fresh (ascii "cfg") (ascii "x=0\n"))).map
          (fun r => SdFat.lookup r.sd.files (ascii "cfg"))
      = .ok (some (ascii "x=0\r\na=1\r\nb=2\r\n"))
    ∧ writeSession (ascii "cfg")
        (fun s => (setIntBody (ascii "a") 1 s).bind (setIntBody (ascii "b") 2))
        (fresh (ascii "cfg") (ascii "x=0\r\na=1\r\nb=2\r\n"))
      = .error .nullDeref := by decide

/-- C12 (as amended). Idempotence of a write session that sets one pair. The original file is
made of the lines `ls`, each of which ends in a line feed, fits the buffer, holds no NUL and,
taken without its carriage returns, has a byte before its first `=` when it holds a parameter;
every parameter whose trimmed key is not `name` has a trimmed key that is not empty and, written
again as trimmed key, `=`, trimmed value token, still holds a parameter (it is longer than three
bytes and does not start like a comment). The key `name` is not empty and has no NUL, `=`,
white space or comment start; `text`, which `println(value)` prints before the line end, is not
empty and has no NUL, CR or LF; the line `name=text` fits the buffer. Then the session
`while (write(path)) set(name, value);` ends and commits a file `F1`; the same session run again
by the same object ends and commits `F1` again, and so does the same session run by any object
with closed files on the card that the first session left. -/
theorem C12_one_pair_session_idempotent (fileName name text : List Nat) (ls : List (List Nat))
    (s : SdConfigFile) (hk : ∀ l ∈ ls, KeyedLine l) (hkey : GoodKey name)
    (hgood : ∀ l ∈ ls, Spec.isParam (Spec.removeCR l) = true →
      Spec.trim (Spec.tokKey (Spec.removeCR l)) ≠ name →
      Spec.trim (Spec.tokKey (Spec.removeCR l)) ≠ []
        ∧ Spec.isParam (Spec.rewritten (Spec.removeCR l)) = true)
    (ht0 : text ≠ []) (h0 : 0 ∉ text) (h10 : 10 ∉ text) (h13 : 13 ∉ text)
    (hfit : name.length + 1 + text.length + 1 < SDCONFIG_BUFFER_LENGTH)
    (hb : s.sd.beginOk = true) (hr : s.sd.openReadOk = true) (hw : s.sd.openWriteOk = true)
    (hrm : s.sd.removeOk = true) (hrn : s.sd.renameOk = true)
    (hfile : SdFat.lookup s.sd.files (cstrOf fileName) = some ls.flatten)
    (hname : cstrOf fileName ≠ ascii "_temp")
    (ho : s.origFile = none) (ht : s.tempFile = none) :
    ∃ fin1 F1, writeSession fileName (setCallback name text) s = .ok fin1
      ∧ SdFat.lookup fin1.sd.files (cstrOf fileName) = some F1
      ∧ (∃ fin2, writeSession fileName (setCallback name text) fin1 = .ok fin2
          ∧ SdFat.lookup fin2.sd.files (cstrOf fileName) = some F1)
      ∧ ∀ s2 : SdConfigFile, s2.sd = fin1.sd → s2.origFile = none → s2.tempFile = none →
          ∃ fin2, writeSession fileName (setCallback name text) s2 = .ok fin2
            ∧ SdFat.lookup fin2.sd.files (cstrOf fileName) = some F1 := by
  obtain ⟨fin1, h1, h2, h3, h4, h5, h6⟩ := writeSession_committed fileName name text ls s hk
    hb hr hw hrm hrn hfile hname ho ht
  have hops : SameOps s.sd fin1.sd := by
    unfold writeSession at h1
    exact writeSessionLoop_ops fileName name text _ s fin1
      (fun t e => by rw [ht] at e; simp at e) h1
  obtain ⟨_, _, o3, o4, o5⟩ := hops
  have hgood2 : ∀ l ∈ ls, Spec.isParam (Spec.removeCR l) = true →
      ¬ (cstrOf name = Spec.trim (Spec.tokKey (Spec.removeCR l))
        ∧ Spec.trim (Spec.tokKey (Spec.removeCR l)) ≠ []) →
      Spec.trim (Spec.tokKey (Spec.removeCR l)) ≠ []
        ∧ Spec.isParam (Spec.rewritten (Spec.removeCR l)) = true := by
    intro l hl hp hm
    apply hgood l hl hp
    intro e
    apply hm
    rw [goodKey_cstrOf hkey, e]
    exact ⟨rfl, hkey.1⟩
  have hflat : ((Spec.newLines name text ls).filter (fun l => !decide (l = []))).flatten
      = Spec.committed name text ls := by
    rw [flatten_filter_ne_nil]
    rfl
  have again : ∀ s2 : SdConfigFile, s2.sd = fin1.sd → s2.origFile = none →
      s2.tempFile = none →
      ∃ fin2, writeSession fileName (setCallback name text) s2 = .ok fin2
        ∧ SdFat.lookup fin2.sd.files (cstrOf fileName) = some (Spec.committed name text ls) := by
    intro s2 e1 e2 e3
    obtain ⟨fin2, g1, g2, _⟩ := writeSession_committed fileName name text
      ((Spec.newLines name text ls).filter (fun l => !decide (l = []))) s2
      (newLines_keyed hk hkey hgood2 h0 h10 h13 hfit)
      (by rw [e1]; exact h5) (by rw [e1]; exact h6) (by rw [e1, o3]; exact hw)
      (by rw [e1, o4]; exact hrm) (by rw [e1, o5]; exact hrn)
      (by rw [e1, h2, hflat]) hname e2 e3
    exact ⟨fin2, g1, by rw [g2, committed_again hk hkey hgood2 ht0 h13]⟩
  exact ⟨fin1, _, h1, h2, again fin1 rfl h4 h3, again⟩

/-- C12 (as amended) at a sample file with comment, empty line, text line and the parameters
`gain=7` and ` b = 2 `, for `set("gain", "9")`: the first session commits the file shown. -/
theorem C12_one_pair_session_idempotent_witness :
    Spec.committed (ascii "gain") (ascii "9") keyedSample
      = ascii "# note\n\nhello\nb=2\r\n//c=3\ngain=9\r\n"
    ∧ ∃ fin1 F1, writeSession (ascii "cfg") (setCallback (ascii "gain") (ascii "9"))
          (fresh (ascii "cfg") keyedSample.flatten) = .ok fin1
      ∧ SdFat.lookup fin1.sd.files (cstrOf (ascii "cfg")) = some F1
      ∧ (∃ fin2, writeSession (ascii "cfg") (setCallback (ascii "gain") (ascii "9")) fin1
            = .ok fin2
          ∧ SdFat.lookup fin2.sd.files (cstrOf (ascii "cfg")) = some F1)
      ∧ ∀ s2 : SdConfigFile, s2.sd = fin1.sd → s2.origFile = none → s2.tempFile = none →
          ∃ fin2, writeSession (ascii "cfg") (setCallback (ascii "gain") (ascii "9")) s2
              = .ok fin2
            ∧ SdFat.lookup fin2.sd.files (cstrOf (ascii "cfg")) = some F1 :=
  ⟨by decide, C12_one_pair_session_idempotent (ascii "cfg") (ascii "gain") (ascii "9")
    keyedSample (fresh (ascii "cfg") keyedSample.flatten) (by decide) (by decide) (by decide)
    (by decide) (by decide) (by decide) (by decide) (by decide) (by decide) (by decide)
    (by decide) (by decide) (by decide) (by decide) (by decide) (by decide) (by decide)⟩

/-- C15, at the data line `key=a...ab=2` of 43 bytes (35 times `a`): `read` reports the entry
`key` with the value cut to the 35 bytes that fit the first chunk, and then reports the rest of
the line, `b=2`, as an entry of its own; a write session writes the rest as a line of its own.
At the data line `key=a...a=bbbb` of 45 bytes, whose rest starts with `=`, the write session
ends in a fault: the rest is reported as an entry without value, and the write-through then
trims a cursor that is `NULL`. -/
theorem C15_counterexample :
    (readWith (ascii "cfg") noteEntry (fresh (ascii "cfg") longLine) []).map (fun r => r.2.2)
      = .ok [(ascii "key", List.replicate 35 97), (ascii "b", ascii "2\n")]
    ∧ (writeSession (ascii "cfg") (setIntBody (ascii "k") 1) (fresh (ascii "cfg") longLine)).map
          (fun r => SdFat.lookup r.sd.files (ascii "cfg"))
      = .ok (some (ascii "key=" ++ List.replicate 35 97 ++ ascii "\r\nb=2\r\nk=1\r\n"))
    ∧ (readWith (ascii "cfg") noteEntry (fresh (ascii "cfg") longLineNoValue) []).map
          (fun r => r.2.2)
      = .ok [(ascii "key", List.replicate 35 97), (ascii "bbbb\n", [])]
    ∧ writeSession (ascii "cfg") (setIntBody (ascii "k") 1)
        (fresh (ascii "cfg") longLineNoValue) = .error .nullDeref := by decide

/-- C15 (as amended). A data line that does not fit is read in pieces, each piece like a line of
its own. The file is made of the pieces `ls`; each piece is a line that ends in a line feed,
fits the buffer, holds no NUL and, taken without its carriage returns, has a byte before its
first `=` when it holds a parameter, or it is the first bytes of a longer line, as many as fill
the buffer, without NUL, not starting like a comment, with a byte before the first `=` and a
value token behind it. Then `read(path, onEntry)` and the resumable `read(path)` finish and
visit exactly the pieces that hold a parameter, in file order, a piece that fills the buffer
with its key token and what is left of its value in the chunk; and the session
`while (write(path)) set(name, value);` finishes and commits the pieces as the merge writes
them, each as a line of its own, followed by the line `name=text`. -/
theorem C15_long_line_read_in_pieces (fileName name text : List Nat) (ls : List (List Nat))
    (s : SdConfigFile) (fuel : Nat) (hk : ∀ l ∈ ls, KeyedPiece l)
    (hb : s.sd.beginOk = true) (hr : s.sd.openReadOk = true) (hw : s.sd.openWriteOk = true)
    (hrm : s.sd.removeOk = true) (hrn : s.sd.renameOk = true)
    (hfile : SdFat.lookup s.sd.files (cstrOf fileName) = some ls.flatten)
    (hname : cstrOf fileName ≠ ascii "_temp")
    (ho : s.origFile = none) (ht : s.tempFile = none)
    (hfuel : (Spec.params ls).length < fuel) :
    (∃ s2, readWith fileName noteEntry s []
        = .ok (true, s2, (Spec.params ls).map (fun c => (Spec.tokKey c, Spec.tokRest c)))
      ∧ s2.origFile = none)
    ∧ (∃ s3, readCountLoop fileName fuel s = .ok ((Spec.params ls).length, s3)
      ∧ s3.origFile = none)
    ∧ ∃ fin, writeSession fileName (setCallback name text) s = .ok fin
      ∧ SdFat.lookup fin.sd.files (cstrOf fileName) = some (Spec.committed name text ls) := by
  refine ⟨?_, ?_, ?_⟩
  · obtain ⟨s2, h2, k1, _⟩ := readWith_pieces noteEntry _ actsLike_noteEntry ls hk fileName s []
      hb hr hfile ht
    rw [foldl_note] at h2
    exact ⟨s2, by simpa using h2, k1⟩
  · obtain ⟨k, hk1⟩ : ∃ k, fuel = k + 1 := ⟨fuel - 1, by omega⟩
    subst hk1
    have hopen : read fileName s = read fileName
        { s with origFile := some ls.flatten, commentActive := false, lineOverflow := false } := by
      unfold read
      rw [ho, openConfigFile_ok hb hr hfile]
      simp
    rw [readCountLoop_congr fileName k hopen]
    exact readCountLoop_pieces fileName ls hk _ (k + 1) rfl ht rfl hfuel
  · obtain ⟨fin, h1, h2, _⟩ := writeSession_pieces fileName name text ls s hk hb hr hw hrm hrn
      hfile hname ho ht
    exact ⟨fin, h1, h2⟩

/-- C15 (as amended) at the data line `key=a...ab=2` of 43 bytes, read as the chunk `key=a...a`
and the line `b=2`, with `set("k", "1")`. -/
theorem C15_long_line_read_in_pieces_witness :
    longPieces.flatten = longLine
    ∧ (Spec.params longPieces).map (fun c => (Spec.tokKey c, Spec.tokRest c))
        = [(ascii "key", List.replicate 35 97), (ascii "b", ascii "2\n")]
    ∧ Spec.committed (ascii "k") (ascii "1") longPieces
        = ascii "key=" ++ List.replicate 35 97 ++ ascii "\r\nb=2\r\nk=1\r\n"
    ∧ ((∃ s2, readWith (ascii "cfg") noteEntry (fresh (ascii "cfg") longPieces.flatten) []
          = .ok (true, s2,
              (Spec.params longPieces).map (fun c => (Spec.tokKey c, Spec.tokRest c)))
        ∧ s2.origFile = none)
      ∧ (∃ s3, readCountLoop (ascii "cfg") 3 (fresh (ascii "cfg") longPieces.flatten)
          = .ok ((Spec.params longPieces).length, s3)
        ∧ s3.origFile = none)
      ∧ ∃ fin, writeSession (ascii "cfg") (setCallback (ascii "k") (ascii "1"))
            (fresh (ascii "cfg") longPieces.flatten) = .ok fin
        ∧ SdFat.lookup fin.sd.files (cstrOf (ascii "cfg"))
          = some (Spec.committed (ascii "k") (ascii "1") longPieces)) :=
  ⟨by decide, by decide, by decide,
    C15_long_line_read_in_pieces (ascii "cfg") (ascii "k") (ascii "1") longPieces
      (fresh (ascii "cfg") longPieces.flatten) 3 (by decide) (by decide) (by decide) (by decide)
      (by decide) (by decide) (by decide) (by decide) (by decide) (by decide) (by decide)⟩

end SdConfigFile

/-! ## The entry under the cursor -/

namespace SdConfigFile
open Libc

theorem textAt_entry {s : SdConfigFile} {a q : Nat} {K R : List Nat} (he : Entry s a K q R) :
    s.textAt s.currentPos = K ∧ s.textAt s.strtokSave = R := by
  obtain ⟨post, hK⟩ := he.keyView
  obtain ⟨junk, hR⟩ := he.restView
  unfold textAt
  rw [he.cur, he.save]
  exact ⟨hK.cstr_eq, hR.cstr_eq⟩

/-- Whenever the classification of a chunk ends in `return true`, the cursor stands behind the
leading `=` of the chunk, at its first token, and `strtok` will go on behind the `=` that ends
this token. -/
theorem classifyChunk_cursor {n : Nat} {s2 s3 s4 : SdConfigFile} (c junk0 : List Nat)
    (hb : s2.lineBuffer = c ++ 0 :: junk0)
    (h : classifyChunk n s2 = .ok (some s3, s4)) :
    ∃ q, Entry s3 ((cstrOf c).takeWhile (· = 61)).length (Spec.tokKey (cstrOf c)) q
      (Spec.tokRest (cstrOf c)) := by
  obtain ⟨junk, hv⟩ := view_of_nul_terminated [] c junk0
  simp only [List.nil_append, List.length_nil] at hv
  rw [← hb] at hv
  rw [classifyChunk_eq] at h
  split at h
  · simp at h
  · split at h
    · simp at h
    · by_cases hk : Spec.tokKey (cstrOf c) = []
      · have e := strtokFrom_of_view hv
        rw [if_pos ((tokKey_eq_nil_iff _).1 hk)] at e
        simp [e] at h
      · obtain ⟨buf2, q, post, junk2, e, v1, v2, hle, _⟩ := strtokFrom_views hv hk
        simp only [Nat.zero_add] at e v1 hle
        simp only [e] at h
        split at h
        · simp at h
        · simp only [Except.ok.injEq, Prod.mk.injEq, Option.some.injEq] at h
          obtain ⟨h3, _⟩ := h
          subst h3
          exact ⟨q, ⟨rfl, rfl, ⟨post, v1⟩, ⟨junk2, v2⟩, hle⟩⟩

/-- Whenever `readConfigLine` returns `true`, the entry it presents is made from the chunk that
`fgets` has read last: the cursor stands at the first token of the chunk, taken as a C
string. -/
theorem readConfigLine_chunk {s0 s : SdConfigFile} (h : readConfigLine s0 = .ok (true, s)) :
    ∃ file unread q, s0.origFile = some file ∧ unread <:+ file ∧ unread ≠ []
      ∧ s.origFile = some (SdFat.fgets (SDCONFIG_BUFFER_LENGTH - 1) unread).2
      ∧ Entry s
          ((cstrOf (SdFat.fgets (SDCONFIG_BUFFER_LENGTH - 1) unread).1).takeWhile (· = 61)).length
          (Spec.tokKey (cstrOf (SdFat.fgets (SDCONFIG_BUFFER_LENGTH - 1) unread).1)) q
          (Spec.tokRest (cstrOf (SdFat.fgets (SDCONFIG_BUFFER_LENGTH - 1) unread).1)) := by
  rcases hfile : s0.origFile with _ | file
  · rw [readConfigLine_closed hfile] at h
    simp at h
  · obtain ⟨n, hn⟩ : ∃ n, file.length = n := ⟨_, rfl⟩
    induction n using Nat.strong_induction_on generalizing s0 file with
    | _ n ih =>
      rcases file with _ | ⟨c, cs⟩
      · rw [readConfigLine_nil hfile] at h
        split at h <;> simp at h
      · rw [readConfigLine_cons hfile] at h
        split at h
        · simp at h
        · split at h
          · simp at h
          · rename_i s3 s4 hc
            simp only [Except.ok.injEq, Prod.mk.injEq, true_and] at h
            subst h
            obtain ⟨q, he⟩ := classifyChunk_cursor _ _ rfl hc
            obtain ⟨_, _, f3, _, _, f6⟩ := classifyChunk_frame hc
            have := f6 s3 rfl
            subst this
            exact ⟨c :: cs, c :: cs, q, rfl, List.suffix_refl _, by simp, f3, he⟩
          · rename_i s3 hc
            obtain ⟨_, _, f3, _⟩ := classifyChunk_frame hc
            simp only at f3
            have hlt := fgets_length_lt (SDCONFIG_BUFFER_LENGTH - 1) (by decide) c cs
            obtain ⟨file2, unread, q, e1, e2, e3, e4, e5⟩ :=
              ih _ (by rw [← hn]; exact hlt) h _ f3 rfl
            simp only [Option.some.injEq] at e1
            subst e1
            exact ⟨c :: cs, unread, q, rfl, e2.trans (fgets_suffix _ _), e3, e4, e5⟩

/-- A string that does not start with `=`: its first token is what stands before its first
`=`, and `strtok` goes on with what stands behind that `=`. -/
theorem tok_of_no_lead {c : List Nat} (h : c.head? ≠ some 61) :
    c.takeWhile (· = 61) = [] ∧ Spec.tokKey c = Spec.keyOf c ∧ Spec.tokRest c = Spec.afterEq c := by
  have hd : c.dropWhile (· = 61) = c := by
    rcases c with _ | ⟨x, c⟩
    · rfl
    · have : x ≠ 61 := fun e => h (by simp [e])
      simp [List.dropWhile_cons, this]
  have ht : c.takeWhile (· = 61) = [] := by
    rcases c with _ | ⟨x, c⟩
    · rfl
    · have : x ≠ 61 := fun e => h (by simp [e])
      simp [List.takeWhile_cons, this]
  refine ⟨ht, ?_, ?_⟩
  · unfold Spec.tokKey Spec.keyOf
    rw [hd]
  · unfold Spec.tokRest Spec.afterEq
    rw [hd]

theorem valueOf_eq_tokKey (c : List Nat) : Spec.valueOf c = Spec.tokKey (Spec.afterEq c) := rfl

/-- After a call of `checkItemName` that returned `true` the cursor is at the next token: the
bytes behind the `=` of the key, leading `=` skipped, up to the next `=`. -/
theorem checkItemName_true_value {s s2 : SdConfigFile} {a q : Nat} {K R : List Nat}
    (he : Entry s a K q R) {itemName : List Nat}
    (h : checkItemName itemName s = .ok (true, s2)) :
    s2.currentPos.isSome = true ∧ s2.textAt s2.currentPos = Spec.tokKey R
      ∧ cstrOf itemName = Spec.trim K ∧ Spec.trim K ≠ [] ∧ Spec.tokKey R ≠ [] := by
  by_cases hm : cstrOf itemName = Spec.trim K ∧ Spec.trim K ≠ []
  · by_cases hv : Spec.tokKey R = []
    · obtain ⟨s3, hc, _⟩ := checkItemName_entry_novalue he hm.1 hm.2 hv
      rw [hc] at h
      simp at h
    · obtain ⟨s3, v, q2, hc, he2, _⟩ := checkItemName_entry_match he hm.1 hm.2 hv
      rw [hc] at h
      simp only [Except.ok.injEq, Prod.mk.injEq, true_and] at h
      subst h
      refine ⟨by rw [he2.cur]; rfl, (textAt_entry he2).1, hm.1, hm.2, hv⟩
  · rw [checkItemName_entry_nomatch he hm] at h
    simp at h

end SdConfigFile

/-! ## The claims on the split at `=` and on repeated lookups -/

namespace SdConfigFile
open Libc

/-- C21, at the line `url=a=b`: after the key `url` has matched, the cursor is at the value
`a`, and `get("url", String&)` delivers `a`; the bytes after the first `=` up to the end of the
chunk are `a=b` and the line feed. At the line `=abc=1` the entry is reported with the cursor
at offset 1 and the key `abc`, while no byte stands before the first `=` of the chunk. -/
theorem C21_counterexample :
    (checkItemName (ascii "url") (firstEntry (ascii "url=a=b\n"))).map
        (fun r => (r.1, r.2.textAt r.2.currentPos)) = .ok (true, ascii "a")
    ∧ (get_String (ascii "url") [] (firstEntry (ascii "url=a=b\n"))).map
        (fun r => (r.1, r.2.1)) = .ok (true, ascii "a")
    ∧ Spec.afterEq (ascii "url=a=b\n") = ascii "a=b\n"
    ∧ (readConfigLine (opened (ascii "=abc=1\n"))).map
        (fun r => (r.1, r.2.currentPos, r.2.textAt r.2.currentPos))
      = .ok (true, some 1, ascii "abc")
    ∧ Spec.keyOf (ascii "=abc=1\n") = [] := by
  decide

/-- C21 (as amended). The chunk is split by `strtok` at `=`. Whenever `readConfigLine` reports
an entry, let `c` be the chunk that `fgets` has read last, as the C string in the buffer. The
cursor stands behind the leading `=` of `c`, at the first token of `c`; when `c` does not start
with `=`, the cursor is at the buffer start and the key is exactly the bytes before the first
`=` of `c`. After a call of `checkItemName` that returned `true` the cursor is at the value:
the next token, that is, for a chunk that does not start with `=`, the bytes after the first
`=` with further `=` skipped, up to the next `=` or the end of the chunk; these are exactly the
bytes after the first `=` up to the end of the chunk when no `=` is among them. -/
theorem C21_split_by_strtok (s0 s : SdConfigFile) (h : readConfigLine s0 = .ok (true, s)) :
    ∃ file unread c, s0.origFile = some file ∧ unread <:+ file
      ∧ c = cstrOf (SdFat.fgets (SDCONFIG_BUFFER_LENGTH - 1) unread).1
      ∧ s.currentPos = some (c.takeWhile (· = 61)).length
      ∧ s.textAt s.currentPos = Spec.tokKey c
      ∧ (c.head? ≠ some 61 → s.currentPos = some 0 ∧ s.textAt s.currentPos = Spec.keyOf c)
      ∧ ∀ itemName s2, checkItemName itemName s = .ok (true, s2) →
          s2.currentPos.isSome = true
          ∧ s2.textAt s2.currentPos = Spec.tokKey (Spec.tokRest c)
          ∧ (c.head? ≠ some 61 → s2.textAt s2.currentPos = Spec.valueOf c
              ∧ (61 ∉ Spec.afterEq c → s2.textAt s2.currentPos = Spec.afterEq c)) := by
  obtain ⟨file, unread, q, e1, e2, _, _, he⟩ := readConfigLine_chunk h
  refine ⟨file, unread, _, e1, e2, rfl, he.cur, (textAt_entry he).1, ?_, ?_⟩
  · intro hh
    obtain ⟨t1, t2, _⟩ := tok_of_no_lead hh
    refine ⟨by rw [he.cur, t1]; rfl, ?_⟩
    rw [(textAt_entry he).1, t2]
  · intro itemName s2 hck
    obtain ⟨c1, c2, _⟩ := checkItemName_true_value he hck
    refine ⟨c1, c2, ?_⟩
    intro hh
    obtain ⟨_, _, t3⟩ := tok_of_no_lead hh
    have e : s2.textAt s2.currentPos
        = Spec.valueOf (cstrOf (SdFat.fgets (SDCONFIG_BUFFER_LENGTH - 1) unread).1) := by
      rw [c2, t3, valueOf_eq_tokKey]
    refine ⟨e, fun h61 => ?_⟩
    rw [e, valueOf_eq_tokKey, tokKey_of_no_eq h61]

/-- C21 (as amended) at the entry read from the line `gain = 42`. -/
theorem C21_split_by_strtok_witness :
    readConfigLine (opened (ascii "gain = 42\n")) = .ok (true, firstEntry (ascii "gain = 42\n"))
    ∧ ∃ file unread c, (opened (ascii "gain = 42\n")).origFile = some file ∧ unread <:+ file
      ∧ c = cstrOf (SdFat.fgets (SDCONFIG_BUFFER_LENGTH - 1) unread).1
      ∧ (firstEntry (ascii "gain = 42\n")).currentPos = some (c.takeWhile (· = 61)).length
      ∧ (firstEntry (ascii "gain = 42\n")).textAt (firstEntry (ascii "gain = 42\n")).currentPos
          = Spec.tokKey c
      ∧ (c.head? ≠ some 61 → (firstEntry (ascii "gain = 42\n")).currentPos = some 0
          ∧ (firstEntry (ascii "gain = 42\n")).textAt
              (firstEntry (ascii "gain = 42\n")).currentPos = Spec.keyOf c)
      ∧ ∀ itemName s2, checkItemName itemName (firstEntry (ascii "gain = 42\n")) = .ok (true, s2) →
          s2.currentPos.isSome = true
          ∧ s2.textAt s2.currentPos = Spec.tokKey (Spec.tokRest c)
          ∧ (c.head? ≠ some 61 → s2.textAt s2.currentPos = Spec.valueOf c
              ∧ (61 ∉ Spec.afterEq c → s2.textAt s2.currentPos = Spec.afterEq c)) :=
  ⟨by decide, C21_split_by_strtok (opened (ascii "gain = 42\n"))
    (firstEntry (ascii "gain = 42\n")) (by decide)⟩

end SdConfigFile
